import Mathlib

/-! Semantic analyzer of tsundata/script (`symbol.go`).

A shallow embedding of the scoped symbol table and of the semantic analyzer.

Go pointers are modelled by addresses into two heaps carried by the state:
`syms` holds the symbol objects (`*VarSymbol`, `*BuiltinTypeSymbol`,
`*FunctionSymbol`) and `tabs` holds the `ScopedSymbolTable` objects.  An address
is the position of the object in its heap; allocation appends.  A `panic` of the
source is an explicit `Fault`, returned together with the state reached when it
was raised.
-/

namespace Script

/-! ## Tokens and syntax trees -/

/-- Modelled from the spec: the `Token` type is declared outside `symbol.go`; a
fault carries "the triggering token's source position", so a token is a kind, a
text and a position. -/
structure Token where
  Kind : String
  Value : String
  LineNo : Nat
  Column : Nat
deriving DecidableEq, Repr

/-- Modelled from the spec: the node types of the AST are declared outside
`symbol.go`.  There is one constructor for every node kind `Visit` dispatches on,
with the fields the handlers read (`Packages`, `Block`, `Declarations`,
`CompoundStatement`, `VarNode`, `TypeNode`, `Left`, `Right`, `Value`, `Children`,
`FuncName`, `FormalParams`, `BlockNode`, `ReturnType`, `PackageName`,
`ActualParams`, `Token`, `Statement`, `DoBranch`, `ThenBranch`, `ElseBranch`),
the operand of a unary operator and the condition of `while` and `if`, which no
handler reads, the `Param` kind read by `VisitFunctionDecl`, and `Nil` for the
nil interface value.  `Value` of `Var` and `Type` is the string the handlers
assert it to be.  A `Dict` lists its values in the order the `range` loop meets
them.  `FunctionCall.id` stands for the address of the node: the field
`FuncSymbol` the analyzer writes is kept in the state under that address. -/
inductive Ast where
  | Program (Packages : List Ast) (Block : Ast)
  | Package (Name : String)
  | Block (Declarations : List (List Ast)) (CompoundStatement : Ast)
  | VarDecl (VarNode : Ast) (TypeNode : Ast)
  | TypeN (Token : Token) (Value : String)
  | BinOp (Left : Ast) (Op : Token) (Right : Ast)
  | Number (Token : Token)
  | Str (Token : Token)
  | Boolean (Token : Token)
  | ListN (Token : Token) (Value : List Ast)
  | DictN (Token : Token) (Keys : List String) (Value : List Ast)
  | Message (Token : Token)
  | UnaryOp (Op : Token) (Expr : Ast)
  | Compound (Children : List Ast)
  | Assign (Left : Ast) (Op : Token) (Right : Ast)
  | Var (Token : Token) (Value : String)
  | NoOp
  | FunctionDecl (FuncName : String) (FormalParams : List Ast) (BlockNode : Ast)
      (ReturnType : Ast)
  | Param (VarNode : Ast) (TypeNode : Ast)
  | FunctionCall (id : Nat) (PackageName : String) (FuncName : String)
      (ActualParams : List Ast) (Token : Token)
  | FunctionRef (PackageName : String) (FuncName : String) (Token : Token)
  | Return (Statement : Ast)
  | Print (Statement : Ast)
  | While (Condition : Ast) (DoBranch : List Ast)
  | If (Condition : Ast) (ThenBranch : List Ast) (ElseBranch : List Ast)
  | Logical (Left : Ast) (Op : Token) (Right : Ast)
  | Nil

/-! ## Symbols -/

/-! A pointer to a symbol object is a `Nat`, its address in the heap
`State.syms`; a pointer to a table is a `Nat`, its address in `State.tabs`.  A
pointer that may be nil is an `Option Nat`. -/

/-- Go `VarSymbol`; `Typ` is the field `Type`, a `Symbol` that may be nil. -/
structure VarSymbol where
  Name : String
  Typ : Option Nat
  ScopeLevel : Int

/-- Go `BuiltinTypeSymbol`. -/
structure BuiltinTypeSymbol where
  Name : String
  Typ : Option Nat
  ScopeLevel : Int

/-- Go `FunctionSymbol`.  `FormalParams` holds the addresses of the appended
`*VarSymbol`s; `Call` is the native hook, which the analyzer never reads. -/
structure FunctionSymbol where
  Package : String
  Name : String
  FormalParams : List Nat
  ReturnType : Ast
  BlockAst : Ast
  ScopeLevel : Int
  Call : Option Nat

/-- A symbol object on the heap: the dynamic type behind a `Symbol` value. -/
inductive SymbolObj where
  | Var (s : VarSymbol)
  | BuiltinType (s : BuiltinTypeSymbol)
  | Function (s : FunctionSymbol)

/-- Go `NewVarSymbol`, the object before it is allocated. -/
def NewVarSymbol (name : String) (t : Option Nat) : VarSymbol :=
  { Name := name, Typ := t, ScopeLevel := 0 }

/-- Go `NewBuiltinTypeSymbol`. -/
def NewBuiltinTypeSymbol (name : String) : BuiltinTypeSymbol :=
  { Name := name, Typ := none, ScopeLevel := 0 }

/-- Go `NewFunctionSymbol`. -/
def NewFunctionSymbol (name : String) : FunctionSymbol :=
  { Package := "", Name := name, FormalParams := [], ReturnType := Ast.Nil,
    BlockAst := Ast.Nil, ScopeLevel := 0, Call := none }

/-- Name of a symbol object, whatever its kind. -/
def SymbolObj.name : SymbolObj → String
  | .Var s => s.Name
  | .BuiltinType s => s.Name
  | .Function s => s.Name

/-- The field `ScopeLevel` of a symbol object, whatever its kind. -/
def SymbolObj.scopeLevel : SymbolObj → Int
  | .Var s => s.ScopeLevel
  | .BuiltinType s => s.ScopeLevel
  | .Function s => s.ScopeLevel

/-! ## The ordered dictionary -/

/-- Modelled from the spec: `collection.OrderedDict` lives outside `symbol.go`.
It is "an ordered mapping from name (string) to Symbol — insertion order
preserved, … but lookup is by key, not position". -/
structure OrderedDict where
  entries : List (String × Nat)
deriving DecidableEq, Repr

/-- Modelled from the spec: `collection.NewOrderedDict`, the empty mapping. -/
def NewOrderedDict : OrderedDict := ⟨[]⟩

/-- Set on the entry list: overwrite the entry of the key, else append. -/
def setEntry : List (String × Nat) → String → Nat → List (String × Nat)
  | [], k, v => [(k, v)]
  | (k1, v1) :: rest, k, v =>
    if k1 = k then (k, v) :: rest else (k1, v1) :: setEntry rest k v

/-- Get on the entry list. -/
def getEntry : List (String × Nat) → String → Option Nat
  | [], _ => none
  | (k1, v1) :: rest, k => if k1 = k then some v1 else getEntry rest k

/-- Modelled from the spec: `OrderedDict.Set`, which "overwrites silently if the
key already exists" and otherwise adds the key after the existing ones. -/
def OrderedDict.Set (d : OrderedDict) (k : String) (v : Nat) : OrderedDict :=
  ⟨setEntry d.entries k v⟩

/-- Modelled from the spec: `OrderedDict.Get`, the value stored under the key, or
nil. -/
def OrderedDict.Get (d : OrderedDict) (k : String) : Option Nat :=
  getEntry d.entries k

/-! ## Tables, state, faults -/

/-- Go `ScopedSymbolTable`. -/
structure ScopedSymbolTable where
  symbols : OrderedDict
  ScopeName : String
  ScopeLevel : Int
  EnclosingScope : Option Nat
deriving DecidableEq, Repr

/-- The error codes the analyzer raises. -/
inductive ErrorCode where
  | DuplicateId
  | IdNotFound
  | UndefinedFunction
  | WrongParamsNum
deriving DecidableEq, Repr

/-- How a run stops without completing.  `semantic` is `panic(b.error(code,
token))`; `runtimePanic` is a Go run-time panic (nil dereference, failed type
assertion); `diverge` stands for a recursion that does not return. -/
inductive Fault where
  | semantic (code : ErrorCode) (token : Token)
  | runtimePanic
  | diverge
deriving DecidableEq, Repr

/-- The two heaps, the field `CurrentScope` of the `SemanticAnalyzer`, and the
`FuncSymbol` fields of the call nodes (latest write first). -/
structure State where
  syms : List SymbolObj
  tabs : List ScopedSymbolTable
  CurrentScope : Option Nat
  FuncSymbol : List (Nat × Nat)

/-- Go `NewSemanticAnalyzer`, on empty heaps. -/
def NewSemanticAnalyzer : State :=
  { syms := [], tabs := [], CurrentScope := none, FuncSymbol := [] }

/-- Outcome of a handler: the state reached, and the fault if one was raised. -/
inductive Result (α : Type) where
  | ok (val : α) (s : State)
  | fault (f : Fault) (s : State)

/-- Run `k` after `r` unless `r` raised a fault. -/
def Result.andThen {α β : Type} (r : Result α) (k : α → State → Result β) : Result β :=
  match r with
  | .ok a s => k a s
  | .fault f s => .fault f s

/-- The state a result ends in. -/
def Result.state {α : Type} : Result α → State
  | .ok _ s => s
  | .fault _ s => s

/-- The fault of a result, if any. -/
def Result.fault? {α : Type} : Result α → Option Fault
  | .ok _ _ => none
  | .fault f _ => some f

/-- Modelled from the spec: the static catalogs `functions`, `iteration` and
`packages` are defined outside `symbol.go`.  Each entry is the address of a
`*FunctionSymbol` of the heap; the lists give the order in which the `range`
loops meet the entries. -/
structure Catalog where
  functions : List Nat
  iteration : List Nat
  packages : String → List Nat

/-- Go `fmt.Sprintf("%s.%s", p, n)`. -/
def qualified (p n : String) : String := p ++ "." ++ n

/-- Go `int` addition on a 64-bit platform. -/
def wrapInt (x : Int) : Int := (x + 2 ^ 63) % 2 ^ 64 - 2 ^ 63

/-! ## Scope table operations -/

/-- Go `(*ScopedSymbolTable).Insert` after its first statement, the log line:
the three type assertions and what each branch stores.  The log line is
`logInsert`, and the method with its log line is `InsertLogged`.  `t` is the
receiver.  A `symbol` with no object of the three kinds behind it fails every
type assertion, so nothing happens.  In each branch
`s.ScopeLevel = t.ScopeLevel` dereferences the receiver. -/
def Insert (b : State) (t : Option Nat) (symbol : Nat) : Result Unit :=
  match b.syms[symbol]? with
  | none => .ok () b
  | some (.Var s) =>
    match t with
    | none => .fault .runtimePanic b
    | some r =>
      match b.tabs[r]? with
      | none => .fault .runtimePanic b
      | some tab =>
        .ok () { b with
          syms := b.syms.set symbol (.Var { s with ScopeLevel := tab.ScopeLevel }),
          tabs := b.tabs.set r { tab with symbols := tab.symbols.Set s.Name symbol } }
  | some (.BuiltinType s) =>
    match t with
    | none => .fault .runtimePanic b
    | some r =>
      match b.tabs[r]? with
      | none => .fault .runtimePanic b
      | some tab =>
        .ok () { b with
          syms := b.syms.set symbol (.BuiltinType { s with ScopeLevel := tab.ScopeLevel }),
          tabs := b.tabs.set r { tab with symbols := tab.symbols.Set s.Name symbol } }
  | some (.Function s) =>
    match t with
    | none => .fault .runtimePanic b
    | some r =>
      match b.tabs[r]? with
      | none => .fault .runtimePanic b
      | some tab =>
        if s.Package ≠ "" then
          .ok () { b with
            syms := b.syms.set symbol (.Function { s with ScopeLevel := tab.ScopeLevel }),
            tabs := b.tabs.set r
              { tab with symbols := tab.symbols.Set (qualified s.Package s.Name) symbol } }
        else
          .ok () { b with
            syms := b.syms.set symbol (.Function { s with ScopeLevel := tab.ScopeLevel }),
            tabs := b.tabs.set r { tab with symbols := tab.symbols.Set s.Name symbol } }

/-- The recursion of Go `(*ScopedSymbolTable).Lookup` along `EnclosingScope`,
with a bound on the number of tables it may enter; when the bound is used up the
outcome is `diverge`. -/
def LookupFuel (tabs : List ScopedSymbolTable) :
    Nat → Nat → String → Bool → Except Fault (Option Nat)
  | 0, _, _, _ => .error .diverge
  | fuel + 1, t, name, currentScopeOnly =>
    match tabs[t]? with
    | none => .error .runtimePanic
    | some tab =>
      match tab.symbols.Get name with
      | some s => .ok (some s)
      | none =>
        if currentScopeOnly then .ok none
        else
          match tab.EnclosingScope with
          | some e => LookupFuel tabs fuel e name false
          | none => .ok none

/-- Go `(*ScopedSymbolTable).Lookup` with receiver `t`.  A nil receiver is
dereferenced at once.  A chain without a cycle enters every table at most once,
so one call per table of the heap is enough. -/
def Lookup (b : State) (t : Option Nat) (name : String) (currentScopeOnly : Bool) :
    Except Fault (Option Nat) :=
  match t with
  | none => .error .runtimePanic
  | some r => LookupFuel b.tabs (b.tabs.length + 1) r name currentScopeOnly

/-- Allocate a symbol object; its address is returned. -/
def allocSym (b : State) (o : SymbolObj) : State × Nat :=
  ({ b with syms := b.syms ++ [o] }, b.syms.length)

/-- One line `table.Insert(NewBuiltinTypeSymbol(name))` of the constructor. -/
def seedBuiltin (table : Nat) (name : String) (b : State) : Result Unit :=
  Insert (allocSym b (.BuiltinType (NewBuiltinTypeSymbol name))).1 (some table)
    (allocSym b (.BuiltinType (NewBuiltinTypeSymbol name))).2

/-- Go `NewScopedSymbolTable`: allocates the table, seeds the six builtin types
and returns the address of the table. -/
def NewScopedSymbolTable (b : State) (scopeName : String) (scopeLevel : Int)
    (enclosingScope : Option Nat) : Result Nat :=
  let table : Nat := b.tabs.length
  let b0 : State := { b with tabs := b.tabs ++
    [{ symbols := NewOrderedDict, ScopeName := scopeName, ScopeLevel := scopeLevel,
       EnclosingScope := enclosingScope }] }
  (seedBuiltin table "INTEGER" b0).andThen fun _ b1 =>
  (seedBuiltin table "FLOAT" b1).andThen fun _ b2 =>
  (seedBuiltin table "BOOL" b2).andThen fun _ b3 =>
  (seedBuiltin table "STRING" b3).andThen fun _ b4 =>
  (seedBuiltin table "LIST" b4).andThen fun _ b5 =>
  (seedBuiltin table "DICT" b5).andThen fun _ b6 =>
  .ok table b6

/-! ## The analyzer -/

/-- A loop `for _, f := range fs { b.CurrentScope.Insert(f) }`. -/
def insertAll : List Nat → State → Result Unit
  | [], b => .ok () b
  | f :: fs, b => (Insert b b.CurrentScope f).andThen fun _ b1 => insertAll fs b1

/-- The assignment `b.CurrentScope = b.CurrentScope.EnclosingScope`. -/
def leaveScope (b : State) : Result Unit :=
  match b.CurrentScope with
  | none => .fault .runtimePanic b
  | some t =>
    match b.tabs[t]? with
    | none => .fault .runtimePanic b
    | some tab => .ok () { b with CurrentScope := tab.EnclosingScope }

/-- The read `b.CurrentScope.ScopeLevel`. -/
def currentLevel (b : State) : Result Int :=
  match b.CurrentScope with
  | none => .fault .runtimePanic b
  | some t =>
    match b.tabs[t]? with
    | none => .fault .runtimePanic b
    | some tab => .ok tab.ScopeLevel b

/-- Go `(*SemanticAnalyzer).VisitPackage`. -/
def VisitPackage (c : Catalog) (Name : String) (b : State) : Result Unit :=
  insertAll (c.packages Name) b

/-- Go `(*SemanticAnalyzer).VisitVarDecl` on a node with fields `VarNode` and
`TypeNode`. -/
def VisitVarDecl (VarNode TypeNode : Ast) (b : State) : Result Unit :=
  match TypeNode with
  | .TypeN _ typeName =>
    match Lookup b b.CurrentScope typeName false with
    | .error f => .fault f b
    | .ok typeSymbol =>
      match VarNode with
      | .Var tok varName =>
        match Lookup (allocSym b (.Var (NewVarSymbol varName typeSymbol))).1
            (allocSym b (.Var (NewVarSymbol varName typeSymbol))).1.CurrentScope varName true with
        | .error f => .fault f (allocSym b (.Var (NewVarSymbol varName typeSymbol))).1
        | .ok (some _) =>
          .fault (.semantic .DuplicateId tok)
            (allocSym b (.Var (NewVarSymbol varName typeSymbol))).1
        | .ok none =>
          Insert (allocSym b (.Var (NewVarSymbol varName typeSymbol))).1
            (allocSym b (.Var (NewVarSymbol varName typeSymbol))).1.CurrentScope
            (allocSym b (.Var (NewVarSymbol varName typeSymbol))).2
      | _ => .fault .runtimePanic b
  | _ => .fault .runtimePanic b

/-- Go `(*SemanticAnalyzer).VisitVar` on a node with fields `Token` and `Value`. -/
def VisitVar (tok : Token) (varName : String) (b : State) : Result Unit :=
  match Lookup b b.CurrentScope varName false with
  | .error f => .fault f b
  | .ok none => .fault (.semantic .IdNotFound tok) b
  | .ok (some _) => .ok () b

/-- The key `funcName` computed at the head of `VisitFunctionCall` and of
`VisitFunctionRef`. -/
def callKey (PackageName FuncName : String) : String :=
  if PackageName ≠ "" then qualified PackageName FuncName else FuncName

/-- Go `(*SemanticAnalyzer).VisitFunctionRef`. -/
def VisitFunctionRef (PackageName FuncName : String) (tok : Token) (b : State) :
    Result Unit :=
  match Lookup b b.CurrentScope (callKey PackageName FuncName) false with
  | .error f => .fault f b
  | .ok (some _) => .ok () b
  | .ok none =>
    match Lookup b b.CurrentScope (qualified "builtin" FuncName) false with
    | .error f => .fault f b
    | .ok none => .fault (.semantic .UndefinedFunction tok) b
    | .ok (some _) => .ok () b

/-- The statement `funcSymbol.FormalParams = append(funcSymbol.FormalParams,
varSymbol)`. -/
def appendFormalParam (b : State) (funcSymbol varSymbol : Nat) : Result Unit :=
  match b.syms[funcSymbol]? with
  | some (.Function f) =>
    .ok () { b with
      syms := b.syms.set funcSymbol
        (.Function { f with FormalParams := f.FormalParams ++ [varSymbol] }) }
  | _ => .fault .runtimePanic b

/-- The loop over `node.FormalParams` in `VisitFunctionDecl`. -/
def declareParams (funcSymbol : Nat) : List Ast → State → Result Unit
  | [], b => .ok () b
  | param :: rest, b =>
    match param with
    | .Param varNode typeNode =>
      match typeNode with
      | .TypeN _ typeName =>
        match Lookup b b.CurrentScope typeName false with
        | .error f => .fault f b
        | .ok paramType =>
          match varNode with
          | .Var _ paramName =>
            (Insert (allocSym b (.Var (NewVarSymbol paramName paramType))).1
              (allocSym b (.Var (NewVarSymbol paramName paramType))).1.CurrentScope
              (allocSym b (.Var (NewVarSymbol paramName paramType))).2).andThen fun _ b1 =>
            (appendFormalParam b1 funcSymbol
              (allocSym b (.Var (NewVarSymbol paramName paramType))).2).andThen fun _ b2 =>
            declareParams funcSymbol rest b2
          | _ => .fault .runtimePanic b
      | _ => .fault .runtimePanic b
    | _ => .fault .runtimePanic b

/-- The two assignments `funcSymbol.BlockAst = node.BlockNode` and
`funcSymbol.ReturnType = node.ReturnType` that end `VisitFunctionDecl`. -/
def backfill (b : State) (funcSymbol : Nat) (blockNode returnType : Ast) : Result Unit :=
  match b.syms[funcSymbol]? with
  | some (.Function f) =>
    .ok () { b with
      syms := b.syms.set funcSymbol
        (.Function { f with BlockAst := blockNode, ReturnType := returnType }) }
  | _ => .fault .runtimePanic b

/-- The part of `VisitFunctionCall` that precedes the visit of the arguments:
the two lookups, the type assertions on the symbol found, and the comparison of
`len(actualParams)` with `len(formalParams)`.  It returns `funcSymbol`. -/
def resolveCall (PackageName FuncName : String) (actualParams : Nat) (tok : Token)
    (b : State) : Result Nat :=
  match Lookup b b.CurrentScope (callKey PackageName FuncName) false with
  | .error f => .fault f b
  | .ok (some funcSymbol) =>
    match b.syms[funcSymbol]? with
    | some (.Function f) =>
      if f.Package = "" then
        if actualParams ≠ f.FormalParams.length then
          .fault (.semantic .WrongParamsNum tok) b
        else .ok funcSymbol b
      else .ok funcSymbol b
    | _ => .fault .runtimePanic b
  | .ok none =>
    match Lookup b b.CurrentScope (qualified "builtin" FuncName) false with
    | .error f => .fault f b
    | .ok none => .fault (.semantic .UndefinedFunction tok) b
    | .ok (some funcSymbol) =>
      match b.syms[funcSymbol]? with
      | some (.Function f) =>
        if f.Package = "" then
          if actualParams ≠ 0 then .fault (.semantic .WrongParamsNum tok) b
          else .ok funcSymbol b
        else .ok funcSymbol b
      | _ => .fault .runtimePanic b

mutual
/-- Go `(*SemanticAnalyzer).Visit`: the dispatch on the kind of the node, with
the body of the handler of that kind.  A kind with no handler (`Param`, nil)
falls through every test and nothing happens.  The log statements are left out:
the lines `ENTER scope` and `LEAVE scope`, the dumps
`log.Println(scope.String())` of `VisitProgram` and `VisitFunctionDecl`, and the
log line of every `Insert`.  They change no state; they print symbols, so a
visit that completes here completes in the code with the same state when that
printing returns (`symbolString`), and is stopped by a stack overflow when it
does not. -/
def Visit (c : Catalog) : Ast → State → Result Unit
  | .Program packages block, b =>
    (NewScopedSymbolTable b "global" 1 b.CurrentScope).andThen fun globalScope b1 =>
    (insertAll c.functions { b1 with CurrentScope := some globalScope }).andThen fun _ b2 =>
    (insertAll c.iteration b2).andThen fun _ b3 =>
    (VisitEach c packages b3).andThen fun _ b4 =>
    (Visit c block b4).andThen fun _ b5 =>
    leaveScope b5
  | .Package name, b => VisitPackage c name b
  | .Block declarations compoundStatement, b =>
    (VisitEachEach c declarations b).andThen fun _ b1 => Visit c compoundStatement b1
  | .VarDecl varNode typeNode, b => VisitVarDecl varNode typeNode b
  | .TypeN _ _, b => .ok () b
  | .BinOp left _ right, b => (Visit c left b).andThen fun _ b1 => Visit c right b1
  | .Number _, b => .ok () b
  | .Str _, b => .ok () b
  | .Boolean _, b => .ok () b
  | .ListN _ value, b => VisitEach c value b
  | .DictN _ _ value, b => VisitEach c value b
  | .Message _, b => .ok () b
  | .UnaryOp _ _, b => .ok () b
  | .Compound children, b => VisitEach c children b
  | .Assign left _ right, b => (Visit c right b).andThen fun _ b1 => Visit c left b1
  | .Var tok value, b => VisitVar tok value b
  | .NoOp, b => .ok () b
  | .FunctionDecl funcName formalParams blockNode returnType, b =>
    (Insert (allocSym b (.Function (NewFunctionSymbol funcName))).1
      (allocSym b (.Function (NewFunctionSymbol funcName))).1.CurrentScope
      (allocSym b (.Function (NewFunctionSymbol funcName))).2).andThen fun _ b1 =>
    (currentLevel b1).andThen fun level b2 =>
    (NewScopedSymbolTable b2 funcName (wrapInt (level + 1)) b2.CurrentScope).andThen
      fun functionScope b3 =>
    (declareParams (allocSym b (.Function (NewFunctionSymbol funcName))).2 formalParams
      { b3 with CurrentScope := some functionScope }).andThen fun _ b4 =>
    (Visit c blockNode b4).andThen fun _ b5 =>
    (leaveScope b5).andThen fun _ b6 =>
    backfill b6 (allocSym b (.Function (NewFunctionSymbol funcName))).2 blockNode returnType
  | .Param _ _, b => .ok () b
  | .FunctionCall id packageName funcName actualParams tok, b =>
    (resolveCall packageName funcName actualParams.length tok b).andThen fun funcSymbol b1 =>
    (VisitEach c actualParams b1).andThen fun _ b2 =>
    .ok () { b2 with FuncSymbol := (id, funcSymbol) :: b2.FuncSymbol }
  | .FunctionRef packageName funcName tok, b => VisitFunctionRef packageName funcName tok b
  | .Return statement, b => Visit c statement b
  | .Print statement, b => Visit c statement b
  | .While _ doBranch, b => VisitEach c doBranch b
  | .If _ thenBranch elseBranch, b =>
    (VisitEach c thenBranch b).andThen fun _ b1 => VisitEach c elseBranch b1
  | .Logical left _ right, b => (Visit c left b).andThen fun _ b1 => Visit c right b1
  | .Nil, b => .ok () b
/-- A loop `for _, n := range nodes { b.Visit(n) }`. -/
def VisitEach (c : Catalog) : List Ast → State → Result Unit
  | [], b => .ok () b
  | n :: rest, b => (Visit c n b).andThen fun _ b1 => VisitEach c rest b1
/-- The two nested loops over `node.Declarations` in `VisitBlock`. -/
def VisitEachEach (c : Catalog) : List (List Ast) → State → Result Unit
  | [], b => .ok () b
  | d :: rest, b => (VisitEach c d b).andThen fun _ b1 => VisitEachEach c rest b1
end

/-- Go `(*SemanticAnalyzer).VisitProgram`. -/
def VisitProgram (c : Catalog) (Packages : List Ast) (Block : Ast) (b : State) : Result Unit :=
  Visit c (.Program Packages Block) b

/-- Go `(*SemanticAnalyzer).VisitFunctionDecl`. -/
def VisitFunctionDecl (c : Catalog) (FuncName : String) (FormalParams : List Ast)
    (BlockNode ReturnType : Ast) (b : State) : Result Unit :=
  Visit c (.FunctionDecl FuncName FormalParams BlockNode ReturnType) b

/-! ## Scope chains -/

/-- The table reached from table `t` after `k` steps along `EnclosingScope`. -/
def nthScope (tabs : List ScopedSymbolTable) : Nat → Nat → Option ScopedSymbolTable
  | 0, t => tabs[t]?
  | k + 1, t =>
    match tabs[t]? with
    | some tab =>
      match tab.EnclosingScope with
      | some e => nthScope tabs k e
      | none => none
    | none => none

/-- The enclosing table of `t`, if any, was allocated before `t`. -/
def enclosingOlder (tabs : List ScopedSymbolTable) (t : Nat) : Bool :=
  match tabs[t]? with
  | some tab =>
    match tab.EnclosingScope with
    | some e => decide (e < t)
    | none => true
  | none => true

/-- Every table of the heap has an older enclosing table or none: the shape of
every heap built by `NewScopedSymbolTable`, whose argument `enclosingScope` is a
table that exists already. -/
def ChainsOlder (tabs : List ScopedSymbolTable) : Prop :=
  ∀ t, t < tabs.length → enclosingOlder tabs t = true

instance (tabs : List ScopedSymbolTable) : Decidable (ChainsOlder tabs) :=
  Nat.decidableBallLT _ _

/-- A heap with a global table binding `INTEGER`, `x` and `y` and, current, a
function table binding `x`. -/
def demoState : State :=
  { syms := [.BuiltinType { Name := "INTEGER", Typ := none, ScopeLevel := 1 },
             .Var { Name := "x", Typ := some 0, ScopeLevel := 1 },
             .Var { Name := "x", Typ := some 0, ScopeLevel := 2 },
             .Var { Name := "y", Typ := some 0, ScopeLevel := 1 }],
    tabs := [{ symbols := ⟨[("INTEGER", 0), ("x", 1), ("y", 3)]⟩, ScopeName := "global",
               ScopeLevel := 1, EnclosingScope := none },
             { symbols := ⟨[("x", 2)]⟩, ScopeName := "f", ScopeLevel := 2,
               EnclosingScope := some 0 }],
    CurrentScope := some 1,
    FuncSymbol := [] }

/-- The key under which `Insert` stores a symbol object: "<package>.<name>" for a
function symbol with a non-empty package, the bare name otherwise. -/
def insertKey : SymbolObj → String
  | .Var s => s.Name
  | .BuiltinType s => s.Name
  | .Function s => if s.Package ≠ "" then qualified s.Package s.Name else s.Name

/-- The symbol object with its field `ScopeLevel` set to `level`. -/
def SymbolObj.withScopeLevel : SymbolObj → Int → SymbolObj
  | .Var s, level => .Var { s with ScopeLevel := level }
  | .BuiltinType s, level => .BuiltinType { s with ScopeLevel := level }
  | .Function s, level => .Function { s with ScopeLevel := level }

/-- The symbol is stored under its bare name: it is a variable, a builtin type,
or a function with an empty package. -/
def SymbolObj.bare : SymbolObj → Prop
  | .Var _ => True
  | .BuiltinType _ => True
  | .Function s => s.Package = ""

/-- A function symbol of a package, as a catalog holds it: no parameters, no
body. -/
def packageFunction (package name : String) : FunctionSymbol :=
  { NewFunctionSymbol name with Package := package }

/-- A heap with an empty table, a variable named `a.b` and a function `b` of
package `a`. -/
def dottedState : State :=
  { syms := [.Var { Name := "a.b", Typ := none, ScopeLevel := 0 },
             .Function (packageFunction "a" "b")],
    tabs := [{ symbols := NewOrderedDict, ScopeName := "global", ScopeLevel := 1,
               EnclosingScope := none }],
    CurrentScope := some 0,
    FuncSymbol := [] }

/-- From `b` to `b1` every table of `b` is still there with the same name, level
and enclosing table, and every table other than the current scope of `b` is
there unchanged. -/
def Framed (b b1 : State) : Prop :=
  ∀ t tab, b.tabs[t]? = some tab →
    ∃ tab1, b1.tabs[t]? = some tab1 ∧ tab1.ScopeName = tab.ScopeName ∧
      tab1.ScopeLevel = tab.ScopeLevel ∧ tab1.EnclosingScope = tab.EnclosingScope ∧
      (b.CurrentScope ≠ some t → tab1 = tab)

/-- The result `r` of a handler started in `b` keeps the tables of `b` in the
sense of `Framed`, and, when no fault was raised, ends with the current scope
`b` started with. -/
def Restores {α : Type} (b : State) (r : Result α) : Prop :=
  Framed b r.state ∧ (r.fault? = none → r.state.CurrentScope = b.CurrentScope)

/-- State `s` is inside a scope `g` entered from state `b`: the current scope of
`s` is the table `g`, which encloses in the current scope of `b` and is none of
the tables of `b`, and the tables of `b` are kept in the sense of `Framed`. -/
def Inside (b : State) (g : Nat) (s : State) : Prop :=
  s.CurrentScope = some g ∧
  (∃ tabg, s.tabs[g]? = some tabg ∧ tabg.EnclosingScope = b.CurrentScope) ∧
  ∀ t tab, b.tabs[t]? = some tab →
    t ≠ g ∧ ∃ tab1, s.tabs[t]? = some tab1 ∧ tab1.ScopeName = tab.ScopeName ∧
      tab1.ScopeLevel = tab.ScopeLevel ∧ tab1.EnclosingScope = tab.EnclosingScope ∧
      (b.CurrentScope ≠ some t → tab1 = tab)

/-- The result `r` of a handler that entered the scope `g` from state `b` and
left it: it restores the current scope of `b`, and, when no fault was raised, the
table `g` is in the heap, enclosed in the current scope of `b`. -/
def Exited {α : Type} (b : State) (g : Nat) (r : Result α) : Prop :=
  Restores b r ∧
  (r.fault? = none →
    ∃ tabg, r.state.tabs[g]? = some tabg ∧ tabg.EnclosingScope = b.CurrentScope)

/-- The catalog with no builtin function and no package. -/
def emptyCatalog : Catalog :=
  { functions := [], iteration := [], packages := fun _ => [] }

/-- An identifier token. -/
def ident (name : String) : Token :=
  { Kind := "ID", Value := name, LineNo := 1, Column := 1 }

/-- The declaration `func f(a INTEGER) { func g() { } var x INTEGER; a }`: a
function with a nested function, a local `x` and a reference to its parameter. -/
def nestedDecl : Ast :=
  .FunctionDecl "f" [.Param (.Var (ident "a") "a") (.TypeN (ident "INTEGER") "INTEGER")]
    (.Block
      [[.FunctionDecl "g" [] (.Block [] (.Compound [])) .Nil],
       [.VarDecl (.Var (ident "x") "x") (.TypeN (ident "INTEGER") "INTEGER")]]
      (.Compound [.Var (ident "a") "a"]))
    .Nil

/-- An identifier token on a given line. -/
def identAt (name : String) (line : Nat) : Token :=
  { Kind := "ID", Value := name, LineNo := line, Column := 1 }

/-- The program `var x INTEGER; var x INTEGER;` with the two declarations on
lines 1 and 2 (scenario B). -/
def twiceDeclared : Ast :=
  .Program []
    (.Block
      [[.VarDecl (.Var (identAt "x" 1) "x") (.TypeN (identAt "INTEGER" 1) "INTEGER")],
       [.VarDecl (.Var (identAt "x" 2) "x") (.TypeN (identAt "INTEGER" 2) "INTEGER")]]
      (.Compound []))

/-- The program `var x INTEGER; func f() { var x INTEGER; }`: `x` is declared in
the global scope and again in the scope of `f`. -/
def shadowingProgram : Ast :=
  .Program []
    (.Block
      [[.VarDecl (.Var (identAt "x" 1) "x") (.TypeN (identAt "INTEGER" 1) "INTEGER")],
       [.FunctionDecl "f" []
          (.Block [[.VarDecl (.Var (identAt "x" 2) "x") (.TypeN (identAt "INTEGER" 2) "INTEGER")]]
            (.Compound []))
          .Nil]]
      (.Compound []))

/-- The program whose only statement is the reference `y` (scenario C). -/
def undeclaredVar : Ast :=
  .Program [] (.Block [] (.Compound [.Var (ident "y") "y"]))

/-- The program whose only statement is `-y`. -/
def undeclaredUnary : Ast :=
  .Program [] (.Block [] (.Compound [.UnaryOp (ident "-") (.Var (ident "y") "y")]))

/-- The program whose only statement is `while y { }`. -/
def undeclaredWhile : Ast :=
  .Program [] (.Block [] (.Compound [.While (.Var (ident "y") "y") []]))

/-- The program whose only statement is `if y { } else { }`. -/
def undeclaredIf : Ast :=
  .Program [] (.Block [] (.Compound [.If (.Var (ident "y") "y") [] []]))

/-- The program whose only statement is `0 + y`, the same reference as operand of
a binary operator. -/
def undeclaredBinary : Ast :=
  .Program []
    (.Block [] (.Compound [.BinOp (.Number (ident "0")) (ident "+") (.Var (ident "y") "y")]))

/-- The state is one the analyzer can be in: enclosing tables are older than the
tables they enclose, and the current scope, if any, is a table of the heap. -/
def WellFormed (b : State) : Prop :=
  ChainsOlder b.tabs ∧ ∀ t, b.CurrentScope = some t → t < b.tabs.length

/-- The result ends in a well-formed state and is not the outcome `diverge`: the
handler returned or panicked, and the bound on the recursion of `Lookup` was not
reached. -/
def Returns {α : Type} (r : Result α) : Prop :=
  WellFormed r.state ∧ r.fault? ≠ some .diverge

/-- What `VisitFunctionCall` does once `funcSymbol` is resolved: the loop that
visits the actual parameters, then the assignment `node.FuncSymbol = funcSymbol`
on the node at address `id`. -/
def finishCall (c : Catalog) (id : Nat) (actualParams : List Ast) (funcSymbol : Nat)
    (b : State) : Result Unit :=
  (VisitEach c actualParams b).andThen fun _ b2 =>
    .ok () { b2 with FuncSymbol := (id, funcSymbol) :: b2.FuncSymbol }

/-- The latest write under an address in a list of writes. -/
def latestWrite : List (Nat × Nat) → Nat → Option Nat
  | [], _ => none
  | (i, v) :: rest, id => if i = id then some v else latestWrite rest id

/-- The field `FuncSymbol` of the call node at address `id`, nil when the
analyzer has not written it. -/
def FuncSymbolOf (s : State) (id : Nat) : Option Nat :=
  latestWrite s.FuncSymbol id

/-- A function symbol with an empty package, as a declaration leaves it, with
the given formal parameters. -/
def declaredFunction (name : String) (formalParams : List Nat) : FunctionSymbol :=
  { NewFunctionSymbol name with FormalParams := formalParams }

/-- A heap whose only table binds the key `builtin.len` to a function symbol
with an empty package, named `builtin.len`, without parameters. -/
def bareBuiltinState : State :=
  { syms := [.Function (declaredFunction "builtin.len" [])],
    tabs := [{ symbols := ⟨[("builtin.len", 0)]⟩, ScopeName := "global", ScopeLevel := 1,
               EnclosingScope := none }],
    CurrentScope := some 0,
    FuncSymbol := [] }

/-- A heap whose only table binds `f` to a function symbol with an empty package
and the two formal parameters `a` and `b`, and `builtin.len` to the builtin
function `len`. -/
def arityState : State :=
  { syms := [.Function { declaredFunction "f" [1, 2] with ScopeLevel := 1 },
             .Var { Name := "a", Typ := none, ScopeLevel := 2 },
             .Var { Name := "b", Typ := none, ScopeLevel := 2 },
             .Function { packageFunction "builtin" "len" with ScopeLevel := 1 }],
    tabs := [{ symbols := ⟨[("f", 0), ("builtin.len", 3)]⟩, ScopeName := "global",
               ScopeLevel := 1, EnclosingScope := none }],
    CurrentScope := some 0,
    FuncSymbol := [] }

/-- A number literal. -/
def num (text : String) : Ast := .Number { Kind := "NUMBER", Value := text, LineNo := 1, Column := 1 }

/-- The program `func f(a INTEGER, b INTEGER) { }` followed by the one statement
`stmt`. -/
def withTwoParamF (stmt : Ast) : Ast :=
  .Program []
    (.Block
      [[.FunctionDecl "f"
          [.Param (.Var (ident "a") "a") (.TypeN (ident "INTEGER") "INTEGER"),
           .Param (.Var (ident "b") "b") (.TypeN (ident "INTEGER") "INTEGER")]
          (.Block [] (.Compound [])) .Nil]]
      (.Compound [stmt]))

/-- The program `func builtin.f(a INTEGER) { }` followed by the one statement
`stmt`: the declared function has an empty package and the dotted name
`builtin.f`. -/
def withDottedF (stmt : Ast) : Ast :=
  .Program []
    (.Block
      [[.FunctionDecl "builtin.f"
          [.Param (.Var (ident "a") "a") (.TypeN (ident "INTEGER") "INTEGER")]
          (.Block [] (.Compound [])) .Nil]]
      (.Compound [stmt]))

/-- The program `var x INTEGER; x(1)`. -/
def callOfVariable : Ast :=
  .Program []
    (.Block [[.VarDecl (.Var (ident "x") "x") (.TypeN (ident "INTEGER") "INTEGER")]]
      (.Compound [.FunctionCall 0 "" "x" [num "1"] (identAt "x" 2)]))

/-- The program `INTEGER(1)`. -/
def callOfBuiltinType : Ast :=
  .Program [] (.Block [] (.Compound [.FunctionCall 0 "" "INTEGER" [num "1"] (ident "INTEGER")]))

/-- The program `nope(1)`, a call of a name bound nowhere. -/
def callOfNothing : Ast :=
  .Program [] (.Block [] (.Compound [.FunctionCall 0 "" "nope" [num "1"] (ident "nope")]))

/-- The program `var f INTEGER; func f() { }`. -/
def functionAfterVariable : Ast :=
  .Program []
    (.Block
      [[.VarDecl (.Var (identAt "f" 1) "f") (.TypeN (identAt "INTEGER" 1) "INTEGER")],
       [.FunctionDecl "f" [] (.Block [] (.Compound [])) .Nil]]
      (.Compound []))

/-- The program `func f() { } func f() { }`. -/
def functionTwice : Ast :=
  .Program []
    (.Block
      [[.FunctionDecl "f" [] (.Block [] (.Compound [])) .Nil],
       [.FunctionDecl "f" [] (.Block [] (.Compound [])) .Nil]]
      (.Compound []))

/-- The program `func INTEGER() { }`, a function named like a builtin type. -/
def functionNamedLikeType : Ast :=
  .Program [] (.Block [[.FunctionDecl "INTEGER" [] (.Block [] (.Compound [])) .Nil]] (.Compound []))

/-- The program `func f() { } var f INTEGER`: the variable is declared after the
function of the same name. -/
def variableAfterFunction : Ast :=
  .Program []
    (.Block
      [[.FunctionDecl "f" [] (.Block [] (.Compound [])) .Nil],
       [.VarDecl (.Var (identAt "f" 2) "f") (.TypeN (identAt "INTEGER" 2) "INTEGER")]]
      (.Compound []))

/-- The six builtin type objects `NewScopedSymbolTable` allocates for a table of
level `level`, in allocation order. -/
def seedObjects (level : Int) : List SymbolObj :=
  [.BuiltinType { Name := "INTEGER", Typ := none, ScopeLevel := level },
   .BuiltinType { Name := "FLOAT", Typ := none, ScopeLevel := level },
   .BuiltinType { Name := "BOOL", Typ := none, ScopeLevel := level },
   .BuiltinType { Name := "STRING", Typ := none, ScopeLevel := level },
   .BuiltinType { Name := "LIST", Typ := none, ScopeLevel := level },
   .BuiltinType { Name := "DICT", Typ := none, ScopeLevel := level }]

/-- The dictionary of a new table whose builtin type objects were allocated from
address `n` on. -/
def seedDict (n : Nat) : OrderedDict :=
  ⟨[("INTEGER", n), ("FLOAT", n + 1), ("BOOL", n + 2), ("STRING", n + 3), ("LIST", n + 4),
    ("DICT", n + 5)]⟩

/-- The state in which `VisitProgram` starts to register the catalogs: the
global table has been allocated, enclosed in the scope that was current, and made
current. -/
def programEntry (b : State) : State :=
  { syms := b.syms ++ seedObjects 1,
    tabs := b.tabs ++ [⟨seedDict b.syms.length, "global", 1, b.CurrentScope⟩],
    CurrentScope := some b.tabs.length,
    FuncSymbol := b.FuncSymbol }

/-- The state in which `VisitFunctionDecl` starts the loop over the formal
parameters, when the current scope is the table `tab` at address `t`: the
function symbol has been allocated at the first free address and inserted into
`tab`, and the table of the function has been allocated, enclosed in `t`, and
made current. -/
def functionEntry (b : State) (t : Nat) (tab : ScopedSymbolTable) (funcName : String) :
    State :=
  { syms := b.syms ++ [.Function { NewFunctionSymbol funcName with ScopeLevel := tab.ScopeLevel }]
      ++ seedObjects (wrapInt (tab.ScopeLevel + 1)),
    tabs := b.tabs.set t { tab with symbols := tab.symbols.Set funcName b.syms.length } ++
      [⟨seedDict (b.syms.length + 1), funcName, wrapInt (tab.ScopeLevel + 1), some t⟩],
    CurrentScope := some b.tabs.length,
    FuncSymbol := b.FuncSymbol }

/-- The address is one a catalog holds: the symbol objects behind these
addresses are the ones the analyzer inserts without having allocated them. -/
def IsCatalogPtr (c : Catalog) (p : Nat) : Prop :=
  p ∈ c.functions ∨ p ∈ c.iteration ∨ ∃ name, p ∈ c.packages name

/-- From `b` to `s` the symbol heap has only grown, every symbol object at an
address below `n` is still there, changed at most in its field `ScopeLevel`, and
not changed at all unless a catalog holds its address. -/
def KeptSyms (n : Nat) (c : Catalog) (b s : State) : Prop :=
  b.syms.length ≤ s.syms.length ∧
  ∀ p obj, p < n → b.syms[p]? = some obj →
    ∃ obj1, s.syms[p]? = some obj1 ∧ obj1.withScopeLevel 0 = obj.withScopeLevel 0 ∧
      (¬ IsCatalogPtr c p → obj1 = obj)

/-- The key `Insert` uses for the symbol at address `q`, if there is a symbol
object at that address. -/
def keyAt (syms : List SymbolObj) (q : Nat) : Option String :=
  match syms[q]? with
  | some obj => some (insertKey obj)
  | none => none

/-- The part of `VisitProgram` that precedes the visit of the block: the global
table is allocated and made current, the two builtin catalogs are registered, and
the package nodes are visited. -/
def programPrelude (c : Catalog) (packages : List Ast) (b : State) : Result Unit :=
  (NewScopedSymbolTable b "global" 1 b.CurrentScope).andThen fun globalScope b1 =>
  (insertAll c.functions { b1 with CurrentScope := some globalScope }).andThen fun _ b2 =>
  (insertAll c.iteration b2).andThen fun _ b3 =>
  VisitEach c packages b3

/-- A catalog whose package `math` exports the one function symbol at address
0. -/
def mathCatalog : Catalog :=
  { functions := [], iteration := [], packages := fun name => if name = "math" then [0] else [] }

/-- A new analyzer on a heap that holds the function symbol `sqrt` of package
`math` at address 0. -/
def mathState : State :=
  { syms := [.Function (packageFunction "math" "sqrt")], tabs := [], CurrentScope := none,
    FuncSymbol := [] }

/-- The names of the builtin types `NewScopedSymbolTable` seeds a table with. -/
def builtinTypeNames : List String := ["INTEGER", "FLOAT", "BOOL", "STRING", "LIST", "DICT"]

/-- The program `var x INTEGER; x` (scenario A), with the tokens of the declared
variable, of the type and of the reference. -/
def declareThenUse (x : String) (vtok ttok rtok : Token) : Ast :=
  .Program []
    (.Block [[.VarDecl (.Var vtok x) (.TypeN ttok "INTEGER")]] (.Compound [.Var rtok x]))

/-- The state after one turn of the loop over the formal parameters, taken in a
state whose current scope is the table `tabF` at address `F` and where `fs0` is
the function symbol at address `funcSymbol`: the variable symbol of the parameter
`x`, of type `ty`, has been allocated at the first free address, stamped with the
level of `tabF` and bound in `tabF`, and appended to the formal parameters. -/
def paramDeclared (e : State) (F : Nat) (tabF : ScopedSymbolTable) (funcSymbol : Nat)
    (fs0 : FunctionSymbol) (x : String) (ty : Option Nat) : State :=
  { syms := (e.syms ++ [SymbolObj.Var { Name := x, Typ := ty, ScopeLevel := tabF.ScopeLevel }]).set
      funcSymbol (.Function { fs0 with FormalParams := fs0.FormalParams ++ [e.syms.length] }),
    tabs := e.tabs.set F { tabF with symbols := tabF.symbols.Set x e.syms.length },
    CurrentScope := some F,
    FuncSymbol := e.FuncSymbol }

/-- The program `func INTEGER() { INTEGER() }`: a function named like a builtin
type, which calls itself. -/
def typeNamedRecursion : Ast :=
  .Program []
    (.Block
      [[.FunctionDecl "INTEGER" []
          (.Block [] (.Compound [.FunctionCall 0 "" "INTEGER" [] (ident "INTEGER")])) .Nil]]
      (.Compound []))
/-- The state in which the declaration `func f(a INTEGER) { var x INTEGER; a;
f(a) }` has declared its parameter. -/
def selfCallParams : State :=
  (declareParams 6 [.Param (.Var (ident "a") "a") (.TypeN (ident "INTEGER") "INTEGER")]
    (functionEntry (programEntry NewSemanticAnalyzer) 0 ⟨seedDict 0, "global", 1, none⟩ "f")).state

/-- The state in which the call `f(a)` of that declaration is visited. -/
def selfCallState : State :=
  ((VisitEachEach emptyCatalog
      [[.VarDecl (.Var (ident "x") "x") (.TypeN (ident "INTEGER") "INTEGER")]]
      selfCallParams).andThen fun _ s1 =>
    VisitEach emptyCatalog [.Var (ident "a") "a"] s1).state

mutual
/-- No `Package` node is visited inside a function scope: `top` tells whether the
node is visited at the level of a program; the traversal follows `Visit`, so a
`Program` brings back to the program level and a function declaration leaves it
for its body. -/
def levelSafe (top : Bool) : Ast → Bool
  | .Program packages block => levelSafeEach true packages && levelSafe true block
  | .Package _ => top
  | .Block declarations compoundStatement =>
    levelSafeEachEach top declarations && levelSafe top compoundStatement
  | .VarDecl _ _ => true
  | .TypeN _ _ => true
  | .BinOp left _ right => levelSafe top left && levelSafe top right
  | .Number _ => true
  | .Str _ => true
  | .Boolean _ => true
  | .ListN _ value => levelSafeEach top value
  | .DictN _ _ value => levelSafeEach top value
  | .Message _ => true
  | .UnaryOp _ _ => true
  | .Compound children => levelSafeEach top children
  | .Assign left _ right => levelSafe top right && levelSafe top left
  | .Var _ _ => true
  | .NoOp => true
  | .FunctionDecl _ _ blockNode _ => levelSafe false blockNode
  | .Param _ _ => true
  | .FunctionCall _ _ _ actualParams _ => levelSafeEach top actualParams
  | .FunctionRef _ _ _ => true
  | .Return statement => levelSafe top statement
  | .Print statement => levelSafe top statement
  | .While _ doBranch => levelSafeEach top doBranch
  | .If _ thenBranch elseBranch => levelSafeEach top thenBranch && levelSafeEach top elseBranch
  | .Logical left _ right => levelSafe top left && levelSafe top right
  | .Nil => true
/-- The same for the nodes of a list. -/
def levelSafeEach (top : Bool) : List Ast → Bool
  | [] => true
  | n :: rest => levelSafe top n && levelSafeEach top rest
/-- The same for the nodes of a list of lists. -/
def levelSafeEachEach (top : Bool) : List (List Ast) → Bool
  | [] => true
  | d :: rest => levelSafeEach top d && levelSafeEachEach top rest
end

/-- The current scope is a table of the heap, of level 1. -/
def AtTop (s : State) : Prop :=
  ∃ (t : Nat) (tab : ScopedSymbolTable),
    s.CurrentScope = some t ∧ s.tabs[t]? = some tab ∧ tab.ScopeLevel = 1

/-- The scope-level invariant, `n0` being the number of symbol objects that
existed before the analysis: every symbol bound in a table of the heap has the
level of that table, and a symbol that existed before the analysis is bound in
tables of level 1 only. -/
def LevelInv (n0 : Nat) (s : State) : Prop :=
  n0 ≤ s.syms.length ∧
  ∀ (t : Nat) (tab : ScopedSymbolTable) (k : String) (p : Nat),
    s.tabs[t]? = some tab → tab.symbols.Get k = some p →
    (∃ obj, s.syms[p]? = some obj ∧ obj.scopeLevel = tab.ScopeLevel) ∧
    (p < n0 → tab.ScopeLevel = 1)

/-- From `b` to `s` every symbol object is still there, with the level it had or,
if it existed before the analysis, with level 1. -/
def LevelFrame (n0 : Nat) (b s : State) : Prop :=
  b.syms.length ≤ s.syms.length ∧
  ∀ (p : Nat) (obj : SymbolObj), b.syms[p]? = some obj →
    ∃ obj1, s.syms[p]? = some obj1 ∧
      (obj1.scopeLevel = obj.scopeLevel ∨ (p < n0 ∧ obj1.scopeLevel = 1))

/-- From `b` to `s` no symbol bound in a table of `b` has changed its level. -/
def LevelKept (b s : State) : Prop :=
  ∀ (t : Nat) (tab : ScopedSymbolTable) (k : String) (p : Nat) (obj : SymbolObj),
    b.tabs[t]? = some tab → tab.symbols.Get k = some p → b.syms[p]? = some obj →
    ∃ obj1, s.syms[p]? = some obj1 ∧ obj1.scopeLevel = obj.scopeLevel

/-- The declaration `func f() { import math }`: a `Package` node in the body of
a function. -/
def importInFunction : Ast :=
  .FunctionDecl "f" [] (.Block [] (.Compound [.Package "math"])) .Nil

/-- The program that imports `math` and declares `importInFunction`. -/
def importTwice : Ast :=
  .Program [.Package "math"] (.Block [[importInFunction]] (.Compound []))

/-- The state of the visit of `importTwice`, from `mathState`, when the block of
the program is entered. -/
def afterImport : State :=
  (programPrelude mathCatalog [.Package "math"] mathState).state

/-- The state of that visit when the declaration of the function has been
visited. -/
def afterImportInFunction : State :=
  (Visit mathCatalog importInFunction afterImport).state

/-- A step from `b` to `s` that keeps the scope-level invariant: it holds in `s`,
and the levels are kept in the sense of `LevelFrame`. -/
def LevelStep (n0 : Nat) (b s : State) : Prop :=
  LevelInv n0 s ∧ LevelFrame n0 b s

/-- The first error of a list of results, or the list of the values. -/
def collect : List (Except Fault String) → Except Fault (List String)
  | [] => .ok []
  | .error f :: _ => .error f
  | .ok s :: rest =>
    match collect rest with
    | .ok l => .ok (s :: l)
    | .error f => .error f

/-- Go `String()` of the three symbol types, as `fmt` reaches it through the
verbs `%s` and `%v`: a `VarSymbol` prints its `Type`, a `FunctionSymbol` prints
its `FormalParams`, each by a nested call of `String()`.  `depth` bounds the
nesting of these calls, as the stack of the goroutine does; when it is used up
the outcome is `diverge`, the stack overflow that stops the program.  A nil
symbol prints as `<nil>`.  An address with no symbol object stands for a value of
another type, which `fmt` prints by its default rules, shown here as `?`.
`showAst` is the text `fmt` prints for the node `ReturnType`, whose type is
declared outside `symbol.go`. -/
def symbolString (showAst : Ast → String) (syms : List SymbolObj) :
    Nat → Option Nat → Except Fault String
  | 0, _ => .error .diverge
  | _ + 1, none => .ok "<nil>"
  | depth + 1, some p =>
    match syms[p]? with
    | none => .ok "?"
    | some (.Var s) =>
      match symbolString showAst syms depth s.Typ with
      | .ok t => .ok ("<VarSymbol(name=" ++ s.Name ++ ", type=" ++ t ++ ")>")
      | .error f => .error f
    | some (.BuiltinType s) => .ok ("<BuiltinTypeSymbol(name=" ++ s.Name ++ ")>")
    | some (.Function s) =>
      match collect (s.FormalParams.map fun q => symbolString showAst syms depth (some q)) with
      | .ok ps =>
        .ok ("<FunctionSymbol(name=" ++ s.Name ++ ", package=" ++ s.Package ++ ", parameters=[" ++
          " ".intercalate ps ++ "], return=" ++ showAst s.ReturnType ++ ")>")
      | .error f => .error f

/-- The first statement of Go `(*ScopedSymbolTable).Insert`, the line
`log.Printf("Insert: %s\n", symbol)`: the symbol is printed, which changes no
state and stops the program when the printing overflows the stack. -/
def logInsert (showAst : Ast → String) (depth : Nat) (b : State) (symbol : Nat) : Result Unit :=
  match symbolString showAst b.syms depth (some symbol) with
  | .ok _ => .ok () b
  | .error f => .fault f b

/-- Go `(*ScopedSymbolTable).Insert` with its log line: the symbol is printed,
then stored by the type switch `Insert`. -/
def InsertLogged (showAst : Ast → String) (depth : Nat) (b : State) (t : Option Nat)
    (symbol : Nat) : Result Unit :=
  (logInsert showAst depth b symbol).andThen fun _ b1 => Insert b1 t symbol

/-- The program `func f(a f, b f) { }`: the type of both parameters is the name
of the function. -/
def selfTypedParams : Ast :=
  .Program []
    (.Block
      [[.FunctionDecl "f"
          [.Param (.Var (ident "a") "a") (.TypeN (ident "f") "f"),
           .Param (.Var (ident "b") "b") (.TypeN (ident "f") "f")]
          (.Block [] (.Compound [])) .Nil]]
      (.Compound []))

/-- The state of the visit of `selfTypedParams`, from a new analyzer, in which
`Insert` is called on the variable symbol of the second parameter, at address
14: the parameter `a`, at address 13, has the function symbol, at address 6, as
its type and is the formal parameter of that function symbol. -/
def secondParamState : State :=
  (allocSym
    (declareParams 6 [.Param (.Var (ident "a") "a") (.TypeN (ident "f") "f")]
      (functionEntry (programEntry NewSemanticAnalyzer) 0 ⟨seedDict 0, "global", 1, none⟩
        "f")).state
    (.Var (NewVarSymbol "b" (some 6)))).1

/-! # Theorems -/

/-! ## Lookup -/

theorem enclosing_lt {tabs : List ScopedSymbolTable} (hwf : ChainsOlder tabs) {t e : Nat}
    {tab : ScopedSymbolTable} (ht : tabs[t]? = some tab) (he : tab.EnclosingScope = some e) :
    e < t := by
  have hlt : t < tabs.length := (List.getElem?_eq_some.1 ht).1
  have := hwf t hlt
  simpa [enclosingOlder, ht, he] using this

/-- With more fuel than the address of the table, the recursion of `Lookup`
returns, and what it returns is the binding of the first table of the chain that
binds the name. -/
theorem LookupFuel_sound (tabs : List ScopedSymbolTable) (hwf : ChainsOlder tabs)
    (name : String) :
    ∀ fuel t, t < fuel → t < tabs.length →
      ∃ r, LookupFuel tabs fuel t name false = .ok r ∧
        (∀ s, r = some s → ∃ k u, nthScope tabs k t = some u ∧ u.symbols.Get name = some s ∧
          ∀ j, j < k → ∀ v, nthScope tabs j t = some v → v.symbols.Get name = none) ∧
        (r = none → ∀ k u, nthScope tabs k t = some u → u.symbols.Get name = none) := by
  intro fuel
  induction fuel with
  | zero => intro t h; omega
  | succ fuel ih =>
    intro t hfuel hlen
    obtain ⟨tab, htab⟩ : ∃ tab, tabs[t]? = some tab := ⟨tabs[t], List.getElem?_eq_getElem hlen⟩
    cases hget : tab.symbols.Get name with
    | some s =>
      refine ⟨some s, by simp [LookupFuel, htab, hget], ?_, by simp⟩
      intro s1 hs
      cases hs
      exact ⟨0, tab, by simp [nthScope, htab], hget, by intro j hj; omega⟩
    | none =>
      cases henc : tab.EnclosingScope with
      | none =>
        refine ⟨none, by simp [LookupFuel, htab, hget, henc], by simp, ?_⟩
        intro _ k u hk
        cases k with
        | zero =>
          simp [nthScope, htab] at hk
          subst hk; exact hget
        | succ k => simp [nthScope, htab, henc] at hk
      | some e =>
        have helt : e < t := enclosing_lt hwf htab henc
        obtain ⟨r, hr, hsome, hnone⟩ := ih e (by omega) (by omega)
        refine ⟨r, by simp [LookupFuel, htab, hget, henc, hr], ?_, ?_⟩
        · intro s hs
          obtain ⟨k, u, hk, hu, hmin⟩ := hsome s hs
          refine ⟨k + 1, u, by simp [nthScope, htab, henc, hk], hu, ?_⟩
          intro j hj v hv
          cases j with
          | zero =>
            simp [nthScope, htab] at hv
            subst hv; exact hget
          | succ j =>
            simp [nthScope, htab, henc] at hv
            exact hmin j (by omega) v hv
        · intro hn k u hk
          cases k with
          | zero =>
            simp [nthScope, htab] at hk
            subst hk; exact hget
          | succ k =>
            simp [nthScope, htab, henc] at hk
            exact hnone hn k u hk

/-- C1: on a heap whose chains lead to older tables, `Lookup(name, false)` from
table `t` returns; it returns symbol `s` exactly when `s` is the binding of the
first table of the chain of `t`, innermost first, that binds the name; it returns
nil exactly when no table of the chain binds the name; and a binding held by `t`
itself is the one returned, whatever the enclosing tables bind. -/
theorem Lookup_whole_chain (b : State) (t : Nat) (name : String)
    (hwf : ChainsOlder b.tabs) (ht : t < b.tabs.length) :
    ∃ r, Lookup b (some t) name false = .ok r ∧
      (∀ s, r = some s ↔
        ∃ k u, nthScope b.tabs k t = some u ∧ u.symbols.Get name = some s ∧
          ∀ j, j < k → ∀ v, nthScope b.tabs j t = some v → v.symbols.Get name = none) ∧
      (r = none ↔ ∀ k u, nthScope b.tabs k t = some u → u.symbols.Get name = none) ∧
      (∀ tab s, b.tabs[t]? = some tab → tab.symbols.Get name = some s → r = some s) := by
  obtain ⟨r, hr, hsome, hnone⟩ :=
    LookupFuel_sound b.tabs hwf name (b.tabs.length + 1) t (by omega) ht
  have hback : ∀ s, (∃ k u, nthScope b.tabs k t = some u ∧ u.symbols.Get name = some s ∧
      ∀ j, j < k → ∀ v, nthScope b.tabs j t = some v → v.symbols.Get name = none) →
      r = some s := by
    rintro s ⟨k, u, hk, hu, hmin⟩
    cases hrv : r with
    | none =>
      have := hnone hrv k u hk
      rw [hu] at this
      cases this
    | some s1 =>
      obtain ⟨k1, u1, hk1, hu1, hmin1⟩ := hsome s1 hrv
      rcases Nat.lt_trichotomy k k1 with h | h | h
      · have := hmin1 k h u hk
        rw [hu] at this
        cases this
      · subst h
        rw [hk] at hk1
        cases hk1
        rw [hu] at hu1
        exact hu1.symm
      · have := hmin k1 h u1 hk1
        rw [hu1] at this
        cases this
  refine ⟨r, hr, fun s => ⟨hsome s, hback s⟩, ⟨hnone, ?_⟩, ?_⟩
  · intro hall
    cases hrv : r with
    | none => rfl
    | some s =>
      obtain ⟨k, u, hk, hu, _⟩ := hsome s hrv
      have := hall k u hk
      rw [hu] at this
      cases this
  · intro tab s htab hget
    exact hback s ⟨0, tab, by simp [nthScope, htab], hget, by intro j hj; omega⟩

/-- From the function table of `demoState`, which binds `x` like the global
table, the lookup of `x` has the properties of C1. -/
theorem Lookup_whole_chain_witness :
    ChainsOlder demoState.tabs ∧ 1 < demoState.tabs.length ∧
    ∃ r, Lookup demoState (some 1) "x" false = .ok r ∧
      (∀ s, r = some s ↔
        ∃ k u, nthScope demoState.tabs k 1 = some u ∧ u.symbols.Get "x" = some s ∧
          ∀ j, j < k → ∀ v, nthScope demoState.tabs j 1 = some v → v.symbols.Get "x" = none) ∧
      (r = none ↔ ∀ k u, nthScope demoState.tabs k 1 = some u → u.symbols.Get "x" = none) ∧
      (∀ tab s, demoState.tabs[1]? = some tab → tab.symbols.Get "x" = some s → r = some s) :=
  ⟨by decide, by decide, Lookup_whole_chain demoState 1 "x" (by decide) (by decide)⟩

/-- C2: `Lookup(name, true)` on table `t` returns what `t` itself binds to the
name, nil when `t` does not bind it; neither the enclosing table of `t` nor any
other table of the heap is read. -/
theorem Lookup_current_scope_only (b : State) (t : Nat) (tab : ScopedSymbolTable)
    (name : String) (htab : b.tabs[t]? = some tab) :
    Lookup b (some t) name true = .ok (tab.symbols.Get name) := by
  cases hget : tab.symbols.Get name <;> simp [Lookup, LookupFuel, htab, hget]

/-- In `demoState` the name `y` is bound by the global table only, and the
lookup restricted to the function table returns nil. -/
theorem Lookup_current_scope_only_witness :
    demoState.tabs[1]? = some ⟨⟨[("x", 2)]⟩, "f", 2, some 0⟩ ∧
    Lookup demoState (some 1) "y" true = .ok none ∧
    Lookup demoState (some 1) "y" false = .ok (some 3) :=
  ⟨by decide,
    Lookup_current_scope_only demoState 1 ⟨⟨[("x", 2)]⟩, "f", 2, some 0⟩ "y" (by decide), rfl⟩

/-! ## The dictionary -/

theorem getEntry_setEntry_self (l : List (String × Nat)) (k : String) (v : Nat) :
    getEntry (setEntry l k v) k = some v := by
  induction l with
  | nil => simp [setEntry, getEntry]
  | cons e rest ih =>
    obtain ⟨k1, v1⟩ := e
    by_cases h : k1 = k
    · simp [setEntry, getEntry, h]
    · simp [setEntry, getEntry, h, ih]

theorem getEntry_setEntry_ne (l : List (String × Nat)) (k k2 : String) (v : Nat)
    (hne : k2 ≠ k) : getEntry (setEntry l k v) k2 = getEntry l k2 := by
  induction l with
  | nil => simp [setEntry, getEntry, Ne.symm hne]
  | cons e rest ih =>
    obtain ⟨k1, v1⟩ := e
    by_cases h : k1 = k
    · subst h
      simp [setEntry, getEntry, Ne.symm hne]
    · by_cases h2 : k1 = k2
      · subst h2
        simp [setEntry, getEntry, h]
      · simp [setEntry, getEntry, h, h2, ih]

theorem Get_Set_self (d : OrderedDict) (k : String) (v : Nat) : (d.Set k v).Get k = some v :=
  getEntry_setEntry_self d.entries k v

theorem Get_Set_ne (d : OrderedDict) (k k2 : String) (v : Nat) (hne : k2 ≠ k) :
    (d.Set k v).Get k2 = d.Get k2 :=
  getEntry_setEntry_ne d.entries k k2 v hne

/-! ## The constructor -/

theorem getElem?_append_add {α : Type} (l l2 : List α) (i : Nat) :
    (l ++ l2)[l.length + i]? = l2[i]? := by
  rw [List.getElem?_append_right (Nat.le_add_right _ _)]
  simp

theorem set_append_length {α : Type} (l : List α) (a a1 : α) :
    (l ++ [a]).set l.length a1 = l ++ [a1] := by
  induction l with
  | nil => rfl
  | cons x xs ih => simp [List.set, ih]

theorem seedBuiltin_eq (b : State) (pre : List ScopedSymbolTable) (tab : ScopedSymbolTable)
    (name : String) (h : b.tabs = pre ++ [tab]) :
    seedBuiltin pre.length name b = .ok ()
      { b with
        syms := b.syms ++ [.BuiltinType { Name := name, Typ := none, ScopeLevel := tab.ScopeLevel }],
        tabs := pre ++ [{ tab with symbols := tab.symbols.Set name b.syms.length }] } := by
  simp [seedBuiltin, Insert, allocSym, NewBuiltinTypeSymbol, h, set_append_length]

/-- The six builtin type objects a new table of level `level` is seeded with. -/
theorem NewScopedSymbolTable_eq (b : State) (scopeName : String) (scopeLevel : Int)
    (enclosingScope : Option Nat) :
    NewScopedSymbolTable b scopeName scopeLevel enclosingScope =
      .ok b.tabs.length
        { b with
          syms := b.syms ++
            [.BuiltinType { Name := "INTEGER", Typ := none, ScopeLevel := scopeLevel },
             .BuiltinType { Name := "FLOAT", Typ := none, ScopeLevel := scopeLevel },
             .BuiltinType { Name := "BOOL", Typ := none, ScopeLevel := scopeLevel },
             .BuiltinType { Name := "STRING", Typ := none, ScopeLevel := scopeLevel },
             .BuiltinType { Name := "LIST", Typ := none, ScopeLevel := scopeLevel },
             .BuiltinType { Name := "DICT", Typ := none, ScopeLevel := scopeLevel }],
          tabs := b.tabs ++
            [{ symbols := ⟨[("INTEGER", b.syms.length), ("FLOAT", b.syms.length + 1),
                 ("BOOL", b.syms.length + 2), ("STRING", b.syms.length + 3),
                 ("LIST", b.syms.length + 4), ("DICT", b.syms.length + 5)]⟩,
               ScopeName := scopeName, ScopeLevel := scopeLevel,
               EnclosingScope := enclosingScope }] } := by
  unfold NewScopedSymbolTable
  simp only []
  rw [seedBuiltin_eq _ b.tabs _ "INTEGER" rfl]
  simp only [Result.andThen]
  rw [seedBuiltin_eq _ b.tabs _ "FLOAT" rfl]
  simp only [Result.andThen]
  rw [seedBuiltin_eq _ b.tabs _ "BOOL" rfl]
  simp only [Result.andThen]
  rw [seedBuiltin_eq _ b.tabs _ "STRING" rfl]
  simp only [Result.andThen]
  rw [seedBuiltin_eq _ b.tabs _ "LIST" rfl]
  simp only [Result.andThen]
  rw [seedBuiltin_eq _ b.tabs _ "DICT" rfl]
  simp [Result.andThen, OrderedDict.Set, setEntry, NewOrderedDict]

/-- C3: for every state, scope name, scope level and enclosing table,
`NewScopedSymbolTable` returns a new table whose `ScopeName`, `ScopeLevel` and
`EnclosingScope` are the arguments and whose dictionary holds exactly the keys
INTEGER, FLOAT, BOOL, STRING, LIST, DICT in that order, each bound to a
`BuiltinTypeSymbol` whose name is the key and whose `ScopeLevel` is the level of
the table. -/
theorem NewScopedSymbolTable_seeds (b : State) (scopeName : String) (scopeLevel : Int)
    (enclosingScope : Option Nat) :
    ∃ b1 tab, NewScopedSymbolTable b scopeName scopeLevel enclosingScope =
        .ok b.tabs.length b1 ∧
      b1.tabs[b.tabs.length]? = some tab ∧
      tab.ScopeName = scopeName ∧ tab.ScopeLevel = scopeLevel ∧
      tab.EnclosingScope = enclosingScope ∧
      tab.symbols.entries.map Prod.fst = ["INTEGER", "FLOAT", "BOOL", "STRING", "LIST", "DICT"] ∧
      ∀ key p, (key, p) ∈ tab.symbols.entries →
        b1.syms[p]? = some (.BuiltinType { Name := key, Typ := none, ScopeLevel := scopeLevel }) := by
  refine ⟨_, ⟨⟨[("INTEGER", b.syms.length), ("FLOAT", b.syms.length + 1),
      ("BOOL", b.syms.length + 2), ("STRING", b.syms.length + 3), ("LIST", b.syms.length + 4),
      ("DICT", b.syms.length + 5)]⟩, scopeName, scopeLevel, enclosingScope⟩,
    NewScopedSymbolTable_eq b scopeName scopeLevel enclosingScope, ?_, rfl, rfl, rfl, rfl, ?_⟩
  · simp
  · intro key p hmem
    simp only [List.mem_cons, Prod.mk.injEq, List.mem_singleton, List.not_mem_nil, or_false] at hmem
    rcases hmem with h | h | h | h | h | h <;> obtain ⟨rfl, rfl⟩ := h
    · exact (getElem?_append_add b.syms _ 0).trans rfl
    · exact (getElem?_append_add b.syms _ 1).trans rfl
    · exact (getElem?_append_add b.syms _ 2).trans rfl
    · exact (getElem?_append_add b.syms _ 3).trans rfl
    · exact (getElem?_append_add b.syms _ 4).trans rfl
    · exact (getElem?_append_add b.syms _ 5).trans rfl

/-! ## Insert -/

theorem getElem?_lt {α : Type} {l : List α} {i : Nat} {a : α} (h : l[i]? = some a) :
    i < l.length := (List.getElem?_eq_some.1 h).1

/-- On a table and a symbol object that exist, `Insert` returns, having stamped
the level of the table on the symbol and stored its address under its key. -/
theorem Insert_eq (b : State) (t symbol : Nat) (tab : ScopedSymbolTable) (obj : SymbolObj)
    (htab : b.tabs[t]? = some tab) (hobj : b.syms[symbol]? = some obj) :
    Insert b (some t) symbol = .ok ()
      { b with
        syms := b.syms.set symbol (obj.withScopeLevel tab.ScopeLevel),
        tabs := b.tabs.set t { tab with symbols := tab.symbols.Set (insertKey obj) symbol } } := by
  cases obj with
  | Var s => simp [Insert, htab, hobj, insertKey, SymbolObj.withScopeLevel]
  | BuiltinType s => simp [Insert, htab, hobj, insertKey, SymbolObj.withScopeLevel]
  | Function s =>
    by_cases hp : s.Package = "" <;>
      simp [Insert, htab, hobj, insertKey, SymbolObj.withScopeLevel, hp]

/-- On a table `t` and a symbol `symbol` (a variable, a builtin type or a
function), the type switch `Insert` returns without a fault; afterwards `t` binds the key of the
symbol to the symbol, whatever it bound under that key before, and binds every
other key as before; the name, level and enclosing table of `t` are unchanged;
the symbol carries the level of `t`; no other symbol and no other table is
changed; and `Lookup(key, true)` on `t` returns the symbol. -/
theorem Insert_stores (b : State) (t symbol : Nat) (tab : ScopedSymbolTable) (obj : SymbolObj)
    (htab : b.tabs[t]? = some tab) (hobj : b.syms[symbol]? = some obj) :
    ∃ b1 tab1, Insert b (some t) symbol = .ok () b1 ∧
      b1.tabs[t]? = some tab1 ∧
      tab1.symbols.Get (insertKey obj) = some symbol ∧
      (∀ k, k ≠ insertKey obj → tab1.symbols.Get k = tab.symbols.Get k) ∧
      tab1.ScopeName = tab.ScopeName ∧ tab1.ScopeLevel = tab.ScopeLevel ∧
      tab1.EnclosingScope = tab.EnclosingScope ∧
      b1.syms[symbol]? = some (obj.withScopeLevel tab.ScopeLevel) ∧
      (∀ p, p ≠ symbol → b1.syms[p]? = b.syms[p]?) ∧
      (∀ u, u ≠ t → b1.tabs[u]? = b.tabs[u]?) ∧
      b1.CurrentScope = b.CurrentScope ∧
      Lookup b1 (some t) (insertKey obj) true = .ok (some symbol) := by
  have ht := getElem?_lt htab
  have hs := getElem?_lt hobj
  refine ⟨_, { tab with symbols := tab.symbols.Set (insertKey obj) symbol },
    Insert_eq b t symbol tab obj htab hobj, ?_, ?_, ?_, rfl, rfl, rfl, ?_, ?_, ?_, rfl, ?_⟩
  · simp [List.getElem?_set_self ht]
  · exact Get_Set_self _ _ _
  · intro k hk
    exact Get_Set_ne _ _ _ _ hk
  · simp [List.getElem?_set_self hs]
  · intro p hp
    simp [List.getElem?_set_ne (Ne.symm hp)]
  · intro u hu
    simp [List.getElem?_set_ne (Ne.symm hu)]
  · simp [Lookup, LookupFuel, List.getElem?_set_self ht, Get_Set_self]

/-- In `demoState`, inserting the variable `y` of the global table into the
function table binds `y` there and stamps level 2 on it. -/
theorem Insert_stores_example :
    demoState.tabs[1]? = some ⟨⟨[("x", 2)]⟩, "f", 2, some 0⟩ ∧
    demoState.syms[3]? = some (.Var { Name := "y", Typ := some 0, ScopeLevel := 1 }) ∧
    ∃ b1 tab1, Insert demoState (some 1) 3 = .ok () b1 ∧
      b1.tabs[1]? = some tab1 ∧
      tab1.symbols.Get "y" = some 3 ∧
      (∀ k, k ≠ "y" → tab1.symbols.Get k = (⟨[("x", 2)]⟩ : OrderedDict).Get k) ∧
      tab1.ScopeName = "f" ∧ tab1.ScopeLevel = 2 ∧
      tab1.EnclosingScope = some 0 ∧
      b1.syms[3]? = some (.Var { Name := "y", Typ := some 0, ScopeLevel := 2 }) ∧
      (∀ p, p ≠ 3 → b1.syms[p]? = demoState.syms[p]?) ∧
      (∀ u, u ≠ 1 → b1.tabs[u]? = demoState.tabs[u]?) ∧
      b1.CurrentScope = demoState.CurrentScope ∧
      Lookup b1 (some 1) "y" true = .ok (some 3) :=
  ⟨rfl, rfl, Insert_stores demoState 1 3 ⟨⟨[("x", 2)]⟩, "f", 2, some 0⟩
    (.Var { Name := "y", Typ := some 0, ScopeLevel := 1 }) rfl rfl⟩

/-! ## Keys -/

theorem dot_mem_qualified (p n : String) : '.' ∈ (qualified p n).toList := by
  show '.' ∈ (p ++ "." ++ n).data
  simp [String.data_append]

theorem insertKey_bare (s : SymbolObj) (hs : s.bare) : insertKey s = s.name := by
  cases s with
  | Var v => rfl
  | BuiltinType v => rfl
  | Function f =>
    have hp : f.Package = "" := hs
    simp [insertKey, SymbolObj.name, hp]

theorem insertKey_ne (f : FunctionSymbol) (s : SymbolObj) (hf : f.Package ≠ "") (hs : s.bare)
    (hdot : '.' ∉ s.name.toList) : insertKey (.Function f) ≠ insertKey s := by
  rw [insertKey_bare s hs]
  intro h
  apply hdot
  rw [← h]
  simp only [insertKey, hf, ne_eq, not_false_eq_true, if_true]
  exact dot_mem_qualified _ _

/-- C5, as the code has it: the variable named `a.b` and the function `b` of
package `a` have the same key, and inserting the function after the variable
leaves the table with the single binding of `a.b` to the function. -/
theorem qualified_key_collides :
    insertKey (.Function (packageFunction "a" "b")) =
      insertKey (.Var { Name := "a.b", Typ := none, ScopeLevel := 0 }) ∧
    (Insert dottedState (some 0) 0).fault? = none ∧
    ((Insert dottedState (some 0) 0).state.tabs[0]?.map fun tab => tab.symbols.Get "a.b") =
      some (some 0) ∧
    ((Insert dottedState (some 0) 0).andThen fun _ b1 => Insert b1 (some 0) 1).fault? = none ∧
    ((Insert dottedState (some 0) 0).andThen fun _ b1 => Insert b1 (some 0) 1).state.tabs =
      [⟨⟨[("a.b", 1)]⟩, "global", 1, none⟩] := by
  refine ⟨by decide, rfl, rfl, rfl, rfl⟩

/-- C5, amended: a function symbol `f` with a non-empty package and a symbol `s`
stored under its bare name, when that name contains no dot, have different
keys; so inserting `f` into a table leaves the binding under the key of `s` as it
was, and inserting `s` leaves the binding under the key of `f` as it was. -/
theorem qualified_key_distinct (f : FunctionSymbol) (s : SymbolObj) (hf : f.Package ≠ "")
    (hs : s.bare) (hdot : '.' ∉ s.name.toList) :
    insertKey (.Function f) ≠ insertKey s ∧
    ∀ (b : State) (t p : Nat) (tab : ScopedSymbolTable), b.tabs[t]? = some tab →
      (b.syms[p]? = some (.Function f) →
        ∃ b1 tab1, Insert b (some t) p = .ok () b1 ∧ b1.tabs[t]? = some tab1 ∧
          tab1.symbols.Get (insertKey s) = tab.symbols.Get (insertKey s)) ∧
      (b.syms[p]? = some s →
        ∃ b1 tab1, Insert b (some t) p = .ok () b1 ∧ b1.tabs[t]? = some tab1 ∧
          tab1.symbols.Get (insertKey (.Function f)) =
            tab.symbols.Get (insertKey (.Function f))) := by
  have hne := insertKey_ne f s hf hs hdot
  refine ⟨hne, ?_⟩
  intro b t p tab htab
  have ht := getElem?_lt htab
  constructor
  · intro hobj
    refine ⟨_, { tab with symbols := tab.symbols.Set (insertKey (.Function f)) p },
      Insert_eq b t p tab _ htab hobj, by simp [List.getElem?_set_self ht], ?_⟩
    exact Get_Set_ne _ _ _ _ (Ne.symm hne)
  · intro hobj
    refine ⟨_, { tab with symbols := tab.symbols.Set (insertKey s) p },
      Insert_eq b t p tab _ htab hobj, by simp [List.getElem?_set_self ht], ?_⟩
    exact Get_Set_ne _ _ _ _ hne

/-- The function `sqrt` of package `math` and the variable `sqrt` have different
keys. -/
theorem qualified_key_distinct_witness :
    (packageFunction "math" "sqrt").Package ≠ "" ∧
    (SymbolObj.Var { Name := "sqrt", Typ := none, ScopeLevel := 0 }).bare ∧
    '.' ∉ ("sqrt" : String).toList ∧
    insertKey (.Function (packageFunction "math" "sqrt")) ≠
      insertKey (.Var { Name := "sqrt", Typ := none, ScopeLevel := 0 }) :=
  ⟨by decide, trivial, by decide,
    (qualified_key_distinct (packageFunction "math" "sqrt")
      (.Var { Name := "sqrt", Typ := none, ScopeLevel := 0 }) (by decide) trivial (by decide)).1⟩

/-! ## What the handlers keep -/

theorem Framed_refl (b : State) : Framed b b :=
  fun _ tab h => ⟨tab, h, rfl, rfl, rfl, fun _ => rfl⟩

theorem Framed_trans {b b1 b2 : State} (h1 : Framed b b1)
    (hc : b1.CurrentScope = b.CurrentScope) (h2 : Framed b1 b2) : Framed b b2 := by
  intro t tab ht
  obtain ⟨tab1, ht1, hn1, hl1, he1, hf1⟩ := h1 t tab ht
  obtain ⟨tab2, ht2, hn2, hl2, he2, hf2⟩ := h2 t tab1 ht1
  refine ⟨tab2, ht2, hn2.trans hn1, hl2.trans hl1, he2.trans he1, ?_⟩
  intro hne
  rw [hf2 (by rw [hc]; exact hne), hf1 hne]

theorem Framed_congr {b b1 : State} (b0 : State) (ht : b0.tabs = b.tabs)
    (hc : b0.CurrentScope = b.CurrentScope) (h : Framed b0 b1) : Framed b b1 := by
  intro t tab htab
  rw [← ht] at htab
  obtain ⟨tab1, h1, h2, h3, h4, h5⟩ := h t tab htab
  exact ⟨tab1, h1, h2, h3, h4, fun hne => h5 (by rw [hc]; exact hne)⟩

theorem Restores_congr {α : Type} {b : State} {r : Result α} (b0 : State) (ht : b0.tabs = b.tabs)
    (hc : b0.CurrentScope = b.CurrentScope) (h : Restores b0 r) : Restores b r :=
  ⟨Framed_congr b0 ht hc h.1, fun hf => (h.2 hf).trans hc⟩

theorem Restores_ok {α : Type} (b : State) (a : α) : Restores b (.ok a b) :=
  ⟨Framed_refl b, fun _ => rfl⟩

theorem Restores_fault {α : Type} (b : State) (f : Fault) :
    Restores b (.fault f b : Result α) :=
  ⟨Framed_refl b, fun _ => rfl⟩

theorem Restores_andThen {α β : Type} {b : State} {r : Result α} {k : α → State → Result β}
    (hr : Restores b r) (hk : ∀ a b1, r = .ok a b1 → Restores b1 (k a b1)) :
    Restores b (r.andThen k) := by
  cases r with
  | fault f s => exact ⟨hr.1, fun h => by cases h⟩
  | ok a s =>
    have hc : s.CurrentScope = b.CurrentScope := hr.2 rfl
    have h2 := hk a s rfl
    exact ⟨Framed_trans hr.1 hc h2.1, fun h => (h2.2 h).trans hc⟩

theorem Insert_restores (b : State) (symbol : Nat) :
    Restores b (Insert b b.CurrentScope symbol) := by
  have key : ∀ (r : Nat) (tab : ScopedSymbolTable) (syms : List SymbolObj) (d : OrderedDict),
      b.CurrentScope = some r → b.tabs[r]? = some tab →
      Restores b (Result.ok ()
        { b with
          syms := syms,
          tabs := b.tabs.set r { tab with symbols := d } }) := by
    intro r tab syms d hr htab
    refine ⟨?_, fun _ => rfl⟩
    intro t tab0 ht
    by_cases htr : r = t
    · subst htr
      rw [htab] at ht
      cases ht
      exact ⟨{ tab with symbols := d },
        by simp [Result.state, List.getElem?_set_self (getElem?_lt htab)], rfl, rfl, rfl,
        fun hne => absurd hr hne⟩
    · exact ⟨tab0, by simp [Result.state, List.getElem?_set_ne htr, ht], rfl, rfl, rfl,
        fun _ => rfl⟩
  unfold Insert
  split
  · exact Restores_ok b ()
  all_goals
    split
    · exact Restores_fault b _
    · rename_i r hr
      split
      · exact Restores_fault b _
      · rename_i tab htab
        first
          | exact key r tab _ _ hr htab
          | (split <;> exact key r tab _ _ hr htab)

theorem insertAll_restores (fs : List Nat) : ∀ b, Restores b (insertAll fs b) := by
  induction fs with
  | nil => intro b; exact Restores_ok b ()
  | cons f fs ih =>
    intro b
    exact Restores_andThen (Insert_restores b f) (fun _ b1 _ => ih b1)

@[simp] theorem andThen_ok {α β : Type} (a : α) (s : State) (k : α → State → Result β) :
    (Result.ok a s).andThen k = k a s := rfl

@[simp] theorem andThen_fault {α β : Type} (f : Fault) (s : State)
    (k : α → State → Result β) : (Result.fault f s : Result α).andThen k = .fault f s := rfl

theorem Restores_ok_syms {α : Type} (b : State) (a : α) (syms : List SymbolObj) :
    Restores b (.ok a { b with syms := syms }) :=
  Restores_congr { b with syms := syms } rfl rfl (Restores_ok _ a)

theorem VisitPackage_restores (c : Catalog) (name : String) (b : State) :
    Restores b (VisitPackage c name b) :=
  insertAll_restores _ b

theorem VisitVar_restores (tok : Token) (name : String) (b : State) :
    Restores b (VisitVar tok name b) := by
  unfold VisitVar
  split <;> first | exact Restores_ok b () | exact Restores_fault b _

theorem VisitFunctionRef_restores (p f : String) (tok : Token) (b : State) :
    Restores b (VisitFunctionRef p f tok b) := by
  unfold VisitFunctionRef
  split
  · exact Restores_fault b _
  · exact Restores_ok b ()
  · split <;> first | exact Restores_ok b () | exact Restores_fault b _

theorem resolveCall_state (p f : String) (n : Nat) (tok : Token) (b : State) :
    (resolveCall p f n tok b).state = b := by
  unfold resolveCall
  repeat' split
  all_goals rfl

theorem resolveCall_restores (p f : String) (n : Nat) (tok : Token) (b : State) :
    Restores b (resolveCall p f n tok b) := by
  have h := resolveCall_state p f n tok b
  cases hr : resolveCall p f n tok b with
  | ok a s =>
    rw [hr] at h
    cases h
    exact Restores_ok s a
  | fault e s =>
    rw [hr] at h
    cases h
    exact Restores_fault s e

theorem currentLevel_state (b : State) : (currentLevel b).state = b := by
  unfold currentLevel
  repeat' split
  all_goals rfl

theorem backfill_restores (b : State) (p : Nat) (bn rt : Ast) :
    Restores b (backfill b p bn rt) := by
  unfold backfill
  split
  · exact Restores_ok_syms b () _
  · exact Restores_fault b _

theorem appendFormalParam_restores (b : State) (p q : Nat) :
    Restores b (appendFormalParam b p q) := by
  unfold appendFormalParam
  split
  · exact Restores_ok_syms b () _
  · exact Restores_fault b _

theorem Insert_alloc_restores (b : State) (o : SymbolObj) :
    Restores b (Insert (allocSym b o).1 (allocSym b o).1.CurrentScope (allocSym b o).2) :=
  Restores_congr ((allocSym b o).1) rfl rfl (Insert_restores _ _)

theorem VisitVarDecl_restores (v t : Ast) (b : State) : Restores b (VisitVarDecl v t b) := by
  unfold VisitVarDecl
  split
  · split
    · exact Restores_fault b _
    · split
      · split
        · exact Restores_congr ((allocSym b _).1) rfl rfl (Restores_fault _ _)
        · exact Restores_congr ((allocSym b _).1) rfl rfl (Restores_fault _ _)
        · exact Insert_alloc_restores b _
      · exact Restores_fault b _
  · exact Restores_fault b _

theorem declareParams_restores (p : Nat) (ps : List Ast) :
    ∀ b, Restores b (declareParams p ps b) := by
  induction ps with
  | nil => intro b; exact Restores_ok b ()
  | cons param rest ih =>
    intro b
    unfold declareParams
    split
    · split
      · split
        · exact Restores_fault b _
        · split
          · exact Restores_andThen (Insert_alloc_restores b _) fun _ b1 _ =>
              Restores_andThen (appendFormalParam_restores b1 _ _) fun _ b2 _ => ih b2
          · exact Restores_fault b _
      · exact Restores_fault b _
    · exact Restores_fault b _

/-! ## Entering and leaving a scope -/

/-- The state reached by allocating a table enclosed in the current scope and
making it current is inside that scope. -/
theorem Inside_enter {b b1 : State} (hF : Framed b b1) (hc : b1.CurrentScope = b.CurrentScope)
    (syms : List SymbolObj) (d : OrderedDict) (name : String) (level : Int) :
    Inside b b1.tabs.length
      { b1 with
        syms := syms,
        tabs := b1.tabs ++ [⟨d, name, level, b1.CurrentScope⟩],
        CurrentScope := some b1.tabs.length } := by
  refine ⟨rfl, ⟨⟨d, name, level, b1.CurrentScope⟩, by simp, hc⟩, ?_⟩
  intro t tab ht
  obtain ⟨tab1, h1, hn, hl, he, hf⟩ := hF t tab ht
  have hlt := getElem?_lt h1
  refine ⟨by omega, tab1, ?_, hn, hl, he, hf⟩
  show (b1.tabs ++ _)[t]? = some tab1
  rw [List.getElem?_append_left hlt]
  exact h1

/-- A handler that restores the current scope, run inside a scope, stays inside
it and keeps the tables of the state the scope was entered from. -/
theorem Inside_step {α : Type} {b s : State} {g : Nat} {r : Result α} (hin : Inside b g s)
    (hr : Restores s r) :
    Framed b r.state ∧ (r.fault? = none → Inside b g r.state) := by
  obtain ⟨hcur, ⟨tabg, htabg, henc⟩, hold⟩ := hin
  have hframe : ∀ t tab, b.tabs[t]? = some tab →
      t ≠ g ∧ ∃ tab1, r.state.tabs[t]? = some tab1 ∧ tab1.ScopeName = tab.ScopeName ∧
        tab1.ScopeLevel = tab.ScopeLevel ∧ tab1.EnclosingScope = tab.EnclosingScope ∧
        (b.CurrentScope ≠ some t → tab1 = tab) := by
    intro t tab ht
    obtain ⟨hne, tab1, h1, hn, hl, he, hf⟩ := hold t tab ht
    obtain ⟨tab2, h2, hn2, hl2, he2, hf2⟩ := hr.1 t tab1 h1
    have heq : tab2 = tab1 := hf2 (by rw [hcur]; intro h; cases h; exact hne rfl)
    subst heq
    exact ⟨hne, tab2, h2, hn, hl, he, hf⟩
  refine ⟨fun t tab ht => (hframe t tab ht).2, ?_⟩
  intro hok
  refine ⟨(hr.2 hok).trans hcur, ?_, hframe⟩
  obtain ⟨tab2, h2, _, _, he2, _⟩ := hr.1 g tabg htabg
  exact ⟨tab2, h2, he2.trans henc⟩

/-- Leaving a scope gives back the current scope the scope was entered from. -/
theorem Inside_leave {b s : State} {g : Nat} (hin : Inside b g s) :
    Exited b g (leaveScope s) := by
  obtain ⟨hcur, ⟨tabg, htabg, henc⟩, hold⟩ := hin
  have hres : leaveScope s = .ok () { s with CurrentScope := tabg.EnclosingScope } := by
    simp [leaveScope, hcur, htabg]
  rw [hres]
  exact ⟨⟨fun t tab ht => (hold t tab ht).2, fun _ => henc⟩, fun _ => ⟨tabg, htabg, henc⟩⟩

/-- Inside a scope, a handler that restores the current scope can be followed by
anything that, from inside the scope, leaves it. -/
theorem Inside_andThen {α β : Type} {b s : State} {g : Nat} {r : Result α}
    {k : α → State → Result β} (hin : Inside b g s) (hr : Restores s r)
    (hk : ∀ a s1, Inside b g s1 → Exited b g (k a s1)) : Exited b g (r.andThen k) := by
  have hstep := Inside_step hin hr
  cases r with
  | fault f s1 => exact ⟨⟨hstep.1, fun h => by cases h⟩, fun h => by cases h⟩
  | ok a s1 => exact hk a s1 (hstep.2 rfl)

/-- After the scope is left, the back-fill of the function symbol changes no
table. -/
theorem Exited_backfill {b : State} {g : Nat} {r : Result Unit} (hr : Exited b g r)
    (p : Nat) (bn rt : Ast) : Exited b g (r.andThen fun _ b6 => backfill b6 p bn rt) := by
  cases r with
  | fault f s => exact ⟨⟨hr.1.1, fun h => by cases h⟩, fun h => by cases h⟩
  | ok u s =>
    obtain ⟨tabg, htabg, henc⟩ := hr.2 rfl
    refine ⟨Restores_andThen hr.1 fun _ b6 _ => backfill_restores b6 _ _ _, ?_⟩
    rw [andThen_ok]
    unfold Script.backfill
    split
    · intro _
      exact ⟨tabg, htabg, henc⟩
    · intro h
      cases h

theorem currentLevel_cases (b : State) :
    (∃ f, currentLevel b = .fault f b) ∨ ∃ level, currentLevel b = .ok level b := by
  unfold currentLevel
  split
  · exact Or.inl ⟨_, rfl⟩
  · split
    · exact Or.inl ⟨_, rfl⟩
    · exact Or.inr ⟨_, rfl⟩

theorem Insert_tabs_length (b : State) (t : Option Nat) (p : Nat) :
    (Insert b t p).state.tabs.length = b.tabs.length := by
  unfold Insert
  repeat' split
  all_goals simp [Result.state]

/-- The visit of a `Program`, given that the visits of its parts restore the
current scope. -/
theorem Program_exited (c : Catalog) (packages : List Ast) (block : Ast) (b : State)
    (h1 : ∀ s, Restores s (VisitEach c packages s)) (h2 : ∀ s, Restores s (Visit c block s)) :
    Exited b b.tabs.length (Visit c (.Program packages block) b) := by
  rw [Visit, NewScopedSymbolTable_eq, andThen_ok]
  have hin := Inside_enter (Framed_refl b) rfl
    (b.syms ++
      [.BuiltinType { Name := "INTEGER", Typ := none, ScopeLevel := 1 },
       .BuiltinType { Name := "FLOAT", Typ := none, ScopeLevel := 1 },
       .BuiltinType { Name := "BOOL", Typ := none, ScopeLevel := 1 },
       .BuiltinType { Name := "STRING", Typ := none, ScopeLevel := 1 },
       .BuiltinType { Name := "LIST", Typ := none, ScopeLevel := 1 },
       .BuiltinType { Name := "DICT", Typ := none, ScopeLevel := 1 }])
    ⟨[("INTEGER", b.syms.length), ("FLOAT", b.syms.length + 1),
      ("BOOL", b.syms.length + 2), ("STRING", b.syms.length + 3),
      ("LIST", b.syms.length + 4), ("DICT", b.syms.length + 5)]⟩ "global" 1
  exact Inside_andThen hin (insertAll_restores _ _) fun _ b2 h2a =>
    Inside_andThen h2a (insertAll_restores _ _) fun _ b3 h3 =>
    Inside_andThen h3 (h1 b3) fun _ b4 h4 =>
    Inside_andThen h4 (h2 b4) fun _ b5 h5 => Inside_leave h5

/-- The visit of a `FunctionDecl`, given that the visit of its body restores the
current scope. -/
theorem FunctionDecl_exited (c : Catalog) (funcName : String) (formalParams : List Ast)
    (blockNode returnType : Ast) (b : State) (h2 : ∀ s, Restores s (Visit c blockNode s)) :
    Exited b b.tabs.length
      (Visit c (.FunctionDecl funcName formalParams blockNode returnType) b) := by
  rw [Visit]
  have hI := Insert_alloc_restores b (.Function (NewFunctionSymbol funcName))
  have hlen := Insert_tabs_length (allocSym b (.Function (NewFunctionSymbol funcName))).1
    (allocSym b (.Function (NewFunctionSymbol funcName))).1.CurrentScope
    (allocSym b (.Function (NewFunctionSymbol funcName))).2
  cases hr : Insert (allocSym b (.Function (NewFunctionSymbol funcName))).1
      (allocSym b (.Function (NewFunctionSymbol funcName))).1.CurrentScope
      (allocSym b (.Function (NewFunctionSymbol funcName))).2 with
  | fault f s =>
    rw [hr] at hI
    exact ⟨⟨hI.1, fun h => by cases h⟩, fun h => by cases h⟩
  | ok u b1 =>
    rw [hr] at hI hlen
    have hlen1 : b1.tabs.length = b.tabs.length := hlen
    rw [andThen_ok]
    rcases currentLevel_cases b1 with ⟨f, hl⟩ | ⟨level, hl⟩
    · rw [hl]
      exact ⟨⟨hI.1, fun h => by cases h⟩, fun h => by cases h⟩
    · rw [hl, andThen_ok, NewScopedSymbolTable_eq, andThen_ok]
      have hin := Inside_enter hI.1 (hI.2 rfl)
        (b1.syms ++
          [.BuiltinType { Name := "INTEGER", Typ := none, ScopeLevel := wrapInt (level + 1) },
           .BuiltinType { Name := "FLOAT", Typ := none, ScopeLevel := wrapInt (level + 1) },
           .BuiltinType { Name := "BOOL", Typ := none, ScopeLevel := wrapInt (level + 1) },
           .BuiltinType { Name := "STRING", Typ := none, ScopeLevel := wrapInt (level + 1) },
           .BuiltinType { Name := "LIST", Typ := none, ScopeLevel := wrapInt (level + 1) },
           .BuiltinType { Name := "DICT", Typ := none, ScopeLevel := wrapInt (level + 1) }])
        ⟨[("INTEGER", b1.syms.length), ("FLOAT", b1.syms.length + 1),
          ("BOOL", b1.syms.length + 2), ("STRING", b1.syms.length + 3),
          ("LIST", b1.syms.length + 4), ("DICT", b1.syms.length + 5)]⟩ funcName
        (wrapInt (level + 1))
      rw [← hlen1]
      exact Inside_andThen hin (declareParams_restores _ _ _) fun _ b4 h4 =>
        Inside_andThen h4 (h2 b4) fun _ b5 h5 => Exited_backfill (Inside_leave h5) _ _ _

/-! ## Scope restoration -/

mutual
/-- Every handler keeps the tables it does not own and, when it completes, ends
with the current scope it started with. -/
theorem Visit_restores (c : Catalog) : ∀ (n : Ast) (b : State), Restores b (Visit c n b)
  | .Program packages block, b =>
    (Program_exited c packages block b (fun s => VisitEach_restores c packages s)
      (fun s => Visit_restores c block s)).1
  | .Package name, b => by rw [Visit]; exact VisitPackage_restores c name b
  | .Block declarations compoundStatement, b => by
    rw [Visit]
    exact Restores_andThen (VisitEachEach_restores c declarations b) fun _ b1 _ =>
      Visit_restores c compoundStatement b1
  | .VarDecl varNode typeNode, b => by rw [Visit]; exact VisitVarDecl_restores _ _ b
  | .TypeN _ _, b => by rw [Visit]; exact Restores_ok b ()
  | .BinOp left _ right, b => by
    rw [Visit]
    exact Restores_andThen (Visit_restores c left b) fun _ b1 _ => Visit_restores c right b1
  | .Number _, b => by rw [Visit]; exact Restores_ok b ()
  | .Str _, b => by rw [Visit]; exact Restores_ok b ()
  | .Boolean _, b => by rw [Visit]; exact Restores_ok b ()
  | .ListN _ value, b => by rw [Visit]; exact VisitEach_restores c value b
  | .DictN _ _ value, b => by rw [Visit]; exact VisitEach_restores c value b
  | .Message _, b => by rw [Visit]; exact Restores_ok b ()
  | .UnaryOp _ _, b => by rw [Visit]; exact Restores_ok b ()
  | .Compound children, b => by rw [Visit]; exact VisitEach_restores c children b
  | .Assign left _ right, b => by
    rw [Visit]
    exact Restores_andThen (Visit_restores c right b) fun _ b1 _ => Visit_restores c left b1
  | .Var tok value, b => by rw [Visit]; exact VisitVar_restores tok value b
  | .NoOp, b => by rw [Visit]; exact Restores_ok b ()
  | .FunctionDecl funcName formalParams blockNode returnType, b =>
    (FunctionDecl_exited c funcName formalParams blockNode returnType b
      (fun s => Visit_restores c blockNode s)).1
  | .Param _ _, b => by rw [Visit]; exact Restores_ok b ()
  | .FunctionCall id packageName funcName actualParams tok, b => by
    rw [Visit]
    exact Restores_andThen (resolveCall_restores _ _ _ _ b) fun _ b1 _ =>
      Restores_andThen (VisitEach_restores c actualParams b1) fun _ b2 _ =>
        Restores_congr { b2 with FuncSymbol := _ } rfl rfl (Restores_ok _ ())
  | .FunctionRef packageName funcName tok, b => by
    rw [Visit]; exact VisitFunctionRef_restores _ _ _ b
  | .Return statement, b => by rw [Visit]; exact Visit_restores c statement b
  | .Print statement, b => by rw [Visit]; exact Visit_restores c statement b
  | .While _ doBranch, b => by rw [Visit]; exact VisitEach_restores c doBranch b
  | .If _ thenBranch elseBranch, b => by
    rw [Visit]
    exact Restores_andThen (VisitEach_restores c thenBranch b) fun _ b1 _ =>
      VisitEach_restores c elseBranch b1
  | .Logical left _ right, b => by
    rw [Visit]
    exact Restores_andThen (Visit_restores c left b) fun _ b1 _ => Visit_restores c right b1
  | .Nil, b => by rw [Visit]; exact Restores_ok b ()
/-- The loop over a list of nodes restores the current scope. -/
theorem VisitEach_restores (c : Catalog) :
    ∀ (ns : List Ast) (b : State), Restores b (VisitEach c ns b)
  | [], b => by rw [VisitEach]; exact Restores_ok b ()
  | n :: rest, b => by
    rw [VisitEach]
    exact Restores_andThen (Visit_restores c n b) fun _ b1 _ => VisitEach_restores c rest b1
/-- The loop over the declaration lists restores the current scope. -/
theorem VisitEachEach_restores (c : Catalog) :
    ∀ (ds : List (List Ast)) (b : State), Restores b (VisitEachEach c ds b)
  | [], b => by rw [VisitEachEach]; exact Restores_ok b ()
  | d :: rest, b => by
    rw [VisitEachEach]
    exact Restores_andThen (VisitEach_restores c d b) fun _ b1 _ =>
      VisitEachEach_restores c rest b1
end

/-- C6: for every state whose current scope, if any, is a table of the heap, and
every `Program` or `FunctionDecl` node, at whatever depth it contains further
function declarations, if the visit of the node completes without a fault then
the current scope afterwards is the very table that was current before; every
table that existed before still has its name, level and enclosing table; and the
table created for the node, allocated at the first free address and enclosed in
the scope that was current, is in the heap but is not the current scope. -/
theorem scope_restoration (c : Catalog) (n : Ast) (b : State)
    (hkind : (∃ packages block, n = .Program packages block) ∨
      ∃ funcName formalParams blockNode returnType,
        n = .FunctionDecl funcName formalParams blockNode returnType)
    (hcur : ∀ t, b.CurrentScope = some t → t < b.tabs.length)
    (hok : (Visit c n b).fault? = none) :
    (Visit c n b).state.CurrentScope = b.CurrentScope ∧
    (∀ (t : Nat) (tab : ScopedSymbolTable), b.tabs[t]? = some tab →
      ∃ tab1 : ScopedSymbolTable, (Visit c n b).state.tabs[t]? = some tab1 ∧ tab1.ScopeName = tab.ScopeName ∧
        tab1.ScopeLevel = tab.ScopeLevel ∧ tab1.EnclosingScope = tab.EnclosingScope) ∧
    (∃ created : ScopedSymbolTable, (Visit c n b).state.tabs[b.tabs.length]? = some created ∧
      created.EnclosingScope = b.CurrentScope) ∧
    (Visit c n b).state.CurrentScope ≠ some b.tabs.length := by
  have hex : Exited b b.tabs.length (Visit c n b) := by
    rcases hkind with ⟨packages, block, rfl⟩ | ⟨funcName, formalParams, blockNode, returnType, rfl⟩
    · exact Program_exited c packages block b (VisitEach_restores c packages)
        (Visit_restores c block)
    · exact FunctionDecl_exited c funcName formalParams blockNode returnType b
        (Visit_restores c blockNode)
  have hc := hex.1.2 hok
  refine ⟨hc, ?_, hex.2 hok, ?_⟩
  · intro t tab ht
    obtain ⟨tab1, h1, h2, h3, h4, _⟩ := hex.1.1 t tab ht
    exact ⟨tab1, h1, h2, h3, h4⟩
  · rw [hc]
    intro h
    have := hcur _ h
    omega

/-- From `demoState`, whose current scope is the function table at address 1, the
visit of a function declaration with a nested function declaration completes and
the current scope is again the table at address 1. -/
theorem scope_restoration_witness :
    (Visit emptyCatalog nestedDecl demoState).fault? = none ∧
    (Visit emptyCatalog nestedDecl demoState).state.CurrentScope = some 1 ∧
    (Visit emptyCatalog nestedDecl demoState).state.tabs.length = 4 :=
  ⟨rfl,
    (scope_restoration emptyCatalog nestedDecl demoState
      (Or.inr ⟨_, _, _, _, rfl⟩) (by intro t h; cases h; decide) rfl).1,
    rfl⟩

/-! ## Variable declarations and references -/

theorem LookupFuel_true (tabs : List ScopedSymbolTable) (fuel t : Nat) (tab : ScopedSymbolTable)
    (name : String) (htab : tabs[t]? = some tab) :
    LookupFuel tabs (fuel + 1) t name true = .ok (tab.symbols.Get name) := by
  cases hget : tab.symbols.Get name <;> simp [LookupFuel, htab, hget]

theorem LookupFuel_error (tabs : List ScopedSymbolTable) (name : String) :
    ∀ fuel t cso f, LookupFuel tabs fuel t name cso = .error f →
      f = .runtimePanic ∨ f = .diverge := by
  intro fuel
  induction fuel with
  | zero =>
    intro t cso f h
    simp [LookupFuel] at h
    exact Or.inr h.symm
  | succ fuel ih =>
    intro t cso f h
    unfold LookupFuel at h
    split at h
    · simp at h
      exact Or.inl h.symm
    · split at h
      · cases h
      · split at h
        · cases h
        · split at h
          · exact ih _ _ _ h
          · cases h

theorem Lookup_error (b : State) (t : Option Nat) (name : String) (cso : Bool) (f : Fault)
    (h : Lookup b t name cso = .error f) : f = .runtimePanic ∨ f = .diverge := by
  unfold Lookup at h
  split at h
  · simp at h
    exact Or.inl h.symm
  · exact LookupFuel_error _ _ _ _ _ _ h

/-- A declaration of a name the current table does not bind: the variable symbol
is allocated with the type the lookup of the type name returned, stamped with
the level of the table and stored under its name. -/
theorem VisitVarDecl_fresh (b : State) (t : Nat) (tab : ScopedSymbolTable) (vtok ttok : Token)
    (x T : String) (r : Option Nat) (hcur : b.CurrentScope = some t)
    (htab : b.tabs[t]? = some tab) (hT : Lookup b (some t) T false = .ok r)
    (hx : tab.symbols.Get x = none) :
    VisitVarDecl (.Var vtok x) (.TypeN ttok T) b = .ok ()
      { b with
        syms := b.syms ++ [.Var { Name := x, Typ := r, ScopeLevel := tab.ScopeLevel }],
        tabs := b.tabs.set t { tab with symbols := tab.symbols.Set x b.syms.length } } := by
  have h1 : Lookup (allocSym b (.Var (NewVarSymbol x r))).1 (some t) x true = .ok none := by
    rw [← hx]
    exact LookupFuel_true b.tabs _ t tab x htab
  have h2 := Insert_eq (allocSym b (.Var (NewVarSymbol x r))).1 t b.syms.length tab
    (.Var (NewVarSymbol x r)) htab (by simp [allocSym])
  simp only [VisitVarDecl, hcur, hT]
  have hc : (allocSym b (.Var (NewVarSymbol x r))).1.CurrentScope = some t := hcur
  simp only [hc, h1]
  rw [show (allocSym b (.Var (NewVarSymbol x r))).2 = b.syms.length from rfl, h2]
  simp [allocSym, set_append_length, SymbolObj.withScopeLevel, NewVarSymbol, insertKey, hcur]

/-- A declaration of a name the current table binds already. -/
theorem VisitVarDecl_bound (b : State) (t : Nat) (tab : ScopedSymbolTable) (vtok ttok : Token)
    (x T : String) (r : Option Nat) (p : Nat) (hcur : b.CurrentScope = some t)
    (htab : b.tabs[t]? = some tab) (hT : Lookup b (some t) T false = .ok r)
    (hx : tab.symbols.Get x = some p) :
    VisitVarDecl (.Var vtok x) (.TypeN ttok T) b =
      .fault (.semantic .DuplicateId vtok) (allocSym b (.Var (NewVarSymbol x r))).1 := by
  have h1 : Lookup (allocSym b (.Var (NewVarSymbol x r))).1 (some t) x true = .ok (some p) := by
    rw [← hx]
    exact LookupFuel_true b.tabs _ t tab x htab
  simp only [VisitVarDecl, hcur, hT]
  have hc : (allocSym b (.Var (NewVarSymbol x r))).1.CurrentScope = some t := hcur
  simp only [hc, h1]

theorem Lookup_returns (b : State) (t : Nat) (name : String) (hwf : ChainsOlder b.tabs)
    (ht : t < b.tabs.length) : ∃ r, Lookup b (some t) name false = .ok r := by
  obtain ⟨r, hr, _⟩ := LookupFuel_sound b.tabs hwf name (b.tabs.length + 1) t (by omega) ht
  exact ⟨r, hr⟩

/-- C7: in a current scope `t` of a heap whose chains lead to older tables, the
declaration `var x T` fails with `DuplicateId`, carrying the token of the declared
variable, exactly when the table `t` itself binds `x`; when `t` does not bind
`x` the declaration completes without any fault, whatever the enclosing tables
bind. -/
theorem VisitVarDecl_duplicate (b : State) (t : Nat) (tab : ScopedSymbolTable)
    (vtok ttok : Token) (x T : String) (hwf : ChainsOlder b.tabs)
    (hcur : b.CurrentScope = some t) (htab : b.tabs[t]? = some tab) :
    ((VisitVarDecl (.Var vtok x) (.TypeN ttok T) b).fault? = some (.semantic .DuplicateId vtok) ↔
      tab.symbols.Get x ≠ none) ∧
    (tab.symbols.Get x = none → (VisitVarDecl (.Var vtok x) (.TypeN ttok T) b).fault? = none) := by
  obtain ⟨r, hT⟩ := Lookup_returns b t T hwf (getElem?_lt htab)
  cases hx : tab.symbols.Get x with
  | none =>
    rw [VisitVarDecl_fresh b t tab vtok ttok x T r hcur htab hT hx]
    simp [Result.fault?]
  | some p =>
    rw [VisitVarDecl_bound b t tab vtok ttok x T r p hcur htab hT hx]
    simp [Result.fault?]

/-- In `demoState` the current table binds `x` and the global table binds `x`
and `y`: declaring `x` fails with `DuplicateId`, declaring `y` does not; and of
the two programs, the one that declares `x` twice in one block fails with
`DuplicateId` on the token of the second declaration, the one that declares `x`
in the global scope and in a function completes. -/
theorem VisitVarDecl_duplicate_witness :
    ChainsOlder demoState.tabs ∧ demoState.CurrentScope = some 1 ∧
    demoState.tabs[1]? = some ⟨⟨[("x", 2)]⟩, "f", 2, some 0⟩ ∧
    (VisitVarDecl (.Var (ident "x") "x") (.TypeN (ident "INTEGER") "INTEGER") demoState).fault? =
      some (.semantic .DuplicateId (ident "x")) ∧
    (VisitVarDecl (.Var (ident "y") "y") (.TypeN (ident "INTEGER") "INTEGER") demoState).fault? =
      none ∧
    (Visit emptyCatalog twiceDeclared NewSemanticAnalyzer).fault? =
      some (.semantic .DuplicateId (identAt "x" 2)) ∧
    (Visit emptyCatalog shadowingProgram NewSemanticAnalyzer).fault? = none :=
  ⟨by decide, rfl, rfl,
    (VisitVarDecl_duplicate demoState 1 ⟨⟨[("x", 2)]⟩, "f", 2, some 0⟩ (ident "x")
      (ident "INTEGER") "x" "INTEGER" (by decide) rfl rfl).1.2 (by decide),
    (VisitVarDecl_duplicate demoState 1 ⟨⟨[("x", 2)]⟩, "f", 2, some 0⟩ (ident "y")
      (ident "INTEGER") "y" "INTEGER" (by decide) rfl rfl).2 (by decide),
    rfl, rfl⟩

/-- C8: in a current scope `t` of a heap whose chains lead to older tables, the
declaration `var x T` is accepted exactly when `t` does not bind `x`, whether or
not `T` is bound; when it is accepted, `t` binds `x` to a new `VarSymbol` named
`x` whose level is the level of `t` and whose type is what `Lookup(T, false)`
returned from `t` before the declaration (nil when no table of the chain binds
`T`); the other bindings of `t`, its name, level and enclosing table, every other
table, every symbol that existed and the current scope are unchanged. -/
theorem VisitVarDecl_binds (b : State) (t : Nat) (tab : ScopedSymbolTable)
    (vtok ttok : Token) (x T : String) (hwf : ChainsOlder b.tabs)
    (hcur : b.CurrentScope = some t) (htab : b.tabs[t]? = some tab) :
    ((VisitVarDecl (.Var vtok x) (.TypeN ttok T) b).fault? = none ↔
      tab.symbols.Get x = none) ∧
    ((VisitVarDecl (.Var vtok x) (.TypeN ttok T) b).fault? = none →
      ∃ (r : Option Nat) (tab1 : ScopedSymbolTable),
        Lookup b (some t) T false = .ok r ∧
        ((∀ k u, nthScope b.tabs k t = some u → u.symbols.Get T = none) → r = none) ∧
        (VisitVarDecl (.Var vtok x) (.TypeN ttok T) b).state.tabs[t]? = some tab1 ∧
        tab1.symbols.Get x = some b.syms.length ∧
        (VisitVarDecl (.Var vtok x) (.TypeN ttok T) b).state.syms[b.syms.length]? =
          some (.Var { Name := x, Typ := r, ScopeLevel := tab.ScopeLevel }) ∧
        (∀ k, k ≠ x → tab1.symbols.Get k = tab.symbols.Get k) ∧
        tab1.ScopeName = tab.ScopeName ∧ tab1.ScopeLevel = tab.ScopeLevel ∧
        tab1.EnclosingScope = tab.EnclosingScope ∧
        (∀ u, u ≠ t →
          (VisitVarDecl (.Var vtok x) (.TypeN ttok T) b).state.tabs[u]? = b.tabs[u]?) ∧
        (∀ p, p < b.syms.length →
          (VisitVarDecl (.Var vtok x) (.TypeN ttok T) b).state.syms[p]? = b.syms[p]?) ∧
        (VisitVarDecl (.Var vtok x) (.TypeN ttok T) b).state.CurrentScope = b.CurrentScope) := by
  have hlt := getElem?_lt htab
  obtain ⟨r, hT, hsome, _⟩ :=
    LookupFuel_sound b.tabs hwf T (b.tabs.length + 1) t (by omega) hlt
  have hT1 : Lookup b (some t) T false = .ok r := hT
  cases hx : tab.symbols.Get x with
  | some p =>
    rw [VisitVarDecl_bound b t tab vtok ttok x T r p hcur htab hT1 hx]
    simp [Result.fault?]
  | none =>
    rw [VisitVarDecl_fresh b t tab vtok ttok x T r hcur htab hT1 hx]
    refine ⟨by simp [Result.fault?], fun _ => ?_⟩
    refine ⟨r, { tab with symbols := tab.symbols.Set x b.syms.length }, hT1, ?_, ?_, ?_, ?_, ?_,
      rfl, rfl, rfl, ?_, ?_, rfl⟩
    · intro hall
      cases hr : r with
      | none => rfl
      | some s =>
        exfalso
        obtain ⟨k, u, hk, hu, _⟩ := hsome s hr
        have := hall k u hk
        rw [hu] at this
        cases this
    · simp [Result.state, List.getElem?_set_self hlt]
    · exact Get_Set_self _ _ _
    · simp [Result.state]
    · intro k hk
      exact Get_Set_ne _ _ _ _ hk
    · intro u hu
      simp [Result.state, List.getElem?_set_ne (Ne.symm hu)]
    · intro p hp
      simp [Result.state, List.getElem?_append_left hp]

/-- In `demoState` the declaration `var z NOPE`, whose type name is bound
nowhere, is accepted. -/
theorem VisitVarDecl_binds_witness :
    ChainsOlder demoState.tabs ∧ demoState.CurrentScope = some 1 ∧
    demoState.tabs[1]? = some ⟨⟨[("x", 2)]⟩, "f", 2, some 0⟩ ∧
    ((VisitVarDecl (.Var (ident "z") "z") (.TypeN (ident "NOPE") "NOPE") demoState).fault? = none ↔
      (⟨[("x", 2)]⟩ : OrderedDict).Get "z" = none) ∧
    (VisitVarDecl (.Var (ident "z") "z") (.TypeN (ident "NOPE") "NOPE") demoState).state.syms[4]? =
      some (.Var { Name := "z", Typ := none, ScopeLevel := 2 }) :=
  ⟨by decide, rfl, rfl,
    (VisitVarDecl_binds demoState 1 ⟨⟨[("x", 2)]⟩, "f", 2, some 0⟩ (ident "z") (ident "NOPE")
      "z" "NOPE" (by decide) rfl rfl).1,
    rfl⟩

/-- C9: the visit of a reference to `y` fails with `IdNotFound`, carrying the
token of the node, exactly when `Lookup(y, false)` from the current scope returns
nil; it completes when the lookup returns a symbol; and in every case the state
it ends in is the state it started in, so no table has gained or lost a
binding. -/
theorem VisitVar_not_found (b : State) (tok : Token) (y : String) :
    ((VisitVar tok y b).fault? = some (.semantic .IdNotFound tok) ↔
      Lookup b b.CurrentScope y false = .ok none) ∧
    (∀ s, Lookup b b.CurrentScope y false = .ok (some s) → (VisitVar tok y b).fault? = none) ∧
    (VisitVar tok y b).state = b := by
  unfold VisitVar
  cases h : Lookup b b.CurrentScope y false with
  | error f =>
    rcases Lookup_error b _ y false f h with rfl | rfl <;> simp [Result.fault?, Result.state]
  | ok r =>
    cases r <;> simp [Result.fault?, Result.state]

/-- C10, as the code has it: the reference to the undeclared `y` makes the visit
of a program fail when it is a statement or an operand of a binary operator, but
the programs `-y`, `while y { }` and `if y { } else { }` are visited without a
fault; for every catalog and state the visit of a unary operator returns at once
whatever its operand is, and the visits of `while` and `if` do not depend on the
condition. -/
theorem undeclared_operand_accepted :
    (Visit emptyCatalog undeclaredVar NewSemanticAnalyzer).fault? =
      some (.semantic .IdNotFound (ident "y")) ∧
    (Visit emptyCatalog undeclaredBinary NewSemanticAnalyzer).fault? =
      some (.semantic .IdNotFound (ident "y")) ∧
    (Visit emptyCatalog undeclaredUnary NewSemanticAnalyzer).fault? = none ∧
    (Visit emptyCatalog undeclaredWhile NewSemanticAnalyzer).fault? = none ∧
    (Visit emptyCatalog undeclaredIf NewSemanticAnalyzer).fault? = none ∧
    (∀ (c : Catalog) (b : State) (op : Token) (e : Ast), Visit c (.UnaryOp op e) b = .ok () b) ∧
    (∀ (c : Catalog) (b : State) (e e1 : Ast) (body : List Ast),
      Visit c (.While e body) b = Visit c (.While e1 body) b) ∧
    (∀ (c : Catalog) (b : State) (e e1 : Ast) (thenBranch elseBranch : List Ast),
      Visit c (.If e thenBranch elseBranch) b = Visit c (.If e1 thenBranch elseBranch) b) := by
  refine ⟨rfl, rfl, rfl, rfl, rfl, ?_, ?_, ?_⟩
  · intro c b op e
    rw [Visit]
  · intro c b e e1 body
    rw [Visit, Visit]
  · intro c b e e1 thenBranch elseBranch
    rw [Visit, Visit]

/-! ## Well-formed states -/

theorem WellFormed_congr {b : State} (b1 : State) (ht : b1.tabs = b.tabs)
    (hc : b1.CurrentScope = b.CurrentScope) (h : WellFormed b) : WellFormed b1 := by
  unfold WellFormed
  rw [ht, hc]
  exact h

theorem ChainsOlder_set {tabs : List ScopedSymbolTable} (hwf : ChainsOlder tabs) (r : Nat)
    (tab : ScopedSymbolTable) (htab : tabs[r]? = some tab) (d : OrderedDict) :
    ChainsOlder (tabs.set r { tab with symbols := d }) := by
  intro t ht
  rw [List.length_set] at ht
  have h := hwf t ht
  by_cases htr : r = t
  · subst htr
    simp only [enclosingOlder, htab] at h
    simp only [enclosingOlder, List.getElem?_set_self ht]
    exact h
  · simp only [enclosingOlder, List.getElem?_set_ne htr]
    exact h

theorem ChainsOlder_append {tabs : List ScopedSymbolTable} (hwf : ChainsOlder tabs)
    (tab : ScopedSymbolTable) (henc : ∀ e, tab.EnclosingScope = some e → e < tabs.length) :
    ChainsOlder (tabs ++ [tab]) := by
  intro t ht
  by_cases hlt : t < tabs.length
  · have h := hwf t hlt
    simp only [enclosingOlder, List.getElem?_append_left hlt]
    exact h
  · have hlen : t = tabs.length := by
      simp only [List.length_append, List.length_singleton] at ht
      omega
    subst hlen
    have hget : (tabs ++ [tab])[tabs.length]? = some tab := by simp
    simp only [enclosingOlder, hget]
    cases he : tab.EnclosingScope with
    | none => rfl
    | some e => simpa using henc e he

theorem Insert_wf (b : State) (t : Option Nat) (p : Nat) (h : WellFormed b) :
    WellFormed (Insert b t p).state := by
  have key : ∀ (r : Nat) (tab : ScopedSymbolTable) (syms : List SymbolObj) (d : OrderedDict),
      b.tabs[r]? = some tab →
      WellFormed (Result.state (Result.ok ()
        { b with
          syms := syms,
          tabs := b.tabs.set r { tab with symbols := d } })) := by
    intro r tab syms d htab
    refine ⟨ChainsOlder_set h.1 r tab htab d, ?_⟩
    intro u hu
    simp only [Result.state, List.length_set]
    exact h.2 u hu
  unfold Insert
  split
  · exact h
  all_goals
    split
    · exact h
    · split
      · exact h
      · rename_i tab htab
        first
          | exact key _ tab _ _ htab
          | (split <;> exact key _ tab _ _ htab)

theorem andThen_wf {α β : Type} {r : Result α} {k : α → State → Result β}
    (hr : WellFormed r.state) (hk : ∀ a s, WellFormed s → WellFormed (k a s).state) :
    WellFormed (r.andThen k).state := by
  cases r with
  | fault f s => exact hr
  | ok a s => exact hk a s hr

theorem insertAll_wf (fs : List Nat) : ∀ b, WellFormed b → WellFormed (insertAll fs b).state := by
  induction fs with
  | nil => intro b h; exact h
  | cons f fs ih =>
    intro b h
    exact andThen_wf (Insert_wf b _ f h) fun _ s hs => ih s hs

/-- The state in which a new table, enclosed in the current scope, has been
allocated and made current is well formed. -/
theorem enter_wf (b : State) (h : WellFormed b) (syms : List SymbolObj) (d : OrderedDict)
    (name : String) (level : Int) :
    WellFormed
      { b with
        syms := syms,
        tabs := b.tabs ++ [⟨d, name, level, b.CurrentScope⟩],
        CurrentScope := some b.tabs.length } := by
  refine ⟨ChainsOlder_append h.1 _ h.2, ?_⟩
  intro t ht
  cases ht
  simp

theorem leaveScope_wf (b : State) (h : WellFormed b) : WellFormed (leaveScope b).state := by
  unfold leaveScope
  split
  · exact h
  · split
    · exact h
    · rename_i t ht tab htab
      refine ⟨h.1, ?_⟩
      intro e he
      have := enclosing_lt h.1 htab he
      have := getElem?_lt htab
      simp only [Result.state]
      omega

theorem backfill_wf (b : State) (p : Nat) (bn rt : Ast) (h : WellFormed b) :
    WellFormed (backfill b p bn rt).state := by
  unfold backfill
  split
  · exact WellFormed_congr _ rfl rfl h
  · exact h

theorem appendFormalParam_wf (b : State) (p q : Nat) (h : WellFormed b) :
    WellFormed (appendFormalParam b p q).state := by
  unfold appendFormalParam
  split
  · exact WellFormed_congr _ rfl rfl h
  · exact h

theorem allocSym_wf (b : State) (o : SymbolObj) (h : WellFormed b) :
    WellFormed (allocSym b o).1 :=
  WellFormed_congr _ rfl rfl h

theorem VisitVar_state (tok : Token) (name : String) (b : State) :
    (VisitVar tok name b).state = b := by
  unfold VisitVar
  split <;> rfl

theorem VisitFunctionRef_state (p f : String) (tok : Token) (b : State) :
    (VisitFunctionRef p f tok b).state = b := by
  unfold VisitFunctionRef
  repeat' split
  all_goals rfl

theorem VisitVarDecl_wf (v t : Ast) (b : State) (h : WellFormed b) :
    WellFormed (VisitVarDecl v t b).state := by
  unfold VisitVarDecl
  split
  · split
    · exact h
    · split
      · split
        · exact allocSym_wf b _ h
        · exact allocSym_wf b _ h
        · exact Insert_wf _ _ _ (allocSym_wf b _ h)
      · exact h
  · exact h

theorem declareParams_wf (p : Nat) (ps : List Ast) :
    ∀ b, WellFormed b → WellFormed (declareParams p ps b).state := by
  induction ps with
  | nil => intro b h; exact h
  | cons param rest ih =>
    intro b h
    unfold declareParams
    split
    · split
      · split
        · exact h
        · split
          · exact andThen_wf (Insert_wf _ _ _ (allocSym_wf b _ h)) fun _ s hs =>
              andThen_wf (appendFormalParam_wf s _ _ hs) fun _ s2 hs2 => ih s2 hs2
          · exact h
      · exact h
    · exact h

theorem NewSemanticAnalyzer_wf : WellFormed NewSemanticAnalyzer :=
  ⟨fun t ht => by simp [NewSemanticAnalyzer] at ht, fun t ht => by simp [NewSemanticAnalyzer] at ht⟩

/-! ## The bound on `Lookup` is never reached -/

theorem Lookup_returns_wf (b : State) (name : String) (cso : Bool) (h : WellFormed b) :
    Lookup b b.CurrentScope name cso ≠ .error .diverge := by
  cases hc : b.CurrentScope with
  | none => simp [Lookup]
  | some t =>
    have hlt := h.2 t hc
    cases cso with
    | true =>
      have := LookupFuel_true b.tabs b.tabs.length t b.tabs[t] name (List.getElem?_eq_getElem hlt)
      simp only [Lookup, this]
      intro h1
      cases h1
    | false =>
      obtain ⟨r, hr⟩ := Lookup_returns b t name h.1 hlt
      rw [hr]
      intro h1
      cases h1

theorem Returns_ok {α : Type} (a : α) (b : State) (h : WellFormed b) :
    Returns (Result.ok a b) :=
  ⟨h, fun h1 => by cases h1⟩

theorem Returns_panic {α : Type} (b : State) (h : WellFormed b) :
    Returns (Result.fault .runtimePanic b : Result α) :=
  ⟨h, fun h1 => by cases h1⟩

theorem Returns_semantic {α : Type} (code : ErrorCode) (tok : Token) (b : State)
    (h : WellFormed b) : Returns (Result.fault (.semantic code tok) b : Result α) :=
  ⟨h, fun h1 => by cases h1⟩

theorem Returns_lookup {α : Type} (b s : State) (name : String) (cso : Bool) (f : Fault)
    (h : WellFormed b) (hs : WellFormed s) (hf : Lookup b b.CurrentScope name cso = .error f) :
    Returns (Result.fault f s : Result α) := by
  refine ⟨hs, ?_⟩
  intro h1
  cases h1
  exact Lookup_returns_wf b name cso h hf

theorem Returns_andThen {α β : Type} {r : Result α} {k : α → State → Result β}
    (hr : Returns r) (hk : ∀ a s, WellFormed s → Returns (k a s)) : Returns (r.andThen k) := by
  cases r with
  | fault f s => exact hr
  | ok a s => exact hk a s hr.1

theorem Insert_returns (b : State) (t : Option Nat) (p : Nat) (h : WellFormed b) :
    Returns (Insert b t p) := by
  refine ⟨Insert_wf b t p h, ?_⟩
  unfold Insert
  repeat' split
  all_goals intro h1; cases h1

theorem insertAll_returns (fs : List Nat) : ∀ b, WellFormed b → Returns (insertAll fs b) := by
  induction fs with
  | nil => intro b h; exact Returns_ok () b h
  | cons f fs ih =>
    intro b h
    exact Returns_andThen (Insert_returns b _ f h) fun _ s hs => ih s hs

theorem leaveScope_returns (b : State) (h : WellFormed b) : Returns (leaveScope b) := by
  refine ⟨leaveScope_wf b h, ?_⟩
  unfold leaveScope
  repeat' split
  all_goals intro h1; cases h1

theorem backfill_returns (b : State) (p : Nat) (bn rt : Ast) (h : WellFormed b) :
    Returns (backfill b p bn rt) := by
  refine ⟨backfill_wf b p bn rt h, ?_⟩
  unfold backfill
  repeat' split
  all_goals intro h1; cases h1

theorem appendFormalParam_returns (b : State) (p q : Nat) (h : WellFormed b) :
    Returns (appendFormalParam b p q) := by
  refine ⟨appendFormalParam_wf b p q h, ?_⟩
  unfold appendFormalParam
  repeat' split
  all_goals intro h1; cases h1

theorem VisitVar_returns (tok : Token) (name : String) (b : State) (h : WellFormed b) :
    Returns (VisitVar tok name b) := by
  unfold VisitVar
  split
  · rename_i f hf
    exact Returns_lookup b b name false f h h hf
  · exact Returns_semantic _ _ b h
  · exact Returns_ok () b h

theorem VisitFunctionRef_returns (p f : String) (tok : Token) (b : State) (h : WellFormed b) :
    Returns (VisitFunctionRef p f tok b) := by
  unfold VisitFunctionRef
  split
  · rename_i e he
    exact Returns_lookup b b _ false e h h he
  · exact Returns_ok () b h
  · split
    · rename_i e he
      exact Returns_lookup b b _ false e h h he
    · exact Returns_semantic _ _ b h
    · exact Returns_ok () b h

theorem resolveCall_returns (p f : String) (n : Nat) (tok : Token) (b : State)
    (h : WellFormed b) : Returns (resolveCall p f n tok b) := by
  unfold resolveCall
  split
  · rename_i e he
    exact Returns_lookup b b _ false e h h he
  · split
    · split
      · split
        · exact Returns_semantic _ _ b h
        · exact Returns_ok _ b h
      · exact Returns_ok _ b h
    · exact Returns_panic b h
  · split
    · rename_i e he
      exact Returns_lookup b b _ false e h h he
    · exact Returns_semantic _ _ b h
    · split
      · split
        · split
          · exact Returns_semantic _ _ b h
          · exact Returns_ok _ b h
        · exact Returns_ok _ b h
      · exact Returns_panic b h

theorem VisitVarDecl_returns (v t : Ast) (b : State) (h : WellFormed b) :
    Returns (VisitVarDecl v t b) := by
  unfold VisitVarDecl
  split
  · split
    · rename_i e he
      exact Returns_lookup b b _ false e h h he
    · split
      · split
        · rename_i e he
          exact Returns_lookup _ _ _ true e (allocSym_wf b _ h) (allocSym_wf b _ h) he
        · exact Returns_semantic _ _ _ (allocSym_wf b _ h)
        · exact Insert_returns _ _ _ (allocSym_wf b _ h)
      · exact Returns_panic b h
  · exact Returns_panic b h

theorem declareParams_returns (p : Nat) (ps : List Ast) :
    ∀ b, WellFormed b → Returns (declareParams p ps b) := by
  induction ps with
  | nil => intro b h; exact Returns_ok () b h
  | cons param rest ih =>
    intro b h
    unfold declareParams
    split
    · split
      · split
        · rename_i e he
          exact Returns_lookup b b _ false e h h he
        · split
          · exact Returns_andThen (Insert_returns _ _ _ (allocSym_wf b _ h)) fun _ s hs =>
              Returns_andThen (appendFormalParam_returns s _ _ hs) fun _ s2 hs2 => ih s2 hs2
          · exact Returns_panic b h
      · exact Returns_panic b h
    · exact Returns_panic b h

mutual
/-- From a well-formed state every handler returns or panics: the outcome is
never `diverge`, and the state reached is well formed. -/
theorem Visit_returns (c : Catalog) :
    ∀ (n : Ast) (b : State), WellFormed b → Returns (Visit c n b)
  | .Program packages block, b, h => by
    rw [Visit, NewScopedSymbolTable_eq, andThen_ok]
    exact Returns_andThen (insertAll_returns _ _ (enter_wf b h _ _ _ _)) fun _ b2 h2 =>
      Returns_andThen (insertAll_returns _ b2 h2) fun _ b3 h3 =>
      Returns_andThen (VisitEach_returns c packages b3 h3) fun _ b4 h4 =>
      Returns_andThen (Visit_returns c block b4 h4) fun _ b5 h5 => leaveScope_returns b5 h5
  | .Package name, b, h => by rw [Visit]; exact insertAll_returns _ b h
  | .Block declarations compoundStatement, b, h => by
    rw [Visit]
    exact Returns_andThen (VisitEachEach_returns c declarations b h) fun _ b1 h1 =>
      Visit_returns c compoundStatement b1 h1
  | .VarDecl varNode typeNode, b, h => by rw [Visit]; exact VisitVarDecl_returns _ _ b h
  | .TypeN _ _, b, h => by rw [Visit]; exact Returns_ok () b h
  | .BinOp left _ right, b, h => by
    rw [Visit]
    exact Returns_andThen (Visit_returns c left b h) fun _ b1 h1 => Visit_returns c right b1 h1
  | .Number _, b, h => by rw [Visit]; exact Returns_ok () b h
  | .Str _, b, h => by rw [Visit]; exact Returns_ok () b h
  | .Boolean _, b, h => by rw [Visit]; exact Returns_ok () b h
  | .ListN _ value, b, h => by rw [Visit]; exact VisitEach_returns c value b h
  | .DictN _ _ value, b, h => by rw [Visit]; exact VisitEach_returns c value b h
  | .Message _, b, h => by rw [Visit]; exact Returns_ok () b h
  | .UnaryOp _ _, b, h => by rw [Visit]; exact Returns_ok () b h
  | .Compound children, b, h => by rw [Visit]; exact VisitEach_returns c children b h
  | .Assign left _ right, b, h => by
    rw [Visit]
    exact Returns_andThen (Visit_returns c right b h) fun _ b1 h1 => Visit_returns c left b1 h1
  | .Var tok value, b, h => by rw [Visit]; exact VisitVar_returns tok value b h
  | .NoOp, b, h => by rw [Visit]; exact Returns_ok () b h
  | .FunctionDecl funcName formalParams blockNode returnType, b, h => by
    rw [Visit]
    refine Returns_andThen (Insert_returns _ _ _ (allocSym_wf b _ h)) fun _ b1 h1 => ?_
    rcases currentLevel_cases b1 with ⟨f, hl⟩ | ⟨level, hl⟩
    · have hf : f = .runtimePanic := by
        unfold currentLevel at hl
        repeat' split at hl
        all_goals cases hl
        all_goals rfl
      rw [hl, hf]
      exact Returns_panic b1 h1
    · rw [hl, andThen_ok, NewScopedSymbolTable_eq, andThen_ok]
      exact Returns_andThen (declareParams_returns _ _ _ (enter_wf b1 h1 _ _ _ _)) fun _ b4 h4 =>
        Returns_andThen (Visit_returns c blockNode b4 h4) fun _ b5 h5 =>
        Returns_andThen (leaveScope_returns b5 h5) fun _ b6 h6 => backfill_returns b6 _ _ _ h6
  | .Param _ _, b, h => by rw [Visit]; exact Returns_ok () b h
  | .FunctionCall id packageName funcName actualParams tok, b, h => by
    rw [Visit]
    exact Returns_andThen (resolveCall_returns _ _ _ _ b h) fun _ b1 h1 =>
      Returns_andThen (VisitEach_returns c actualParams b1 h1) fun _ b2 h2 =>
        Returns_ok () _ (WellFormed_congr _ rfl rfl h2)
  | .FunctionRef packageName funcName tok, b, h => by
    rw [Visit]; exact VisitFunctionRef_returns _ _ _ b h
  | .Return statement, b, h => by rw [Visit]; exact Visit_returns c statement b h
  | .Print statement, b, h => by rw [Visit]; exact Visit_returns c statement b h
  | .While _ doBranch, b, h => by rw [Visit]; exact VisitEach_returns c doBranch b h
  | .If _ thenBranch elseBranch, b, h => by
    rw [Visit]
    exact Returns_andThen (VisitEach_returns c thenBranch b h) fun _ b1 h1 =>
      VisitEach_returns c elseBranch b1 h1
  | .Logical left _ right, b, h => by
    rw [Visit]
    exact Returns_andThen (Visit_returns c left b h) fun _ b1 h1 => Visit_returns c right b1 h1
  | .Nil, b, h => by rw [Visit]; exact Returns_ok () b h
/-- The loop over a list of nodes returns or panics. -/
theorem VisitEach_returns (c : Catalog) :
    ∀ (ns : List Ast) (b : State), WellFormed b → Returns (VisitEach c ns b)
  | [], b, h => by rw [VisitEach]; exact Returns_ok () b h
  | n :: rest, b, h => by
    rw [VisitEach]
    exact Returns_andThen (Visit_returns c n b h) fun _ b1 h1 => VisitEach_returns c rest b1 h1
/-- The loop over the declaration lists returns or panics. -/
theorem VisitEachEach_returns (c : Catalog) :
    ∀ (ds : List (List Ast)) (b : State), WellFormed b → Returns (VisitEachEach c ds b)
  | [], b, h => by rw [VisitEachEach]; exact Returns_ok () b h
  | d :: rest, b, h => by
    rw [VisitEachEach]
    exact Returns_andThen (VisitEach_returns c d b h) fun _ b1 h1 =>
      VisitEachEach_returns c rest b1 h1
end

/-! ## Function calls and references -/

theorem Visit_FunctionCall_eq (c : Catalog) (id : Nat) (p g : String) (args : List Ast)
    (tok : Token) (b : State) :
    Visit c (.FunctionCall id p g args tok) b =
      (resolveCall p g args.length tok b).andThen fun s b1 => finishCall c id args s b1 := by
  rw [Visit]
  rfl

theorem Visit_FunctionRef_eq (c : Catalog) (p g : String) (tok : Token) (b : State) :
    Visit c (.FunctionRef p g tok) b = VisitFunctionRef p g tok b := by
  rw [Visit]

theorem finishCall_fault (c : Catalog) (id : Nat) (args : List Ast) (s : Nat) (b : State) :
    (finishCall c id args s b).fault? = (VisitEach c args b).fault? := by
  unfold finishCall
  cases VisitEach c args b <;> rfl

theorem finishCall_ok (c : Catalog) (id : Nat) (args : List Ast) (s : Nat) (b b2 : State)
    (h : finishCall c id args s b = .ok () b2) : FuncSymbolOf b2 id = some s := by
  unfold finishCall at h
  cases hv : VisitEach c args b with
  | fault f s1 =>
    rw [hv] at h
    cases h
  | ok u s1 =>
    rw [hv] at h
    simp only [andThen_ok] at h
    cases h
    simp [FuncSymbolOf, latestWrite]

/-- The call's own key is bound to a function symbol with an empty package. -/
theorem resolveCall_own_bare (p g : String) (m : Nat) (tok : Token) (b : State) (s : Nat)
    (f : FunctionSymbol) (hL : Lookup b b.CurrentScope (callKey p g) false = .ok (some s))
    (hobj : b.syms[s]? = some (.Function f)) (hp : f.Package = "") :
    resolveCall p g m tok b =
      if m ≠ f.FormalParams.length then .fault (.semantic .WrongParamsNum tok) b else .ok s b := by
  simp [resolveCall, hL, hobj, hp]

/-- The call's own key is bound to a function symbol with a package. -/
theorem resolveCall_own_package (p g : String) (m : Nat) (tok : Token) (b : State) (s : Nat)
    (f : FunctionSymbol) (hL : Lookup b b.CurrentScope (callKey p g) false = .ok (some s))
    (hobj : b.syms[s]? = some (.Function f)) (hp : f.Package ≠ "") :
    resolveCall p g m tok b = .ok s b := by
  simp [resolveCall, hL, hobj, hp]

/-- The call's own key is bound to a symbol that is not a function: the type
assertion `funcSymbol.(*FunctionSymbol)` panics. -/
theorem resolveCall_own_other (p g : String) (m : Nat) (tok : Token) (b : State) (s : Nat)
    (hL : Lookup b b.CurrentScope (callKey p g) false = .ok (some s))
    (hobj : ∀ f, b.syms[s]? ≠ some (.Function f)) :
    resolveCall p g m tok b = .fault .runtimePanic b := by
  unfold resolveCall
  simp only [hL]

/-- Neither the call's own key nor the `builtin.` key is bound. -/
theorem resolveCall_unbound (p g : String) (m : Nat) (tok : Token) (b : State)
    (hL : Lookup b b.CurrentScope (callKey p g) false = .ok none)
    (hB : Lookup b b.CurrentScope (qualified "builtin" g) false = .ok none) :
    resolveCall p g m tok b = .fault (.semantic .UndefinedFunction tok) b := by
  simp [resolveCall, hL, hB]

/-- The `builtin.` key is bound to a function symbol with a package. -/
theorem resolveCall_fallback_package (p g : String) (m : Nat) (tok : Token) (b : State)
    (s : Nat) (f : FunctionSymbol)
    (hL : Lookup b b.CurrentScope (callKey p g) false = .ok none)
    (hB : Lookup b b.CurrentScope (qualified "builtin" g) false = .ok (some s))
    (hobj : b.syms[s]? = some (.Function f)) (hp : f.Package ≠ "") :
    resolveCall p g m tok b = .ok s b := by
  simp [resolveCall, hL, hB, hobj, hp]

/-- The `builtin.` key is bound to a function symbol with an empty package:
`formalParams` is still nil when the lengths are compared. -/
theorem resolveCall_fallback_bare (p g : String) (m : Nat) (tok : Token) (b : State)
    (s : Nat) (f : FunctionSymbol)
    (hL : Lookup b b.CurrentScope (callKey p g) false = .ok none)
    (hB : Lookup b b.CurrentScope (qualified "builtin" g) false = .ok (some s))
    (hobj : b.syms[s]? = some (.Function f)) (hp : f.Package = "") :
    resolveCall p g m tok b =
      if m ≠ 0 then .fault (.semantic .WrongParamsNum tok) b else .ok s b := by
  simp [resolveCall, hL, hB, hobj, hp]

/-- When the resolution returns a symbol, it is the one a lookup returned. -/
theorem resolveCall_ok (p g : String) (m : Nat) (tok : Token) (b b1 : State) (s : Nat)
    (h : resolveCall p g m tok b = .ok s b1) :
    b1 = b ∧ (Lookup b b.CurrentScope (callKey p g) false = .ok (some s) ∨
      (Lookup b b.CurrentScope (callKey p g) false = .ok none ∧
        Lookup b b.CurrentScope (qualified "builtin" g) false = .ok (some s))) := by
  unfold resolveCall at h
  split at h
  · cases h
  · rename_i s1 hL
    split at h
    · split at h
      · split at h
        · cases h
        · cases h
          exact ⟨rfl, Or.inl hL⟩
      · cases h
        exact ⟨rfl, Or.inl hL⟩
    · cases h
  · rename_i hL
    split at h
    · cases h
    · cases h
    · rename_i s1 hB
      split at h
      · split at h
        · split at h
          · cases h
          · cases h
            exact ⟨rfl, Or.inr ⟨hL, hB⟩⟩
        · cases h
          exact ⟨rfl, Or.inr ⟨hL, hB⟩⟩
      · cases h

/-- When the resolution raises `UndefinedFunction`, both keys are unbound. -/
theorem resolveCall_undefined (p g : String) (m : Nat) (tok tok1 : Token) (b : State)
    (h : (resolveCall p g m tok b).fault? = some (.semantic .UndefinedFunction tok1)) :
    Lookup b b.CurrentScope (callKey p g) false = .ok none ∧
      Lookup b b.CurrentScope (qualified "builtin" g) false = .ok none := by
  unfold resolveCall at h
  split at h
  · rename_i f hL
    rcases Lookup_error b _ _ _ f hL with rfl | rfl <;> simp [Result.fault?] at h
  · split at h
    · split at h
      · split at h <;> simp [Result.fault?] at h
      · simp [Result.fault?] at h
    · simp [Result.fault?] at h
  · rename_i hL
    split at h
    · rename_i f hB
      rcases Lookup_error b _ _ _ f hB with rfl | rfl <;> simp [Result.fault?] at h
    · rename_i hB
      exact ⟨hL, hB⟩
    · split at h
      · split at h
        · split at h <;> simp [Result.fault?] at h
        · simp [Result.fault?] at h
      · simp [Result.fault?] at h

theorem VisitFunctionRef_undefined (p g : String) (tok tok1 : Token) (b : State)
    (h : (VisitFunctionRef p g tok b).fault? = some (.semantic .UndefinedFunction tok1)) :
    Lookup b b.CurrentScope (callKey p g) false = .ok none ∧
      Lookup b b.CurrentScope (qualified "builtin" g) false = .ok none := by
  unfold VisitFunctionRef at h
  split at h
  · rename_i f hL
    rcases Lookup_error b _ _ _ f hL with rfl | rfl <;> simp [Result.fault?] at h
  · simp [Result.fault?] at h
  · rename_i hL
    split at h
    · rename_i f hB
      rcases Lookup_error b _ _ _ f hB with rfl | rfl <;> simp [Result.fault?] at h
    · rename_i hB
      exact ⟨hL, hB⟩
    · simp [Result.fault?] at h

theorem andThen_fault_cases {α β : Type} (r : Result α) (k : α → State → Result β) (f : Fault)
    (h : (r.andThen k).fault? = some f) :
    r.fault? = some f ∨ ∃ a s, r = .ok a s ∧ (k a s).fault? = some f := by
  cases r with
  | fault e s => exact Or.inl h
  | ok a s => exact Or.inr ⟨a, s, rfl, h⟩

/-! ## The two handlers that open a scope, unfolded -/

theorem andThen_assoc {α β γ : Type} (r : Result α) (k : α → State → Result β)
    (k1 : β → State → Result γ) :
    (r.andThen k).andThen k1 = r.andThen fun a s => (k a s).andThen k1 := by
  cases r <;> rfl

theorem Visit_Program_eq (c : Catalog) (packages : List Ast) (block : Ast) (b : State) :
    Visit c (.Program packages block) b =
      (insertAll c.functions (programEntry b)).andThen fun _ b2 =>
      (insertAll c.iteration b2).andThen fun _ b3 =>
      (VisitEach c packages b3).andThen fun _ b4 =>
      (Visit c block b4).andThen fun _ b5 =>
      leaveScope b5 := by
  rw [Visit, NewScopedSymbolTable_eq, andThen_ok]
  rfl

theorem Visit_FunctionDecl_eq (c : Catalog) (f : String) (params : List Ast) (body rt : Ast)
    (b : State) (t : Nat) (tab : ScopedSymbolTable) (hcur : b.CurrentScope = some t)
    (htab : b.tabs[t]? = some tab) :
    Visit c (.FunctionDecl f params body rt) b =
      (declareParams b.syms.length params (functionEntry b t tab f)).andThen fun _ b4 =>
      (Visit c body b4).andThen fun _ b5 =>
      (leaveScope b5).andThen fun _ b6 =>
      backfill b6 b.syms.length body rt := by
  have ht := getElem?_lt htab
  have h2 := Insert_eq (allocSym b (.Function (NewFunctionSymbol f))).1 t b.syms.length tab
    (.Function (NewFunctionSymbol f)) htab (by simp [allocSym])
  have hc : (allocSym b (.Function (NewFunctionSymbol f))).1.CurrentScope = some t := hcur
  rw [Visit, hc, show (allocSym b (.Function (NewFunctionSymbol f))).2 = b.syms.length from rfl, h2,
    andThen_ok]
  have hl : currentLevel
      { syms := (allocSym b (.Function (NewFunctionSymbol f))).1.syms.set b.syms.length
          ((SymbolObj.Function (NewFunctionSymbol f)).withScopeLevel tab.ScopeLevel),
        tabs := (allocSym b (.Function (NewFunctionSymbol f))).1.tabs.set t
          { tab with
            symbols := tab.symbols.Set (insertKey (.Function (NewFunctionSymbol f))) b.syms.length },
        CurrentScope := (allocSym b (.Function (NewFunctionSymbol f))).1.CurrentScope,
        FuncSymbol := (allocSym b (.Function (NewFunctionSymbol f))).1.FuncSymbol } =
      .ok tab.ScopeLevel
      { syms := b.syms ++ [.Function { NewFunctionSymbol f with ScopeLevel := tab.ScopeLevel }],
        tabs := b.tabs.set t { tab with symbols := tab.symbols.Set f b.syms.length },
        CurrentScope := some t,
        FuncSymbol := b.FuncSymbol } := by
    simp [currentLevel, allocSym, hcur, List.getElem?_set_self ht, set_append_length,
      SymbolObj.withScopeLevel, insertKey, NewFunctionSymbol]
  rw [hl, andThen_ok, NewScopedSymbolTable_eq, andThen_ok]
  simp [functionEntry, seedObjects, seedDict, NewFunctionSymbol]

theorem functionEntry_table (b : State) (t : Nat) (tab : ScopedSymbolTable) (f : String) :
    (functionEntry b t tab f).tabs[b.tabs.length]? =
      some ⟨seedDict (b.syms.length + 1), f, wrapInt (tab.ScopeLevel + 1), some t⟩ := by
  have h := getElem?_append_add
    (b.tabs.set t { tab with symbols := tab.symbols.Set f b.syms.length })
    [⟨seedDict (b.syms.length + 1), f, wrapInt (tab.ScopeLevel + 1), some t⟩] 0
  simp [functionEntry]

theorem functionEntry_outer (b : State) (t : Nat) (tab : ScopedSymbolTable) (f : String)
    (htab : b.tabs[t]? = some tab) :
    (functionEntry b t tab f).tabs[t]? =
      some { tab with symbols := tab.symbols.Set f b.syms.length } := by
  have ht := getElem?_lt htab
  show (b.tabs.set t _ ++ _)[t]? = _
  rw [List.getElem?_append_left (by simpa using ht), List.getElem?_set_self ht]

theorem functionEntry_symbol (b : State) (t : Nat) (tab : ScopedSymbolTable) (f : String) :
    (functionEntry b t tab f).syms[b.syms.length]? =
      some (.Function { NewFunctionSymbol f with ScopeLevel := tab.ScopeLevel }) := by
  show (b.syms ++ _ ++ _)[b.syms.length]? = _
  rw [List.append_assoc]
  exact (getElem?_append_add b.syms _ 0).trans rfl

theorem backfill_eq (b : State) (p : Nat) (fs : FunctionSymbol) (bn rt : Ast)
    (h : b.syms[p]? = some (.Function fs)) :
    backfill b p bn rt = .ok ()
      { b with
        syms := b.syms.set p (.Function { fs with BlockAst := bn, ReturnType := rt }) } := by
  simp only [backfill, h]

/-- A function declaration without parameters and with an empty body, visited in
a current scope that exists, completes whatever the current table binds; the
table then binds the name to the new function symbol. -/
theorem FunctionDecl_empty (c : Catalog) (b : State) (t : Nat) (tab : ScopedSymbolTable)
    (f : String) (rt : Ast) (hcur : b.CurrentScope = some t) (htab : b.tabs[t]? = some tab) :
    ∃ s tab1, Visit c (.FunctionDecl f [] (.Block [] (.Compound [])) rt) b = .ok () s ∧
      s.tabs[t]? = some tab1 ∧ tab1.symbols.Get f = some b.syms.length := by
  rw [Visit_FunctionDecl_eq c f [] _ rt b t tab hcur htab, declareParams, andThen_ok, Visit,
    VisitEachEach, andThen_ok, Visit, VisitEach, andThen_ok]
  have hleave : leaveScope (functionEntry b t tab f) =
      .ok () { functionEntry b t tab f with CurrentScope := some t } := by
    simp [leaveScope, functionEntry_table, show (functionEntry b t tab f).CurrentScope =
      some b.tabs.length from rfl]
  rw [hleave, andThen_ok]
  have hs : ({ functionEntry b t tab f with CurrentScope := some t } : State).syms[b.syms.length]? =
      some (.Function { NewFunctionSymbol f with ScopeLevel := tab.ScopeLevel }) :=
    functionEntry_symbol b t tab f
  rw [backfill_eq _ _ _ _ _ hs]
  exact ⟨_, { tab with symbols := tab.symbols.Set f b.syms.length }, rfl,
    functionEntry_outer b t tab f htab, Get_Set_self _ _ _⟩

/-- C14, as the code has it: in `bareBuiltinState` the name `len` is bound
nowhere and the key `builtin.len` is bound to a function symbol, one with an
empty package; the call `len(1)` does not resolve to it but fails with
`WrongParamsNum`, while the reference to `len` and the call `len()` complete. -/
theorem fallback_to_bare_function :
    Lookup bareBuiltinState bareBuiltinState.CurrentScope (callKey "" "len") false = .ok none ∧
    Lookup bareBuiltinState bareBuiltinState.CurrentScope (qualified "builtin" "len") false =
      .ok (some 0) ∧
    bareBuiltinState.syms[0]? = some (.Function (declaredFunction "builtin.len" [])) ∧
    (Visit emptyCatalog (.FunctionCall 7 "" "len" [num "1"] (ident "len"))
      bareBuiltinState).fault? = some (.semantic .WrongParamsNum (ident "len")) ∧
    (Visit emptyCatalog (.FunctionCall 7 "" "len" [] (ident "len")) bareBuiltinState).fault? =
      none ∧
    (Visit emptyCatalog (.FunctionRef "" "len" (ident "len")) bareBuiltinState).fault? = none :=
  ⟨rfl, rfl, rfl, rfl, rfl, rfl⟩

/-- C14, amended: for every state, every call node and every reference node with
function name `g` and package `p`, with `callKey p g` the key looked up first:
when that key and the key `builtin.g` are both unbound in the chain of the
current scope, the visit fails at once with `UndefinedFunction` carrying the
token of the node; a reference fails with that fault only then, and a call only
then or when the visit of its arguments raises it; when the first key is unbound
and the second is bound to a function symbol with a non-empty package, the
reference completes and the call resolves to that symbol, its arguments being
visited next; and when the visit of a call completes, the field `FuncSymbol` of
the node holds the symbol the resolution returned. -/
theorem two_tier_resolution (c : Catalog) (b : State) (id : Nat) (p g : String)
    (args : List Ast) (tok : Token) :
    ((Lookup b b.CurrentScope (callKey p g) false = .ok none ∧
        Lookup b b.CurrentScope (qualified "builtin" g) false = .ok none) →
      Visit c (.FunctionCall id p g args tok) b = .fault (.semantic .UndefinedFunction tok) b ∧
      Visit c (.FunctionRef p g tok) b = .fault (.semantic .UndefinedFunction tok) b) ∧
    ((Visit c (.FunctionRef p g tok) b).fault? = some (.semantic .UndefinedFunction tok) →
      Lookup b b.CurrentScope (callKey p g) false = .ok none ∧
        Lookup b b.CurrentScope (qualified "builtin" g) false = .ok none) ∧
    ((Visit c (.FunctionCall id p g args tok) b).fault? =
        some (.semantic .UndefinedFunction tok) →
      (Lookup b b.CurrentScope (callKey p g) false = .ok none ∧
        Lookup b b.CurrentScope (qualified "builtin" g) false = .ok none) ∨
      (VisitEach c args b).fault? = some (.semantic .UndefinedFunction tok)) ∧
    (∀ (s : Nat) (f : FunctionSymbol),
      Lookup b b.CurrentScope (callKey p g) false = .ok none →
      Lookup b b.CurrentScope (qualified "builtin" g) false = .ok (some s) →
      b.syms[s]? = some (.Function f) → f.Package ≠ "" →
      Visit c (.FunctionCall id p g args tok) b = finishCall c id args s b ∧
      Visit c (.FunctionRef p g tok) b = .ok () b) ∧
    (∀ b2, Visit c (.FunctionCall id p g args tok) b = .ok () b2 →
      ∃ s, (Lookup b b.CurrentScope (callKey p g) false = .ok (some s) ∨
          (Lookup b b.CurrentScope (callKey p g) false = .ok none ∧
            Lookup b b.CurrentScope (qualified "builtin" g) false = .ok (some s))) ∧
        FuncSymbolOf b2 id = some s) := by
  refine ⟨?_, ?_, ?_, ?_, ?_⟩
  · rintro ⟨hL, hB⟩
    rw [Visit_FunctionCall_eq, resolveCall_unbound p g _ tok b hL hB, Visit_FunctionRef_eq]
    exact ⟨rfl, by simp [VisitFunctionRef, hL, hB]⟩
  · intro h
    rw [Visit_FunctionRef_eq] at h
    exact VisitFunctionRef_undefined p g tok tok b h
  · intro h
    rw [Visit_FunctionCall_eq] at h
    rcases andThen_fault_cases _ _ _ h with h1 | ⟨s, b1, hr, h1⟩
    · exact Or.inl (resolveCall_undefined p g _ tok tok b h1)
    · obtain ⟨rfl, _⟩ := resolveCall_ok p g _ tok b b1 s hr
      rw [finishCall_fault] at h1
      exact Or.inr h1
  · intro s f hL hB hobj hp
    rw [Visit_FunctionCall_eq, resolveCall_fallback_package p g _ tok b s f hL hB hobj hp,
      Visit_FunctionRef_eq]
    exact ⟨rfl, by simp [VisitFunctionRef, hL, hB]⟩
  · intro b2 h
    rw [Visit_FunctionCall_eq] at h
    cases hr : resolveCall p g args.length tok b with
    | fault e s1 =>
      rw [hr] at h
      cases h
    | ok s b1 =>
      rw [hr, andThen_ok] at h
      obtain ⟨rfl, hs⟩ := resolveCall_ok p g _ tok b b1 s hr
      exact ⟨s, hs, finishCall_ok c id args s b1 b2 h⟩

/-- C15, as the code has it: the calls `x(1)` of a declared variable and
`INTEGER(1)` of a builtin type end in a run-time panic, the failed type
assertion, not in `UndefinedFunction`, which the call of a name bound nowhere
raises; whenever the key of a call is bound to a symbol that is not a function,
the visit panics, whatever the key `builtin.g` binds. -/
theorem call_of_non_function_panics :
    (Visit emptyCatalog callOfVariable NewSemanticAnalyzer).fault? = some .runtimePanic ∧
    (Visit emptyCatalog callOfBuiltinType NewSemanticAnalyzer).fault? = some .runtimePanic ∧
    (Visit emptyCatalog callOfNothing NewSemanticAnalyzer).fault? =
      some (.semantic .UndefinedFunction (ident "nope")) ∧
    (∀ (c : Catalog) (b : State) (id : Nat) (p g : String) (args : List Ast) (tok : Token)
      (s : Nat), Lookup b b.CurrentScope (callKey p g) false = .ok (some s) →
      (∀ f, b.syms[s]? ≠ some (.Function f)) →
      Visit c (.FunctionCall id p g args tok) b = .fault .runtimePanic b) := by
  refine ⟨rfl, rfl, rfl, ?_⟩
  intro c b id p g args tok s hL hobj
  rw [Visit_FunctionCall_eq, resolveCall_own_other p g _ tok b s hL hobj]
  rfl

/-- C16, as the code has it: after `func builtin.f(a INTEGER) { }` the call
`f(1)`, with as many arguments as the function has parameters, fails with
`WrongParamsNum`, and the call `f()` completes and is resolved to that function,
whose package is empty and which has one formal parameter. -/
theorem arity_against_nil_params :
    (Visit emptyCatalog (withDottedF (.FunctionCall 7 "" "f" [num "1"] (ident "f")))
      NewSemanticAnalyzer).fault? = some (.semantic .WrongParamsNum (ident "f")) ∧
    (Visit emptyCatalog (withDottedF (.FunctionCall 7 "" "f" [] (ident "f")))
      NewSemanticAnalyzer).fault? = none ∧
    FuncSymbolOf (Visit emptyCatalog (withDottedF (.FunctionCall 7 "" "f" [] (ident "f")))
      NewSemanticAnalyzer).state 7 = some 6 ∧
    ((Visit emptyCatalog (withDottedF (.FunctionCall 7 "" "f" [] (ident "f")))
      NewSemanticAnalyzer).state.syms[6]?.map fun o =>
        match o with
        | .Function f => (f.Name, f.Package, f.FormalParams.length)
        | _ => ("", "", 0)) = some ("builtin.f", "", 1) :=
  ⟨rfl, rfl, rfl, rfl⟩

/-- C16, amended: when the key of a call itself is bound, in the chain of the
current scope, to a function symbol with an empty package and `n` formal
parameters, a call with `m` arguments fails with `WrongParamsNum`, carrying the
token of the call, as soon as `m ≠ n`, in the state it started in, before any
argument is visited; with `m = n` the call is resolved to that symbol and
completes exactly when the visit of its arguments, in order, completes; and the
call fails with that fault only if `m ≠ n` or the visit of the arguments raises
it. -/
theorem arity_enforcement (c : Catalog) (b : State) (id : Nat) (p g : String)
    (args : List Ast) (tok : Token) (s : Nat) (f : FunctionSymbol)
    (hL : Lookup b b.CurrentScope (callKey p g) false = .ok (some s))
    (hobj : b.syms[s]? = some (.Function f)) (hp : f.Package = "") :
    (args.length ≠ f.FormalParams.length →
      Visit c (.FunctionCall id p g args tok) b = .fault (.semantic .WrongParamsNum tok) b) ∧
    (args.length = f.FormalParams.length →
      Visit c (.FunctionCall id p g args tok) b = finishCall c id args s b ∧
      ((Visit c (.FunctionCall id p g args tok) b).fault? = none ↔
        (VisitEach c args b).fault? = none)) ∧
    ((Visit c (.FunctionCall id p g args tok) b).fault? = some (.semantic .WrongParamsNum tok) →
      args.length ≠ f.FormalParams.length ∨
        (VisitEach c args b).fault? = some (.semantic .WrongParamsNum tok)) := by
  have hr := resolveCall_own_bare p g args.length tok b s f hL hobj hp
  by_cases hm : args.length = f.FormalParams.length
  · have hv : Visit c (.FunctionCall id p g args tok) b = finishCall c id args s b := by
      rw [Visit_FunctionCall_eq, hr]
      simp [hm]
    refine ⟨fun h => absurd hm h, fun _ => ⟨hv, by rw [hv, finishCall_fault]⟩, ?_⟩
    intro h
    rw [hv, finishCall_fault] at h
    exact Or.inr h
  · have hv : Visit c (.FunctionCall id p g args tok) b =
        .fault (.semantic .WrongParamsNum tok) b := by
      rw [Visit_FunctionCall_eq, hr]
      simp [hm]
    exact ⟨fun _ => hv, fun h => absurd h hm, fun _ => Or.inl hm⟩

/-- In `arityState`, where `f` has the two parameters `a` and `b`, the call
`f(1)` fails with `WrongParamsNum`; and after `func f(a INTEGER, b INTEGER)`,
`f(1)` fails with `WrongParamsNum`, also when its argument is the undeclared
`y`, and `f(1, 2)` completes. -/
theorem arity_enforcement_witness :
    Lookup arityState arityState.CurrentScope (callKey "" "f") false = .ok (some 0) ∧
    arityState.syms[0]? = some (.Function { declaredFunction "f" [1, 2] with ScopeLevel := 1 }) ∧
    Visit emptyCatalog (.FunctionCall 7 "" "f" [num "1"] (ident "f")) arityState =
      .fault (.semantic .WrongParamsNum (ident "f")) arityState ∧
    (Visit emptyCatalog (withTwoParamF (.FunctionCall 7 "" "f" [num "1"] (ident "f")))
      NewSemanticAnalyzer).fault? = some (.semantic .WrongParamsNum (ident "f")) ∧
    (Visit emptyCatalog (withTwoParamF (.FunctionCall 7 "" "f" [.Var (ident "y") "y"] (ident "f")))
      NewSemanticAnalyzer).fault? = some (.semantic .WrongParamsNum (ident "f")) ∧
    (Visit emptyCatalog (withTwoParamF (.FunctionCall 7 "" "f" [num "1", num "2"] (ident "f")))
      NewSemanticAnalyzer).fault? = none :=
  ⟨rfl, rfl,
    (arity_enforcement emptyCatalog arityState 7 "" "f" [num "1"] (ident "f") 0
      { declaredFunction "f" [1, 2] with ScopeLevel := 1 } rfl rfl rfl).1 (by decide),
    rfl, rfl, rfl⟩

/-- C18, as the code has it: the programs `var f INTEGER; func f() { }`,
`func f() { } func f() { }` and `func INTEGER() { }` are visited without a fault,
and after the first the global table binds `f` to the function symbol, whereas
`func f() { } var f INTEGER` fails with `DuplicateId`; in every current scope,
whatever its table binds, a function declaration without parameters and with an
empty body completes and rebinds the name. -/
theorem function_redeclaration_accepted :
    (Visit emptyCatalog functionAfterVariable NewSemanticAnalyzer).fault? = none ∧
    ((Visit emptyCatalog functionAfterVariable NewSemanticAnalyzer).state.tabs[0]?.map
      fun tab => tab.symbols.Get "f") = some (some 7) ∧
    ((Visit emptyCatalog functionAfterVariable NewSemanticAnalyzer).state.syms[7]?.map
      fun o => o.name) = some "f" ∧
    (Visit emptyCatalog functionTwice NewSemanticAnalyzer).fault? = none ∧
    (Visit emptyCatalog functionNamedLikeType NewSemanticAnalyzer).fault? = none ∧
    (Visit emptyCatalog variableAfterFunction NewSemanticAnalyzer).fault? =
      some (.semantic .DuplicateId (identAt "f" 2)) ∧
    (∀ (c : Catalog) (b : State) (t : Nat) (tab : ScopedSymbolTable) (f : String) (rt : Ast),
      b.CurrentScope = some t → b.tabs[t]? = some tab →
      ∃ s tab1, Visit c (.FunctionDecl f [] (.Block [] (.Compound [])) rt) b = .ok () s ∧
        s.tabs[t]? = some tab1 ∧ tab1.symbols.Get f = some b.syms.length) :=
  ⟨rfl, rfl, rfl, rfl, rfl, rfl, fun c b t tab f rt hcur htab =>
    FunctionDecl_empty c b t tab f rt hcur htab⟩

/-- C20, as the code has it: in `bareBuiltinState` the key `os.len` is bound
nowhere and `builtin.len` is bound to a function symbol, one with an empty
package; the call `os.len(1)` raises no `UndefinedFunction` but does not resolve
either: it fails with `WrongParamsNum`. -/
theorem qualified_fallback_to_bare_function :
    Lookup bareBuiltinState bareBuiltinState.CurrentScope (callKey "os" "len") false = .ok none ∧
    Lookup bareBuiltinState bareBuiltinState.CurrentScope (qualified "builtin" "len") false =
      .ok (some 0) ∧
    bareBuiltinState.syms[0]? = some (.Function (declaredFunction "builtin.len" [])) ∧
    Visit emptyCatalog (.FunctionCall 7 "os" "len" [num "1"] (ident "len")) bareBuiltinState =
      .fault (.semantic .WrongParamsNum (ident "len")) bareBuiltinState :=
  ⟨rfl, rfl, rfl, rfl⟩

/-- C20, amended: for a call or a reference `p.g` with a non-empty package `p`,
when the composite key `p.g` is bound nowhere in the chain of the current scope
and `builtin.g` is bound to a function symbol with a non-empty package, the
visit raises no `UndefinedFunction`: the reference completes, and the call is
resolved to that symbol, the visit going on with its arguments and writing the
symbol on the node; nothing depends on the catalog, so on whether a package `p`
exists or was imported. -/
theorem fallback_ignores_package (c : Catalog) (b : State) (id : Nat) (p g : String)
    (args : List Ast) (tok : Token) (s : Nat) (f : FunctionSymbol) (hp : p ≠ "")
    (hL : Lookup b b.CurrentScope (qualified p g) false = .ok none)
    (hB : Lookup b b.CurrentScope (qualified "builtin" g) false = .ok (some s))
    (hobj : b.syms[s]? = some (.Function f)) (hf : f.Package ≠ "") :
    Visit c (.FunctionRef p g tok) b = .ok () b ∧
    Visit c (.FunctionCall id p g args tok) b = finishCall c id args s b ∧
    (∀ tok1, (Visit c (.FunctionCall id p g args tok) b).fault? =
        some (.semantic .UndefinedFunction tok1) →
      (VisitEach c args b).fault? = some (.semantic .UndefinedFunction tok1)) ∧
    (∀ b2, Visit c (.FunctionCall id p g args tok) b = .ok () b2 → FuncSymbolOf b2 id = some s) := by
  have hk : callKey p g = qualified p g := by simp [callKey, hp]
  have hL1 : Lookup b b.CurrentScope (callKey p g) false = .ok none := by rw [hk]; exact hL
  have hv : Visit c (.FunctionCall id p g args tok) b = finishCall c id args s b := by
    rw [Visit_FunctionCall_eq, resolveCall_fallback_package p g _ tok b s f hL1 hB hobj hf]
    rfl
  refine ⟨?_, hv, ?_, ?_⟩
  · rw [Visit_FunctionRef_eq]
    simp [VisitFunctionRef, hL1, hB]
  · intro tok1 h
    rw [hv, finishCall_fault] at h
    exact h
  · intro b2 h
    rw [hv] at h
    exact finishCall_ok c id args s b b2 h

/-- In `arityState`, where no package `os` exists and `builtin.len` is bound to
the builtin function `len`, the call `os.len(1)` completes and the node is
resolved to that function. -/
theorem fallback_ignores_package_witness :
    ("os" : String) ≠ "" ∧
    Lookup arityState arityState.CurrentScope (qualified "os" "len") false = .ok none ∧
    Lookup arityState arityState.CurrentScope (qualified "builtin" "len") false =
      .ok (some 3) ∧
    arityState.syms[3]? =
      some (.Function { packageFunction "builtin" "len" with ScopeLevel := 1 }) ∧
    Visit emptyCatalog (.FunctionCall 7 "os" "len" [num "1"] (ident "len")) arityState =
      finishCall emptyCatalog 7 [num "1"] 3 arityState ∧
    FuncSymbolOf
      (Visit emptyCatalog (.FunctionCall 7 "os" "len" [num "1"] (ident "len")) arityState).state
      7 = some 3 :=
  ⟨by decide, rfl, rfl, rfl,
    (fallback_ignores_package emptyCatalog arityState 7 "os" "len" [num "1"] (ident "len") 3
      { packageFunction "builtin" "len" with ScopeLevel := 1 } (by decide) rfl rfl rfl
      (by decide)).2.1,
    rfl⟩

/-! ## What the handlers keep of the symbol heap -/

theorem withScopeLevel_twice (o : SymbolObj) (l1 l2 : Int) :
    (o.withScopeLevel l1).withScopeLevel l2 = o.withScopeLevel l2 := by
  cases o <;> rfl

theorem insertKey_withScopeLevel (o : SymbolObj) (l : Int) :
    insertKey (o.withScopeLevel l) = insertKey o := by
  cases o <;> rfl

/-- What `Insert` does: nothing, when the symbol has no object or the receiver
is no table; else the stamp on the symbol and the binding in the table. -/
theorem Insert_cases (b : State) (t : Option Nat) (q : Nat) :
    (Insert b t q).state = b ∨
    ∃ r tab obj, t = some r ∧ b.tabs[r]? = some tab ∧ b.syms[q]? = some obj ∧
      Insert b t q = .ok ()
        { b with
          syms := b.syms.set q (obj.withScopeLevel tab.ScopeLevel),
          tabs := b.tabs.set r { tab with symbols := tab.symbols.Set (insertKey obj) q } } := by
  cases hobj : b.syms[q]? with
  | none => left; simp [Insert, hobj, Result.state]
  | some obj =>
    cases t with
    | none => left; cases obj <;> simp [Insert, hobj, Result.state]
    | some r =>
      cases htab : b.tabs[r]? with
      | none => left; cases obj <;> simp [Insert, hobj, htab, Result.state]
      | some tab => exact Or.inr ⟨r, tab, obj, rfl, htab, rfl, Insert_eq b r q tab obj htab hobj⟩

theorem KeptSyms_refl (n : Nat) (c : Catalog) (b : State) : KeptSyms n c b b :=
  ⟨Nat.le_refl _, fun _ obj _ h => ⟨obj, h, rfl, fun _ => rfl⟩⟩

theorem KeptSyms_trans {n : Nat} {c : Catalog} {b s1 s2 : State} (h1 : KeptSyms n c b s1)
    (h2 : KeptSyms n c s1 s2) : KeptSyms n c b s2 := by
  refine ⟨Nat.le_trans h1.1 h2.1, ?_⟩
  intro p obj hp hobj
  obtain ⟨o1, ho1, hl1, hc1⟩ := h1.2 p obj hp hobj
  obtain ⟨o2, ho2, hl2, hc2⟩ := h2.2 p o1 hp ho1
  exact ⟨o2, ho2, hl2.trans hl1, fun hn => (hc2 hn).trans (hc1 hn)⟩

theorem KeptSyms_mono {n n1 : Nat} {c : Catalog} {b s : State} (hn : n ≤ n1)
    (h : KeptSyms n1 c b s) : KeptSyms n c b s :=
  ⟨h.1, fun p obj hp hobj => h.2 p obj (Nat.lt_of_lt_of_le hp hn) hobj⟩

theorem KeptSyms_right {n : Nat} {c : Catalog} {b s : State} (s1 : State)
    (hs : s1.syms = s.syms) (h : KeptSyms n c b s) : KeptSyms n c b s1 := by
  unfold KeptSyms
  rw [hs]
  exact h

theorem KeptSyms_left {n : Nat} {c : Catalog} {b s : State} (b1 : State)
    (hb : b1.syms = b.syms) (h : KeptSyms n c b s) : KeptSyms n c b1 s := by
  unfold KeptSyms
  rw [hb]
  exact h

/-- A write to the object at an address that is not below `n`. -/
theorem KeptSyms_set_fresh (n : Nat) (c : Catalog) (b : State) (q : Nat) (o : SymbolObj)
    (hq : n ≤ q) (s : State) (hs : s.syms = b.syms.set q o) : KeptSyms n c b s := by
  refine ⟨by rw [hs, List.length_set], ?_⟩
  intro p obj hp hobj
  refine ⟨obj, ?_, rfl, fun _ => rfl⟩
  rw [hs, List.getElem?_set_ne (by omega)]
  exact hobj

theorem KeptSyms_append (n : Nat) (c : Catalog) (b : State) (l : List SymbolObj) (s : State)
    (hs : s.syms = b.syms ++ l) : KeptSyms n c b s := by
  refine ⟨by rw [hs, List.length_append]; omega, ?_⟩
  intro p obj hp hobj
  refine ⟨obj, ?_, rfl, fun _ => rfl⟩
  rw [hs, List.getElem?_append_left (getElem?_lt hobj)]
  exact hobj

theorem Insert_keeps (n : Nat) (c : Catalog) (b : State) (t : Option Nat) (q : Nat)
    (hq : n ≤ q ∨ IsCatalogPtr c q) : KeptSyms n c b (Insert b t q).state := by
  rcases Insert_cases b t q with h | ⟨r, tab, obj, _, _, hobj, h⟩
  · rw [h]
    exact KeptSyms_refl n c b
  · rw [h]
    refine ⟨by simp [Result.state], ?_⟩
    intro p o hp ho
    by_cases hpq : q = p
    · subst hpq
      rw [hobj] at ho
      cases ho
      refine ⟨obj.withScopeLevel tab.ScopeLevel,
        by simp [Result.state, List.getElem?_set_self (getElem?_lt hobj)],
        withScopeLevel_twice _ _ _, ?_⟩
      intro hnc
      rcases hq with hq | hq
      · omega
      · exact absurd hq hnc
    · exact ⟨o, by simp [Result.state, List.getElem?_set_ne hpq, ho], rfl, fun _ => rfl⟩

theorem andThen_keeps {α β : Type} {n : Nat} {c : Catalog} {b : State} {r : Result α}
    {k : α → State → Result β} (hn : n ≤ b.syms.length) (hr : KeptSyms n c b r.state)
    (hk : ∀ a s, n ≤ s.syms.length → KeptSyms n c s (k a s).state) :
    KeptSyms n c b (r.andThen k).state := by
  cases r with
  | fault f s => exact hr
  | ok a s => exact KeptSyms_trans hr (hk a s (Nat.le_trans hn hr.1))

theorem insertAll_keeps (n : Nat) (c : Catalog) (fs : List Nat) (hfs : ∀ q ∈ fs, IsCatalogPtr c q) :
    ∀ b, n ≤ b.syms.length → KeptSyms n c b (insertAll fs b).state := by
  induction fs with
  | nil => intro b _; exact KeptSyms_refl n c b
  | cons f fs ih =>
    intro b hn
    exact andThen_keeps hn (Insert_keeps n c b _ f (Or.inr (hfs f (List.mem_cons_self _ _))))
      fun _ s hs => ih (fun q hq => hfs q (List.mem_cons_of_mem _ hq)) s hs

theorem Insert_alloc_keeps (n : Nat) (c : Catalog) (b : State) (o : SymbolObj)
    (hn : n ≤ b.syms.length) :
    KeptSyms n c b
      (Insert (allocSym b o).1 (allocSym b o).1.CurrentScope (allocSym b o).2).state :=
  KeptSyms_trans (KeptSyms_append n c b [o] (allocSym b o).1 rfl)
    (Insert_keeps n c _ _ _ (Or.inl hn))

theorem VisitVarDecl_keeps (n : Nat) (c : Catalog) (v t : Ast) (b : State)
    (hn : n ≤ b.syms.length) : KeptSyms n c b (VisitVarDecl v t b).state := by
  unfold VisitVarDecl
  split
  · split
    · exact KeptSyms_refl n c b
    · split
      · split
        · exact KeptSyms_append n c b [_] _ rfl
        · exact KeptSyms_append n c b [_] _ rfl
        · exact Insert_alloc_keeps n c b _ hn
      · exact KeptSyms_refl n c b
  · exact KeptSyms_refl n c b

theorem appendFormalParam_keeps (n : Nat) (c : Catalog) (b : State) (p q : Nat) (hp : n ≤ p) :
    KeptSyms n c b (appendFormalParam b p q).state := by
  unfold appendFormalParam
  split
  · exact KeptSyms_set_fresh n c b p _ hp _ rfl
  · exact KeptSyms_refl n c b

theorem backfill_keeps (n : Nat) (c : Catalog) (b : State) (p : Nat) (bn rt : Ast)
    (hp : n ≤ p) : KeptSyms n c b (backfill b p bn rt).state := by
  unfold backfill
  split
  · exact KeptSyms_set_fresh n c b p _ hp _ rfl
  · exact KeptSyms_refl n c b

theorem declareParams_keeps (n : Nat) (c : Catalog) (p : Nat) (hp : n ≤ p) (ps : List Ast) :
    ∀ b, n ≤ b.syms.length → KeptSyms n c b (declareParams p ps b).state := by
  induction ps with
  | nil => intro b _; exact KeptSyms_refl n c b
  | cons param rest ih =>
    intro b hn
    unfold declareParams
    split
    · split
      · split
        · exact KeptSyms_refl n c b
        · split
          · exact andThen_keeps hn (Insert_alloc_keeps n c b _ hn) fun _ s hs =>
              andThen_keeps hs (appendFormalParam_keeps n c s p _ hp) fun _ s2 hs2 => ih s2 hs2
          · exact KeptSyms_refl n c b
      · exact KeptSyms_refl n c b
    · exact KeptSyms_refl n c b

theorem leaveScope_syms (b : State) : (leaveScope b).state.syms = b.syms := by
  unfold leaveScope
  repeat' split
  all_goals rfl

mutual
/-- Every handler leaves the symbol objects that existed when it started as they
were, up to the stamp `Insert` puts on the symbols of the catalogs. -/
theorem Visit_keeps (c : Catalog) :
    ∀ (node : Ast) (n : Nat) (b : State), n ≤ b.syms.length →
      KeptSyms n c b (Visit c node b).state
  | .Program packages block, n, b, hn => by
    rw [Visit_Program_eq]
    have he : KeptSyms n c b (programEntry b) := KeptSyms_append n c b _ _ rfl
    refine KeptSyms_trans he (andThen_keeps (Nat.le_trans hn he.1)
      (insertAll_keeps n c _ (fun q hq => Or.inl hq) _ (Nat.le_trans hn he.1)) fun _ b2 h2 =>
      andThen_keeps h2 (insertAll_keeps n c _ (fun q hq => Or.inr (Or.inl hq)) b2 h2)
        fun _ b3 h3 =>
      andThen_keeps h3 (VisitEach_keeps c packages n b3 h3) fun _ b4 h4 =>
      andThen_keeps h4 (Visit_keeps c block n b4 h4) fun _ b5 _ =>
        KeptSyms_right _ (leaveScope_syms b5) (KeptSyms_refl n c b5))
  | .Package name, n, b, hn => by
    rw [Visit]
    exact insertAll_keeps n c _ (fun q hq => Or.inr (Or.inr ⟨name, hq⟩)) b hn
  | .Block declarations compoundStatement, n, b, hn => by
    rw [Visit]
    exact andThen_keeps hn (VisitEachEach_keeps c declarations n b hn) fun _ b1 h1 =>
      Visit_keeps c compoundStatement n b1 h1
  | .VarDecl varNode typeNode, n, b, hn => by rw [Visit]; exact VisitVarDecl_keeps n c _ _ b hn
  | .TypeN _ _, n, b, _ => by rw [Visit]; exact KeptSyms_refl n c b
  | .BinOp left _ right, n, b, hn => by
    rw [Visit]
    exact andThen_keeps hn (Visit_keeps c left n b hn) fun _ b1 h1 => Visit_keeps c right n b1 h1
  | .Number _, n, b, _ => by rw [Visit]; exact KeptSyms_refl n c b
  | .Str _, n, b, _ => by rw [Visit]; exact KeptSyms_refl n c b
  | .Boolean _, n, b, _ => by rw [Visit]; exact KeptSyms_refl n c b
  | .ListN _ value, n, b, hn => by rw [Visit]; exact VisitEach_keeps c value n b hn
  | .DictN _ _ value, n, b, hn => by rw [Visit]; exact VisitEach_keeps c value n b hn
  | .Message _, n, b, _ => by rw [Visit]; exact KeptSyms_refl n c b
  | .UnaryOp _ _, n, b, _ => by rw [Visit]; exact KeptSyms_refl n c b
  | .Compound children, n, b, hn => by rw [Visit]; exact VisitEach_keeps c children n b hn
  | .Assign left _ right, n, b, hn => by
    rw [Visit]
    exact andThen_keeps hn (Visit_keeps c right n b hn) fun _ b1 h1 => Visit_keeps c left n b1 h1
  | .Var tok value, n, b, _ => by rw [Visit, VisitVar_state]; exact KeptSyms_refl n c b
  | .NoOp, n, b, _ => by rw [Visit]; exact KeptSyms_refl n c b
  | .FunctionDecl funcName formalParams blockNode returnType, n, b, hn => by
    rw [Visit]
    refine andThen_keeps hn (Insert_alloc_keeps n c b _ hn) fun _ b1 h1 => ?_
    rcases currentLevel_cases b1 with ⟨f, hl⟩ | ⟨level, hl⟩
    · rw [hl]
      exact KeptSyms_refl n c b1
    · rw [hl, andThen_ok, NewScopedSymbolTable_eq, andThen_ok]
      have h3 : n ≤ b1.syms.length + 6 := by omega
      refine KeptSyms_trans ?_ (andThen_keeps (by simpa using h3)
        (declareParams_keeps n c _ hn formalParams _ (by simpa using h3)) fun _ b4 h4 =>
        andThen_keeps h4 (Visit_keeps c blockNode n b4 h4) fun _ b5 h5 =>
        andThen_keeps h5 (KeptSyms_right _ (leaveScope_syms b5) (KeptSyms_refl n c b5))
          fun _ b6 _ => backfill_keeps n c b6 _ _ _ hn)
      exact KeptSyms_append n c b1 _ _ rfl
  | .Param _ _, n, b, _ => by rw [Visit]; exact KeptSyms_refl n c b
  | .FunctionCall id packageName funcName actualParams tok, n, b, hn => by
    rw [Visit]
    refine andThen_keeps hn ?_ fun _ b1 h1 =>
      andThen_keeps h1 (VisitEach_keeps c actualParams n b1 h1) fun _ b2 _ =>
        KeptSyms_refl n c b2
    rw [resolveCall_state]
    exact KeptSyms_refl n c b
  | .FunctionRef packageName funcName tok, n, b, _ => by
    rw [Visit, VisitFunctionRef_state]; exact KeptSyms_refl n c b
  | .Return statement, n, b, hn => by rw [Visit]; exact Visit_keeps c statement n b hn
  | .Print statement, n, b, hn => by rw [Visit]; exact Visit_keeps c statement n b hn
  | .While _ doBranch, n, b, hn => by rw [Visit]; exact VisitEach_keeps c doBranch n b hn
  | .If _ thenBranch elseBranch, n, b, hn => by
    rw [Visit]
    exact andThen_keeps hn (VisitEach_keeps c thenBranch n b hn) fun _ b1 h1 =>
      VisitEach_keeps c elseBranch n b1 h1
  | .Logical left _ right, n, b, hn => by
    rw [Visit]
    exact andThen_keeps hn (Visit_keeps c left n b hn) fun _ b1 h1 => Visit_keeps c right n b1 h1
  | .Nil, n, b, _ => by rw [Visit]; exact KeptSyms_refl n c b
/-- The loop over a list of nodes keeps the symbol objects. -/
theorem VisitEach_keeps (c : Catalog) :
    ∀ (ns : List Ast) (n : Nat) (b : State), n ≤ b.syms.length →
      KeptSyms n c b (VisitEach c ns b).state
  | [], n, b, _ => by rw [VisitEach]; exact KeptSyms_refl n c b
  | node :: rest, n, b, hn => by
    rw [VisitEach]
    exact andThen_keeps hn (Visit_keeps c node n b hn) fun _ b1 h1 =>
      VisitEach_keeps c rest n b1 h1
/-- The loop over the declaration lists keeps the symbol objects. -/
theorem VisitEachEach_keeps (c : Catalog) :
    ∀ (ds : List (List Ast)) (n : Nat) (b : State), n ≤ b.syms.length →
      KeptSyms n c b (VisitEachEach c ds b).state
  | [], n, b, _ => by rw [VisitEachEach]; exact KeptSyms_refl n c b
  | d :: rest, n, b, hn => by
    rw [VisitEachEach]
    exact andThen_keeps hn (VisitEach_keeps c d n b hn) fun _ b1 h1 =>
      VisitEachEach_keeps c rest n b1 h1
end

/-! ## Registering a catalog -/

theorem getEntry_setEntry_isSome (l : List (String × Nat)) (k k2 : String) (v : Nat)
    (h : getEntry l k2 ≠ none) : getEntry (setEntry l k v) k2 ≠ none := by
  by_cases hk : k2 = k
  · subst hk
    rw [getEntry_setEntry_self]
    simp
  · rw [getEntry_setEntry_ne l k k2 v hk]
    exact h

theorem keyAt_set (syms : List SymbolObj) (q : Nat) (obj : SymbolObj) (l : Int)
    (hobj : syms[q]? = some obj) (p : Nat) :
    keyAt (syms.set q (obj.withScopeLevel l)) p = keyAt syms p := by
  by_cases hpq : q = p
  · subst hpq
    simp [keyAt, List.getElem?_set_self (getElem?_lt hobj), hobj, insertKey_withScopeLevel]
  · simp [keyAt, List.getElem?_set_ne hpq]

/-- The loop that inserts the symbols `fs` into the current scope `t`, a table
of the heap, completes; it changes no other table and no header; a key is bound
afterwards to a symbol of `fs` that has this key, or else as before, no symbol of
`fs` having this key; and the symbol objects are changed at most in their
level. -/
theorem insertAll_spec (t : Nat) (fs : List Nat) :
    ∀ (b : State) (tab : ScopedSymbolTable), b.CurrentScope = some t → b.tabs[t]? = some tab →
      ∃ s tab1, insertAll fs b = .ok () s ∧ s.CurrentScope = some t ∧
        s.tabs[t]? = some tab1 ∧ s.tabs.length = b.tabs.length ∧
        s.FuncSymbol = b.FuncSymbol ∧
        tab1.ScopeName = tab.ScopeName ∧ tab1.ScopeLevel = tab.ScopeLevel ∧
        tab1.EnclosingScope = tab.EnclosingScope ∧
        (∀ u, u ≠ t → s.tabs[u]? = b.tabs[u]?) ∧
        s.syms.length = b.syms.length ∧
        (∀ q, keyAt s.syms q = keyAt b.syms q) ∧
        (∀ k r, tab1.symbols.Get k = some r →
          (r ∈ fs ∧ keyAt b.syms r = some k) ∨
          (tab.symbols.Get k = some r ∧ ∀ q ∈ fs, keyAt b.syms q ≠ some k)) ∧
        (∀ k, (∃ q ∈ fs, keyAt b.syms q = some k) → tab1.symbols.Get k ≠ none) ∧
        (∀ k, tab.symbols.Get k ≠ none → tab1.symbols.Get k ≠ none) := by
  induction fs with
  | nil =>
    intro b tab hcur htab
    refine ⟨b, tab, rfl, hcur, htab, rfl, rfl, rfl, rfl, rfl, fun _ _ => rfl, rfl, fun _ => rfl,
      ?_, ?_, fun k h => h⟩
    · intro k r h
      exact Or.inr ⟨h, fun q hq => by cases hq⟩
    · rintro k ⟨q, hq, _⟩
      cases hq
  | cons f rest ih =>
    intro b tab hcur htab
    have ht := getElem?_lt htab
    cases hobj : b.syms[f]? with
    | none =>
      have hI : Insert b b.CurrentScope f = .ok () b := by simp [Insert, hobj]
      obtain ⟨s, tab1, hs, h1, h2, h3, h4, h5, h6, h7, h8, h9, h10, h11, h12, h13⟩ :=
        ih b tab hcur htab
      refine ⟨s, tab1, ?_, h1, h2, h3, h4, h5, h6, h7, h8, h9, h10, ?_, ?_, h13⟩
      · rw [insertAll, hI, andThen_ok]
        exact hs
      · intro k r hk
        rcases h11 k r hk with ⟨hr, hkey⟩ | ⟨hold, hno⟩
        · exact Or.inl ⟨List.mem_cons_of_mem _ hr, hkey⟩
        · refine Or.inr ⟨hold, ?_⟩
          intro q hq
          rcases List.mem_cons.1 hq with rfl | hq
          · simp [keyAt, hobj]
          · exact hno q hq
      · rintro k ⟨q, hq, hkey⟩
        rcases List.mem_cons.1 hq with rfl | hq
        · simp [keyAt, hobj] at hkey
        · exact h12 k ⟨q, hq, hkey⟩
    | some obj =>
      have hI := Insert_eq b t f tab obj htab hobj
      have hkf : keyAt b.syms f = some (insertKey obj) := by simp [keyAt, hobj]
      obtain ⟨s, tab1, hs, h1, h2, h3, h4, h5, h6, h7, h8, h9, h10, h11, h12, h13⟩ :=
        ih { b with
            syms := b.syms.set f (obj.withScopeLevel tab.ScopeLevel),
            tabs := b.tabs.set t { tab with symbols := tab.symbols.Set (insertKey obj) f } }
          { tab with symbols := tab.symbols.Set (insertKey obj) f } hcur
          (by simp [List.getElem?_set_self ht])
      have hkeys : ∀ q, keyAt (b.syms.set f (obj.withScopeLevel tab.ScopeLevel)) q =
          keyAt b.syms q := keyAt_set b.syms f obj _ hobj
      refine ⟨s, tab1, ?_, h1, h2, ?_, h4, h5, h6, h7, ?_, ?_, ?_, ?_, ?_, ?_⟩
      · rw [insertAll, hcur, hI, andThen_ok]
        exact hs
      · simpa using h3
      · intro u hu
        rw [h8 u hu]
        simp [List.getElem?_set_ne (Ne.symm hu)]
      · simpa using h9
      · intro q
        rw [h10 q]
        exact hkeys q
      · intro k r hk
        rcases h11 k r hk with ⟨hr, hkey⟩ | ⟨hold, hno⟩
        · exact Or.inl ⟨List.mem_cons_of_mem _ hr, (hkeys r).symm.trans hkey⟩
        · by_cases hkk : k = insertKey obj
          · subst hkk
            have : (tab.symbols.Set (insertKey obj) f).Get (insertKey obj) = some f :=
              Get_Set_self _ _ _
            simp only at hold
            rw [this] at hold
            cases hold
            exact Or.inl ⟨List.mem_cons_self _ _, hkf⟩
          · refine Or.inr ⟨?_, ?_⟩
            · have := Get_Set_ne tab.symbols (insertKey obj) k f hkk
              simp only at hold
              rw [this] at hold
              exact hold
            · intro q hq
              rcases List.mem_cons.1 hq with rfl | hq
              · rw [hkf]
                intro h
                cases h
                exact hkk rfl
              · rw [← hkeys q]
                exact hno q hq
      · rintro k ⟨q, hq, hkey⟩
        rcases List.mem_cons.1 hq with rfl | hq
        · apply h13
          rw [hkf] at hkey
          cases hkey
          show (tab.symbols.Set (insertKey obj) q).Get (insertKey obj) ≠ none
          rw [Get_Set_self]
          simp
        · exact h12 k ⟨q, hq, (hkeys q).trans hkey⟩
      · intro k hk
        apply h13
        exact getEntry_setEntry_isSome _ _ _ _ hk

/-! ## The program prelude and calls of package functions -/

theorem Visit_Program_prelude (c : Catalog) (packages : List Ast) (block : Ast) (b : State) :
    Visit c (.Program packages block) b =
      (programPrelude c packages b).andThen fun _ b4 =>
      (Visit c block b4).andThen fun _ b5 => leaveScope b5 := by
  rw [Visit]
  unfold programPrelude
  simp only [andThen_assoc]

theorem programPrelude_eq (c : Catalog) (packages : List Ast) (b : State) :
    programPrelude c packages b =
      (insertAll c.functions (programEntry b)).andThen fun _ b2 =>
      (insertAll c.iteration b2).andThen fun _ b3 =>
      VisitEach c packages b3 := by
  unfold programPrelude
  rw [NewScopedSymbolTable_eq, andThen_ok]
  rfl

theorem programPrelude_keeps (c : Catalog) (packages : List Ast) (n : Nat) (b : State)
    (hn : n ≤ b.syms.length) : KeptSyms n c b (programPrelude c packages b).state := by
  rw [programPrelude_eq]
  have he : n ≤ (programEntry b).syms.length := by
    simp only [programEntry, List.length_append]
    omega
  refine KeptSyms_trans (KeptSyms_append n c b (seedObjects 1) (programEntry b) rfl) ?_
  refine andThen_keeps he
    (insertAll_keeps n c _ (fun q hq => Or.inl hq) _ he) fun _ b2 h2 => ?_
  refine andThen_keeps h2
    (insertAll_keeps n c _ (fun q hq => Or.inr (Or.inl hq)) _ h2) fun _ b3 h3 => ?_
  exact VisitEach_keeps c packages n b3 h3

theorem qualified_cancel (p a b : String) (h : qualified p a = qualified p b) : a = b := by
  have h1 : (p ++ "." ++ a).data = (p ++ "." ++ b).data := congrArg String.data h
  simp only [String.data_append, List.append_assoc] at h1
  exact String.ext (List.append_cancel_left (List.append_cancel_left h1))

theorem withScopeLevel_function (o : SymbolObj) (f : FunctionSymbol) (l : Int)
    (h : o.withScopeLevel l = (SymbolObj.Function f).withScopeLevel l) :
    ∃ f1, o = .Function f1 ∧ f1.Package = f.Package ∧ f1.Name = f.Name ∧
      f1.FormalParams = f.FormalParams ∧ f1.ReturnType = f.ReturnType ∧
      f1.BlockAst = f.BlockAst := by
  cases o with
  | Var s => simp [SymbolObj.withScopeLevel] at h
  | BuiltinType s => simp [SymbolObj.withScopeLevel] at h
  | Function f1 =>
    simp only [SymbolObj.withScopeLevel, SymbolObj.Function.injEq, FunctionSymbol.mk.injEq] at h
    exact ⟨f1, rfl, h.1, h.2.1, h.2.2.1, h.2.2.2.1, h.2.2.2.2.1⟩

theorem keyAt_append (syms l : List SymbolObj) (q : Nat) (hq : q < syms.length) :
    keyAt (syms ++ l) q = keyAt syms q := by
  simp [keyAt, List.getElem?_append_left hq]

theorem Lookup_current (b : State) (t : Nat) (tab : ScopedSymbolTable) (name : String) (r : Nat)
    (cso : Bool) (htab : b.tabs[t]? = some tab) (hget : tab.symbols.Get name = some r) :
    Lookup b (some t) name cso = .ok (some r) := by
  simp [Lookup, LookupFuel, htab, hget]
/-- What importing the package `p` leaves behind: the prelude completes in a
state whose current scope is the new global table, and, when `p` exports a
symbol whose key is `k`, the global table binds `k` to an export of `p` that has
this key. -/
theorem programPrelude_import (c : Catalog) (p : String) (b : State) :
    ∃ s tab, programPrelude c [.Package p] b = .ok () s ∧
      s.CurrentScope = some b.tabs.length ∧ s.tabs[b.tabs.length]? = some tab ∧
      s.FuncSymbol = b.FuncSymbol ∧
      (∀ q, q < b.syms.length → keyAt s.syms q = keyAt b.syms q) ∧
      ∀ k fn, fn ∈ c.packages p → keyAt b.syms fn = some k →
        ∃ r, tab.symbols.Get k = some r ∧ r ∈ c.packages p ∧ keyAt s.syms r = some k := by
  have he_tab : (programEntry b).tabs[b.tabs.length]? =
      some ⟨seedDict b.syms.length, "global", 1, b.CurrentScope⟩ := by
    simp [programEntry]
  obtain ⟨s2, tab2, hs2, c2, t2, -, fs2, -, -, -, -, l2, k2, -, -, -⟩ :=
    insertAll_spec b.tabs.length c.functions (programEntry b) _ rfl he_tab
  obtain ⟨s3, tab3, hs3, c3, t3, -, fs3, -, -, -, -, l3, k3, -, -, -⟩ :=
    insertAll_spec b.tabs.length c.iteration s2 tab2 c2 t2
  obtain ⟨s4, tab4, hs4, c4, t4, -, fs4, -, -, -, -, l4, k4, orig4, bound4, -⟩ :=
    insertAll_spec b.tabs.length (c.packages p) s3 tab3 c3 t3
  have hkey : ∀ q, q < b.syms.length → keyAt s3.syms q = keyAt b.syms q := by
    intro q hq
    rw [k3 q, k2 q]
    exact keyAt_append b.syms (seedObjects 1) q hq
  have hlt : ∀ q k, keyAt b.syms q = some k → q < b.syms.length := by
    intro q k hk
    unfold keyAt at hk
    cases hq : b.syms[q]? with
    | none => rw [hq] at hk; cases hk
    | some o => exact getElem?_lt hq
  refine ⟨s4, tab4, ?_, c4, t4, fs4.trans (fs3.trans fs2), ?_, ?_⟩
  · rw [programPrelude_eq, hs2, andThen_ok, hs3, andThen_ok, VisitEach, Visit, VisitPackage, hs4,
      andThen_ok, VisitEach]
  · intro q hq
    rw [k4 q]
    exact hkey q hq
  · intro k fn hfn hk
    have hk3 : keyAt s3.syms fn = some k := (hkey fn (hlt fn k hk)).trans hk
    cases hget : tab4.symbols.Get k with
    | none => exact absurd hget (bound4 k ⟨fn, hfn, hk3⟩)
    | some r =>
      rcases orig4 k r hget with ⟨hr, hkr⟩ | ⟨-, hno⟩
      · exact ⟨r, rfl, hr, (k4 r).trans hkr⟩
      · exact absurd hk3 (hno fn hfn)

/-- C17 (scenario D): in a catalog whose package `p`, with a non-empty name,
exports function symbols that carry a non-empty package, one of them with
package `p` and name `g`, the program that imports `p` and whose only statement
is the call `p.g(args)`, where the visit of the arguments at that place raises no
fault, is analysed without a fault from any state: the lookup of the composite
key "p.g" finds a symbol `r`, the resolution of the call returns `r` whatever the
number of arguments, and at the end the field `FuncSymbol` of the call node is
`r`, an export of `p` that is a function symbol with a non-empty package and the
key "p.g"; it has package `p` and name `g` when the exports of `p` all carry the
package `p`, and it is the symbol `fn` itself when no other export of `p` has
that key. -/
theorem package_call_analysed (c : Catalog) (p g : String) (id : Nat) (args : List Ast)
    (tok : Token) (b : State) (fn : Nat) (f0 : FunctionSymbol) (hp : p ≠ "")
    (hschema : ∀ q ∈ c.packages p, ∃ f, b.syms[q]? = some (.Function f) ∧ f.Package ≠ "")
    (hfn : fn ∈ c.packages p) (hobj : b.syms[fn]? = some (.Function f0))
    (hpackage : f0.Package = p) (hname : f0.Name = g)
    (hargs : (VisitEach c args (programPrelude c [.Package p] b).state).fault? = none) :
    ∃ s0 s r f,
      programPrelude c [.Package p] b = .ok () s0 ∧
      Lookup s0 s0.CurrentScope (qualified p g) false = .ok (some r) ∧
      resolveCall p g args.length tok s0 = .ok r s0 ∧
      Visit c (.Program [.Package p] (.Block [] (.Compound [.FunctionCall id p g args tok]))) b =
        .ok () s ∧
      FuncSymbolOf s id = some r ∧ r ∈ c.packages p ∧
      s.syms[r]? = some (.Function f) ∧ f.Package ≠ "" ∧
      qualified f.Package f.Name = qualified p g ∧
      ((∀ q ∈ c.packages p, ∀ f1, b.syms[q]? = some (.Function f1) → f1.Package = p) →
        f.Package = p ∧ f.Name = g) ∧
      ((∀ q ∈ c.packages p, keyAt b.syms q = some (qualified p g) → q = fn) → r = fn) := by
  obtain ⟨s0, tab, hpre, hcur, htab, hfs, hkeys, hbound⟩ := programPrelude_import c p b
  have hkey : ∀ q f, b.syms[q]? = some (.Function f) → f.Package ≠ "" →
      keyAt b.syms q = some (qualified f.Package f.Name) := by
    intro q f hq hf
    simp [keyAt, hq, insertKey, hf]
  have hkfn : keyAt b.syms fn = some (qualified p g) := by
    rw [hkey fn f0 hobj (by rw [hpackage]; exact hp), hpackage, hname]
  obtain ⟨r, hget, hr, hkr⟩ := hbound (qualified p g) fn hfn hkfn
  obtain ⟨f1, hf1, hp1⟩ := hschema r hr
  have hk1 : keyAt b.syms r = some (qualified p g) := (hkeys r (getElem?_lt hf1)).symm.trans hkr
  have hq1 : qualified f1.Package f1.Name = qualified p g :=
    Option.some.inj ((hkey r f1 hf1 hp1).symm.trans hk1)
  have hL : Lookup s0 s0.CurrentScope (qualified p g) false = .ok (some r) := by
    rw [hcur]
    exact Lookup_current s0 _ tab _ r false htab hget
  have hk0 := programPrelude_keeps c [.Package p] b.syms.length b (Nat.le_refl _)
  rw [hpre] at hk0
  change KeptSyms b.syms.length c b s0 at hk0
  obtain ⟨o0, ho0, hl0, -⟩ := hk0.2 r _ (getElem?_lt hf1) hf1
  obtain ⟨g0, rfl, hgp, hgn, -⟩ := withScopeLevel_function o0 f1 0 hl0
  have hres : resolveCall p g args.length tok s0 = .ok r s0 := by
    refine resolveCall_own_package p g _ tok s0 r g0 ?_ ho0 (by rw [hgp]; exact hp1)
    simpa [callKey, hp] using hL
  rw [hpre] at hargs
  change (VisitEach c args s0).fault? = none at hargs
  have hs0len : b.syms.length ≤ s0.syms.length := hk0.1
  cases hv : VisitEach c args s0 with
  | fault e s1 =>
    rw [hv] at hargs
    cases hargs
  | ok u s1 =>
    have hrest := VisitEach_restores c args s0
    have hkeep := VisitEach_keeps c args b.syms.length s0 hs0len
    rw [hv] at hrest hkeep
    change Restores s0 (.ok u s1) at hrest
    change KeptSyms b.syms.length c s0 s1 at hkeep
    obtain ⟨tab1, htab1, -⟩ := hrest.1 _ tab htab
    change s1.tabs[b.tabs.length]? = some tab1 at htab1
    have hcur1 : s1.CurrentScope = some b.tabs.length := (hrest.2 rfl).trans hcur
    obtain ⟨o1, ho1, hl1, -⟩ := hkeep.2 r _ (getElem?_lt hf1) ho0
    obtain ⟨g1, rfl, hgp1, hgn1, -⟩ := withScopeLevel_function o1 g0 0 hl1
    have hpk : g1.Package = f1.Package := hgp1.trans hgp
    have hnm : g1.Name = f1.Name := hgn1.trans hgn
    refine ⟨s0, ⟨s1.syms, s1.tabs, tab1.EnclosingScope, (id, r) :: s1.FuncSymbol⟩,
      r, g1, hpre, hL, hres, ?_, ?_, hr, ho1, by rw [hpk]; exact hp1, by rw [hpk, hnm]; exact hq1,
      ?_, ?_⟩
    · rw [Visit_Program_prelude, hpre, andThen_ok, Visit, VisitEachEach, andThen_ok, Visit,
        VisitEach, Visit_FunctionCall_eq, hres, andThen_ok, finishCall, hv, andThen_ok,
        andThen_ok, VisitEach, andThen_ok]
      simp [leaveScope, hcur1, htab1]
    · simp [FuncSymbolOf, latestWrite]
    · intro hall
      have hpp : f1.Package = p := hall r hr f1 hf1
      refine ⟨hpk.trans hpp, hnm.trans ?_⟩
      rw [hpp] at hq1
      exact qualified_cancel p _ _ hq1
    · intro huniq
      exact huniq r hr hk1

theorem package_call_analysed_witness :
    ∃ s0 s r f,
      programPrelude mathCatalog [.Package "math"] mathState = .ok () s0 ∧
      Lookup s0 s0.CurrentScope (qualified "math" "sqrt") false = .ok (some r) ∧
      resolveCall "math" "sqrt" [num "4"].length (ident "sqrt") s0 = .ok r s0 ∧
      Visit mathCatalog (.Program [.Package "math"]
        (.Block [] (.Compound [.FunctionCall 7 "math" "sqrt" [num "4"] (ident "sqrt")])))
        mathState = .ok () s ∧
      FuncSymbolOf s 7 = some r ∧ r ∈ mathCatalog.packages "math" ∧
      s.syms[r]? = some (.Function f) ∧ f.Package ≠ "" ∧
      qualified f.Package f.Name = qualified "math" "sqrt" ∧
      ((∀ q ∈ mathCatalog.packages "math", ∀ f1, mathState.syms[q]? = some (.Function f1) →
        f1.Package = "math") → f.Package = "math" ∧ f.Name = "sqrt") ∧
      ((∀ q ∈ mathCatalog.packages "math",
        keyAt mathState.syms q = some (qualified "math" "sqrt") → q = 0) → r = 0) :=
  package_call_analysed mathCatalog "math" "sqrt" 7 [num "4"] (ident "sqrt") mathState 0
    (packageFunction "math" "sqrt") (by decide)
    (by
      intro q hq
      have : q = 0 := by simpa [mathCatalog] using hq
      subst this
      exact ⟨_, rfl, by decide⟩)
    (by simp [mathCatalog]) rfl rfl rfl rfl

/-! ## The global table after the catalogs are registered -/

theorem seedDict_get (n : Nat) (k : String) (r : Nat) (h : (seedDict n).Get k = some r) :
    k ∈ builtinTypeNames := by
  simp only [seedDict, OrderedDict.Get, getEntry] at h
  simp only [builtinTypeNames, List.mem_cons, List.mem_singleton, List.not_mem_nil, or_false]
  split_ifs at h <;> simp_all

theorem seedDict_bound (n : Nat) (k : String) (h : k ∈ builtinTypeNames) :
    (seedDict n).Get k ≠ none := by
  simp only [builtinTypeNames, List.mem_cons, List.mem_singleton, List.not_mem_nil, or_false] at h
  rcases h with rfl | rfl | rfl | rfl | rfl | rfl <;>
    simp [seedDict, OrderedDict.Get, getEntry]

theorem keyAt_seeded (syms : List SymbolObj) (level : Int) (q : Nat) (k : String)
    (h : keyAt (syms ++ seedObjects level) q = some k) :
    keyAt syms q = some k ∨ k ∈ builtinTypeNames := by
  by_cases hq : q < syms.length
  · rw [keyAt_append syms _ q hq] at h
    exact Or.inl h
  · right
    have hq1 : syms.length ≤ q := Nat.le_of_not_lt hq
    unfold keyAt at h
    rw [List.getElem?_append_right hq1] at h
    generalize q - syms.length = i at h
    rcases i with _ | _ | _ | _ | _ | _ | i <;>
      simp [seedObjects, insertKey, builtinTypeNames] at h ⊢ <;> simp [← h]

/-- Registering the two builtin catalogs in the new global table completes; the
table is then bound, for every key, to a catalog symbol that has this key or as
the constructor seeded it, and the builtin type names stay bound. -/
theorem catalogs_registered (c : Catalog) (b : State) :
    ∃ s tab,
      ((insertAll c.functions (programEntry b)).andThen fun _ b2 => insertAll c.iteration b2) =
        .ok () s ∧
      s.CurrentScope = some b.tabs.length ∧ s.tabs[b.tabs.length]? = some tab ∧
      s.tabs.length = b.tabs.length + 1 ∧ s.FuncSymbol = b.FuncSymbol ∧
      tab.ScopeName = "global" ∧ tab.ScopeLevel = 1 ∧ tab.EnclosingScope = b.CurrentScope ∧
      (∀ u, u < b.tabs.length → s.tabs[u]? = b.tabs[u]?) ∧
      s.syms.length = b.syms.length + 6 ∧
      (∀ q, keyAt s.syms q = keyAt (b.syms ++ seedObjects 1) q) ∧
      (∀ k r, tab.symbols.Get k = some r →
        ((r ∈ c.functions ∨ r ∈ c.iteration) ∧ keyAt (b.syms ++ seedObjects 1) r = some k) ∨
        (seedDict b.syms.length).Get k = some r) ∧
      (∀ k, k ∈ builtinTypeNames → tab.symbols.Get k ≠ none) := by
  have he_tab : (programEntry b).tabs[b.tabs.length]? =
      some ⟨seedDict b.syms.length, "global", 1, b.CurrentScope⟩ := by
    simp [programEntry]
  obtain ⟨s2, tab2, hs2, c2, t2, n2, fs2, a2, b2, e2, o2, l2, k2, orig2, -, keep2⟩ :=
    insertAll_spec b.tabs.length c.functions (programEntry b) _ rfl he_tab
  obtain ⟨s3, tab3, hs3, c3, t3, n3, fs3, a3, b3, e3, o3, l3, k3, orig3, -, keep3⟩ :=
    insertAll_spec b.tabs.length c.iteration s2 tab2 c2 t2
  refine ⟨s3, tab3, ?_, c3, t3, ?_, fs3.trans fs2, a3.trans a2, b3.trans b2, e3.trans e2, ?_, ?_,
    ?_, ?_, ?_⟩
  · rw [hs2, andThen_ok, hs3]
  · rw [n3, n2]
    simp [programEntry]
  · intro u hu
    rw [o3 u (by omega), o2 u (by omega)]
    simp only [programEntry]
    rw [List.getElem?_append_left hu]
  · rw [l3, l2]
    simp [programEntry, seedObjects]
  · intro q
    rw [k3 q, k2 q]
    rfl
  · intro k r hget
    rcases orig3 k r hget with ⟨hr, hk⟩ | ⟨hold, -⟩
    · exact Or.inl ⟨Or.inr hr, (k2 r).symm.trans hk⟩
    · rcases orig2 k r hold with ⟨hr, hk⟩ | ⟨hold2, -⟩
      · exact Or.inl ⟨Or.inl hr, hk⟩
      · exact Or.inr hold2
  · intro k hk
    exact keep3 k (keep2 k (seedDict_bound _ k hk))

/-- C11, as the code has it (scenario A): the program `var x INTEGER; x` is
analysed without a fault from a new analyzer, and at the end no node carries a
symbol: the only field of a node that the analyzer writes is `FuncSymbol` of a
call node, and `VisitVar`, which finds the symbol of `x`, returns in the state it
was called in. -/
theorem reference_not_annotated :
    ∃ s1 s v,
      Visit emptyCatalog (declareThenUse "x" (ident "x") (ident "INTEGER") (identAt "x" 2))
        NewSemanticAnalyzer = .ok () s ∧
      s.FuncSymbol = [] ∧
      (programPrelude emptyCatalog [] NewSemanticAnalyzer).andThen (fun _ b4 =>
        VisitEachEach emptyCatalog
          [[.VarDecl (.Var (ident "x") "x") (.TypeN (ident "INTEGER") "INTEGER")]] b4) =
        .ok () s1 ∧
      Lookup s1 s1.CurrentScope "x" false = .ok (some v) ∧
      VisitVar (identAt "x" 2) "x" s1 = .ok () s1 ∧ s1.FuncSymbol = [] :=
  ⟨_, _, 6, rfl, rfl, rfl, rfl, rfl, rfl⟩

/-- C11, amended (scenario A): for every catalog none of whose builtin
functions has the key `x`, `x` not being the name of a builtin type, the program
`var x INTEGER; x` is analysed without a fault from any state.  When the
reference is visited, the whole-chain lookup of `x` finds the variable symbol
allocated by the declaration, named `x`, with `ScopeLevel` 1; the visit of the
reference returns in the state it was called in, and the field `FuncSymbol` of
every call node is at the end what it was at the start: nothing is written on
the reference node.  The variable symbol is still there at the end. -/
theorem reference_resolves (c : Catalog) (b : State) (x : String) (vtok ttok rtok : Token)
    (hx : x ∉ builtinTypeNames)
    (hcat : ∀ q, q ∈ c.functions ∨ q ∈ c.iteration → keyAt b.syms q ≠ some x) :
    ∃ s1 s ty,
      (programPrelude c [] b).andThen (fun _ b4 =>
        VisitEachEach c [[.VarDecl (.Var vtok x) (.TypeN ttok "INTEGER")]] b4) = .ok () s1 ∧
      Lookup s1 s1.CurrentScope x false = .ok (some (b.syms.length + 6)) ∧
      s1.syms[b.syms.length + 6]? = some (.Var { Name := x, Typ := ty, ScopeLevel := 1 }) ∧
      VisitVar rtok x s1 = .ok () s1 ∧
      Visit c (declareThenUse x vtok ttok rtok) b = .ok () s ∧
      s.syms = s1.syms ∧ s.tabs = s1.tabs ∧ s.FuncSymbol = b.FuncSymbol ∧
      s.CurrentScope = b.CurrentScope := by
  obtain ⟨s3, tab3, hs3, hcur, htab, hlen, hfs, -, hlev, henc, -, hsl, hkeys, horig, hkeep⟩ :=
    catalogs_registered c b
  have hpre : programPrelude c [] b = .ok () s3 := by
    rw [programPrelude_eq]
    simp only [VisitEach]
    have : (fun (_ : Unit) (b2 : State) =>
        (insertAll c.iteration b2).andThen fun _ b3 => Result.ok () b3) =
        fun _ b2 => insertAll c.iteration b2 := by
      funext u b2
      cases insertAll c.iteration b2 <;> rfl
    rw [this]
    exact hs3
  -- the type name is bound in the global table
  obtain ⟨r, hr⟩ : ∃ r, tab3.symbols.Get "INTEGER" = some r :=
    Option.ne_none_iff_exists'.1 (hkeep "INTEGER" (by simp [builtinTypeNames]))
  have hT : Lookup s3 (some b.tabs.length) "INTEGER" false = .ok (some r) :=
    Lookup_current s3 _ tab3 _ r false htab hr
  -- the name `x` is not
  have hfree : tab3.symbols.Get x = none := by
    cases hget : tab3.symbols.Get x with
    | none => rfl
    | some p =>
      rcases horig x p hget with ⟨hp, hk⟩ | hseed
      · rcases keyAt_seeded b.syms 1 p x hk with h | h
        · exact absurd h (hcat p hp)
        · exact absurd h hx
      · exact absurd (seedDict_get _ x p hseed) hx
  have hdecl := VisitVarDecl_fresh s3 b.tabs.length tab3 vtok ttok x "INTEGER" (some r) hcur htab
    hT hfree
  have ht := getElem?_lt htab
  clear hs3 hkeys horig hkeep hT hfree hr
  obtain ⟨sy, tb, cs, fsy⟩ := s3
  obtain ⟨d3, nm3, l3, e3⟩ := tab3
  simp only at hcur hfs hlev henc hsl htab ht hdecl
  subst hcur hfs hlev henc
  rw [← hsl]
  have hL : Lookup
      ⟨sy ++ [.Var { Name := x, Typ := some r, ScopeLevel := 1 }],
        tb.set b.tabs.length ⟨d3.Set x sy.length, nm3, 1, b.CurrentScope⟩,
        some b.tabs.length, b.FuncSymbol⟩
      (some b.tabs.length) x false = .ok (some sy.length) :=
    Lookup_current _ _ ⟨d3.Set x sy.length, nm3, 1, b.CurrentScope⟩ _ _ false
      (by simp [List.getElem?_set_self ht]) (Get_Set_self _ _ _)
  refine ⟨⟨sy ++ [.Var { Name := x, Typ := some r, ScopeLevel := 1 }],
      tb.set b.tabs.length ⟨d3.Set x sy.length, nm3, 1, b.CurrentScope⟩,
      some b.tabs.length, b.FuncSymbol⟩,
    ⟨sy ++ [.Var { Name := x, Typ := some r, ScopeLevel := 1 }],
      tb.set b.tabs.length ⟨d3.Set x sy.length, nm3, 1, b.CurrentScope⟩,
      b.CurrentScope, b.FuncSymbol⟩, some r, ?_, hL, ?_, ?_, ?_, rfl, rfl, rfl, rfl⟩
  · rw [hpre, andThen_ok, VisitEachEach, VisitEach, Visit, hdecl, andThen_ok, VisitEach,
      andThen_ok, VisitEachEach]
  · simp
  · simp only [VisitVar, hL]
  · rw [declareThenUse, Visit_Program_prelude, hpre, andThen_ok, Visit, VisitEachEach, VisitEach,
      Visit, hdecl, andThen_ok, VisitEach, andThen_ok, VisitEachEach, andThen_ok, Visit, VisitEach,
      Visit, VisitVar]
    simp only [hL, andThen_ok, VisitEach, leaveScope, List.getElem?_set_self ht]

theorem reference_resolves_witness :
    ∃ s1 s ty,
      (programPrelude emptyCatalog [] NewSemanticAnalyzer).andThen (fun _ b4 =>
        VisitEachEach emptyCatalog
          [[.VarDecl (.Var (ident "x") "x") (.TypeN (ident "INTEGER") "INTEGER")]] b4) =
        .ok () s1 ∧
      Lookup s1 s1.CurrentScope "x" false = .ok (some (NewSemanticAnalyzer.syms.length + 6)) ∧
      s1.syms[NewSemanticAnalyzer.syms.length + 6]? =
        some (.Var { Name := "x", Typ := ty, ScopeLevel := 1 }) ∧
      VisitVar (identAt "x" 2) "x" s1 = .ok () s1 ∧
      Visit emptyCatalog (declareThenUse "x" (ident "x") (ident "INTEGER") (identAt "x" 2))
        NewSemanticAnalyzer = .ok () s ∧
      s.syms = s1.syms ∧ s.tabs = s1.tabs ∧ s.FuncSymbol = NewSemanticAnalyzer.FuncSymbol ∧
      s.CurrentScope = NewSemanticAnalyzer.CurrentScope :=
  reference_resolves emptyCatalog NewSemanticAnalyzer "x" (ident "x") (ident "INTEGER")
    (identAt "x" 2) (by decide) (by
      intro q _
      simp [keyAt, NewSemanticAnalyzer])

/-! ## The loop over the formal parameters -/

/-- A turn of the loop that does not panic is on a node `Param` whose variable
node is a `Var` and whose type node is a `Type`, and the lookup of the type name
returned. -/
theorem declareParams_cons_ok (p : Nat) (param : Ast) (rest : List Ast) (e s : State)
    (h : declareParams p (param :: rest) e = .ok () s) :
    ∃ vtok ttok x T ty, param = Ast.Param (Ast.Var vtok x) (Ast.TypeN ttok T) ∧
      Lookup e e.CurrentScope T false = .ok ty := by
  unfold declareParams at h
  split at h
  · split at h
    · split at h
      · cases h
      · split at h
        · rename_i heq _ _ _
          exact ⟨_, _, _, _, _, rfl, heq⟩
        · cases h
    · cases h
  · cases h

theorem declareParams_cons_eq (p F : Nat) (e : State) (tabF : ScopedSymbolTable)
    (fs0 : FunctionSymbol) (vtok ttok : Token) (x T : String) (ty : Option Nat) (rest : List Ast)
    (hcur : e.CurrentScope = some F) (htab : e.tabs[F]? = some tabF)
    (hf : e.syms[p]? = some (.Function fs0)) (hT : Lookup e e.CurrentScope T false = .ok ty) :
    declareParams p (.Param (.Var vtok x) (.TypeN ttok T) :: rest) e =
      declareParams p rest (paramDeclared e F tabF p fs0 x ty) := by
  have hp := getElem?_lt hf
  have h2 := Insert_eq (allocSym e (.Var (NewVarSymbol x ty))).1 F e.syms.length tabF
    (.Var (NewVarSymbol x ty)) htab (by simp [allocSym])
  have hc : (allocSym e (.Var (NewVarSymbol x ty))).1.CurrentScope = some F := hcur
  simp only [declareParams, hT]
  rw [hc, show (allocSym e (.Var (NewVarSymbol x ty))).2 = e.syms.length from rfl, h2, andThen_ok]
  have h3 : appendFormalParam
      { (allocSym e (.Var (NewVarSymbol x ty))).1 with
        syms := (allocSym e (.Var (NewVarSymbol x ty))).1.syms.set e.syms.length
          ((SymbolObj.Var (NewVarSymbol x ty)).withScopeLevel tabF.ScopeLevel),
        tabs := (allocSym e (.Var (NewVarSymbol x ty))).1.tabs.set F
          { tabF with
            symbols := tabF.symbols.Set (insertKey (.Var (NewVarSymbol x ty))) e.syms.length } }
      p e.syms.length = .ok () (paramDeclared e F tabF p fs0 x ty) := by
    have hs : ((e.syms ++ [SymbolObj.Var (NewVarSymbol x ty)]).set e.syms.length
        ((SymbolObj.Var (NewVarSymbol x ty)).withScopeLevel tabF.ScopeLevel))[p]? =
        some (.Function fs0) := by
      rw [set_append_length, List.getElem?_append_left hp]
      exact hf
    simp only [appendFormalParam, allocSym, hs]
    simp only [set_append_length, paramDeclared, hcur]
    rfl
  rw [h3, andThen_ok]

theorem paramDeclared_facts (e : State) (F : Nat) (tabF : ScopedSymbolTable) (p : Nat)
    (fs0 : FunctionSymbol) (x : String) (ty : Option Nat) (htab : e.tabs[F]? = some tabF)
    (hf : e.syms[p]? = some (.Function fs0)) :
    (paramDeclared e F tabF p fs0 x ty).tabs[F]? =
      some { tabF with symbols := tabF.symbols.Set x e.syms.length } ∧
    (paramDeclared e F tabF p fs0 x ty).syms[p]? =
      some (.Function { fs0 with FormalParams := fs0.FormalParams ++ [e.syms.length] }) ∧
    (paramDeclared e F tabF p fs0 x ty).syms.length = e.syms.length + 1 ∧
    (paramDeclared e F tabF p fs0 x ty).syms[e.syms.length]? =
      some (.Var { Name := x, Typ := ty, ScopeLevel := tabF.ScopeLevel }) ∧
    ∀ q, q < e.syms.length → q ≠ p →
      (paramDeclared e F tabF p fs0 x ty).syms[q]? = e.syms[q]? := by
  have hp := getElem?_lt hf
  have ht := getElem?_lt htab
  refine ⟨?_, ?_, ?_, ?_, ?_⟩
  · simp [paramDeclared, List.getElem?_set_self ht]
  · simp only [paramDeclared]
    rw [List.getElem?_set_self (by simp; omega)]
  · simp [paramDeclared]
  · simp only [paramDeclared]
    rw [List.getElem?_set_ne (by omega)]
    exact (getElem?_append_add e.syms _ 0).trans rfl
  · intro q hq hne
    simp only [paramDeclared]
    rw [List.getElem?_set_ne (Ne.symm hne), List.getElem?_append_left hq]

/-- What the loop over the formal parameters does when it completes: it appends
to the formal parameters of the function symbol one new variable symbol for
every parameter, in order; the symbol of a parameter has the parameter's name,
the level of the current table, and the type that the lookup of the type name
returned in the state the loop had reached; no other symbol object is changed. -/
theorem declareParams_spec (p F : Nat) (ps : List Ast) :
    ∀ (e s : State) (tabF : ScopedSymbolTable) (fs0 : FunctionSymbol),
      e.CurrentScope = some F → e.tabs[F]? = some tabF → e.syms[p]? = some (.Function fs0) →
      declareParams p ps e = .ok () s →
      ∃ qs : List Nat, qs.length = ps.length ∧
        s.syms[p]? = some (.Function { fs0 with FormalParams := fs0.FormalParams ++ qs }) ∧
        e.syms.length ≤ s.syms.length ∧
        (∀ q, q < e.syms.length → q ≠ p → s.syms[q]? = e.syms[q]?) ∧
        ∀ i q, qs[i]? = some q → e.syms.length ≤ q ∧ q < s.syms.length ∧
          ∃ vtok ttok x T ty,
            ps[i]? = some (Ast.Param (Ast.Var vtok x) (Ast.TypeN ttok T)) ∧
            Lookup (declareParams p (ps.take i) e).state (some F) T false = .ok ty ∧
            s.syms[q]? = some (.Var { Name := x, Typ := ty, ScopeLevel := tabF.ScopeLevel }) := by
  induction ps with
  | nil =>
    intro e s tabF fs0 hcur htab hf h
    rw [declareParams] at h
    cases h
    refine ⟨[], rfl, ?_, Nat.le_refl _, fun _ _ _ => rfl, ?_⟩
    · rw [hf, List.append_nil]
    · intro i q hq
      simp at hq
  | cons param rest ih =>
    intro e s tabF fs0 hcur htab hf h
    obtain ⟨vtok, ttok, x, T, ty, rfl, hT⟩ := declareParams_cons_ok p param rest e s h
    rw [declareParams_cons_eq p F e tabF fs0 vtok ttok x T ty rest hcur htab hf hT] at h
    obtain ⟨h1, h2, h3, h4, h5⟩ := paramDeclared_facts e F tabF p fs0 x ty htab hf
    obtain ⟨qs, hlen, hsym, hle, hframe, hpar⟩ :=
      ih (paramDeclared e F tabF p fs0 x ty) s _ _ rfl h1 h2 h
    have hp := getElem?_lt hf
    refine ⟨e.syms.length :: qs, by simp [hlen], ?_, by omega, ?_, ?_⟩
    · rw [hsym]
      simp
    · intro q hq hne
      rw [hframe q (by omega) hne, h5 q hq hne]
    · intro i q hq
      cases i with
      | zero =>
        simp only [List.getElem?_cons_zero, Option.some.injEq] at hq
        subst hq
        refine ⟨Nat.le_refl _, by omega, vtok, ttok, x, T, ty, List.getElem?_cons_zero, ?_, ?_⟩
        · rw [List.take_zero, declareParams, ← hcur]
          exact hT
        · rw [hframe _ (by omega) (by omega), h4]
      | succ i =>
        simp only [List.getElem?_cons_succ] at hq
        obtain ⟨hge, hlt, vtok1, ttok1, x1, T1, ty1, hps, hL, hq1⟩ := hpar i q hq
        refine ⟨by omega, hlt, vtok1, ttok1, x1, T1, ty1, by simpa using hps, ?_, hq1⟩
        rw [List.take_succ_cons,
          declareParams_cons_eq p F e tabF fs0 vtok ttok x T ty _ hcur htab hf hT]
        exact hL

theorem leaveScope_ok (b s : State) (h : leaveScope b = .ok () s) :
    s.syms = b.syms ∧ s.tabs = b.tabs ∧ s.FuncSymbol = b.FuncSymbol := by
  unfold leaveScope at h
  split at h
  · cases h
  · split at h
    · cases h
    · cases h
      exact ⟨rfl, rfl, rfl⟩

theorem wrapInt_succ (x : Int) (h1 : -2 ^ 63 ≤ x) (h2 : x < 2 ^ 63 - 1) :
    wrapInt (x + 1) = x + 1 := by
  unfold wrapInt
  norm_num at h1 h2 ⊢
  omega

/-- C12: a function declaration `f(p1 T1, …, pn Tn)` is visited in a state whose
current scope is the table `tab` at address `t` (the scope S), the catalogs
holding addresses of symbol objects that exist already, and the visit completes
in `s` without a fault.  Then in `s`: the table at `t` binds `f` to the function
symbol allocated by the visit, binds every other key as before, and has the
header it had; every other table that existed is unchanged; the function symbol
has name `f`, an empty package, the level of S, the body and the return type of
the node, and exactly `n` formal parameters; the `i`-th is a variable symbol with
the name of the `i`-th parameter, the level of S plus one (in Go `int`
arithmetic, which is the sum when it fits), and as type the result of the
whole-chain lookup of the `i`-th type name from the scope of the function, in
the state the loop over the parameters had reached. -/
theorem FunctionDecl_declares (c : Catalog) (f : String) (params : List Ast) (body rt : Ast)
    (b s : State) (t : Nat) (tab : ScopedSymbolTable)
    (hcur : b.CurrentScope = some t) (htab : b.tabs[t]? = some tab)
    (hcat : ∀ p, IsCatalogPtr c p → p < b.syms.length)
    (hvisit : Visit c (.FunctionDecl f params body rt) b = .ok () s) :
    (∃ tab1, s.tabs[t]? = some tab1 ∧ tab1.symbols.Get f = some b.syms.length ∧
      (∀ k, k ≠ f → tab1.symbols.Get k = tab.symbols.Get k) ∧
      tab1.ScopeName = tab.ScopeName ∧ tab1.ScopeLevel = tab.ScopeLevel ∧
      tab1.EnclosingScope = tab.EnclosingScope) ∧
    (∀ u tabu, u ≠ t → b.tabs[u]? = some tabu → s.tabs[u]? = some tabu) ∧
    (∃ fs, s.syms[b.syms.length]? = some (.Function fs) ∧ fs.Name = f ∧ fs.Package = "" ∧
      fs.ScopeLevel = tab.ScopeLevel ∧ fs.BlockAst = body ∧ fs.ReturnType = rt ∧
      fs.FormalParams.length = params.length ∧
      ∀ i, i < params.length → ∃ q vtok ttok x T ty,
        fs.FormalParams[i]? = some q ∧
        params[i]? = some (Ast.Param (Ast.Var vtok x) (Ast.TypeN ttok T)) ∧
        Lookup (declareParams b.syms.length (params.take i) (functionEntry b t tab f)).state
          (some b.tabs.length) T false = .ok ty ∧
        s.syms[q]? =
          some (.Var { Name := x, Typ := ty, ScopeLevel := wrapInt (tab.ScopeLevel + 1) })) ∧
    (-2 ^ 63 ≤ tab.ScopeLevel → tab.ScopeLevel < 2 ^ 63 - 1 →
      wrapInt (tab.ScopeLevel + 1) = tab.ScopeLevel + 1) := by
  have ht := getElem?_lt htab
  rw [Visit_FunctionDecl_eq c f params body rt b t tab hcur htab] at hvisit
  cases h4 : declareParams b.syms.length params (functionEntry b t tab f) with
  | fault e s4 => rw [h4] at hvisit; cases hvisit
  | ok u4 s4 =>
  rw [h4, andThen_ok] at hvisit
  cases h5 : Visit c body s4 with
  | fault e s5 => rw [h5] at hvisit; cases hvisit
  | ok u5 s5 =>
  rw [h5, andThen_ok] at hvisit
  cases h6 : leaveScope s5 with
  | fault e s6 => rw [h6] at hvisit; cases hvisit
  | ok u6 s6 =>
  rw [h6, andThen_ok] at hvisit
  obtain ⟨hs6, ht6, -⟩ := leaveScope_ok s5 s6 h6
  -- the loop over the parameters
  obtain ⟨qs, hlen, hsym4, hle4, -, hpar⟩ := declareParams_spec b.syms.length b.tabs.length params
    (functionEntry b t tab f) s4 _ _ rfl (functionEntry_table b t tab f)
    (functionEntry_symbol b t tab f) h4
  have hr4 := declareParams_restores b.syms.length params (functionEntry b t tab f)
  rw [h4] at hr4
  have hF4 : Framed (functionEntry b t tab f) s4 := hr4.1
  have hc4 : s4.CurrentScope = some b.tabs.length := hr4.2 rfl
  -- the body
  have hr5 := Visit_restores c body s4
  have hk5 := Visit_keeps c body s4.syms.length s4 (Nat.le_refl _)
  rw [h5] at hr5 hk5
  have hF5 : Framed s4 s5 := hr5.1
  change KeptSyms s4.syms.length c s4 s5 at hk5
  have hEl : (functionEntry b t tab f).syms.length = b.syms.length + 7 := by
    simp [functionEntry, seedObjects]
  have hfresh : ∀ q, b.syms.length ≤ q → q < s4.syms.length → ∀ o, s4.syms[q]? = some o →
      s5.syms[q]? = some o := by
    intro q hq hlt o ho
    obtain ⟨o1, ho1, -, hsame⟩ := hk5.2 q o hlt ho
    rw [ho1, hsame (fun hc => by have := hcat q hc; omega)]
  have hsym5 := hfresh b.syms.length (Nat.le_refl _) (by omega) _ hsym4
  rw [← hs6] at hsym5
  rw [backfill_eq s6 _ _ body rt hsym5] at hvisit
  cases hvisit
  -- the tables
  have hold : ∀ u tabu, (functionEntry b t tab f).tabs[u]? = some tabu → u < b.tabs.length →
      s5.tabs[u]? = some tabu := by
    intro u tabu hu hlt
    obtain ⟨t1, h1, -, -, -, e1⟩ := hF4 u tabu hu
    have hne : (some b.tabs.length : Option Nat) ≠ some u := by
      intro h
      cases h
      omega
    rw [e1 hne] at h1
    obtain ⟨t2, h2, -, -, -, e2⟩ := hF5 u tabu h1
    rw [e2 (by rw [hc4]; exact hne)] at h2
    exact h2
  refine ⟨⟨⟨tab.symbols.Set f b.syms.length, tab.ScopeName, tab.ScopeLevel, tab.EnclosingScope⟩,
    ?_, Get_Set_self _ _ _, fun k hk => Get_Set_ne _ _ _ _ hk, rfl, rfl, rfl⟩, ?_, ?_,
    wrapInt_succ _⟩
  · show s6.tabs[t]? = _
    rw [ht6]
    exact hold t _ (functionEntry_outer b t tab f htab) ht
  · intro u tabu hne hu
    show s6.tabs[u]? = _
    rw [ht6]
    have hu1 := getElem?_lt hu
    refine hold u tabu ?_ hu1
    show (b.tabs.set t _ ++ _)[u]? = _
    rw [List.getElem?_append_left (by simpa using hu1), List.getElem?_set_ne (Ne.symm hne)]
    exact hu
  · have hp6 := getElem?_lt hsym5
    refine ⟨_, List.getElem?_set_self hp6, rfl, rfl, rfl, rfl, rfl, ?_, ?_⟩
    · simp [NewFunctionSymbol, hlen]
    · intro i hi
      obtain ⟨q, hq⟩ : ∃ q, qs[i]? = some q :=
        ⟨qs[i], List.getElem?_eq_getElem (by omega)⟩
      obtain ⟨hge, hlt, vtok, ttok, x, T, ty, hps, hL, hobj⟩ := hpar i q hq
      refine ⟨q, vtok, ttok, x, T, ty, by simpa [NewFunctionSymbol] using hq, hps, hL, ?_⟩
      show (s6.syms.set _ _)[q]? = _
      rw [List.getElem?_set_ne (by omega), hs6]
      exact hfresh q (by omega) hlt _ hobj

theorem FunctionDecl_declares_witness :
    (∃ tab1, (Visit emptyCatalog nestedDecl demoState).state.tabs[1]? = some tab1 ∧
      tab1.symbols.Get "f" = some demoState.syms.length ∧
      (∀ k, k ≠ "f" → tab1.symbols.Get k =
        (⟨⟨[("x", 2)]⟩, "f", 2, some 0⟩ : ScopedSymbolTable).symbols.Get k) ∧
      tab1.ScopeName = "f" ∧ tab1.ScopeLevel = 2 ∧ tab1.EnclosingScope = some 0) ∧
    (∀ u tabu, u ≠ 1 → demoState.tabs[u]? = some tabu →
      (Visit emptyCatalog nestedDecl demoState).state.tabs[u]? = some tabu) ∧
    (∃ fs, (Visit emptyCatalog nestedDecl demoState).state.syms[demoState.syms.length]? =
        some (.Function fs) ∧ fs.Name = "f" ∧ fs.Package = "" ∧
      fs.ScopeLevel = 2 ∧
      fs.BlockAst = .Block
        [[.FunctionDecl "g" [] (.Block [] (.Compound [])) .Nil],
         [.VarDecl (.Var (ident "x") "x") (.TypeN (ident "INTEGER") "INTEGER")]]
        (.Compound [.Var (ident "a") "a"]) ∧
      fs.ReturnType = .Nil ∧
      fs.FormalParams.length =
        [Ast.Param (.Var (ident "a") "a") (.TypeN (ident "INTEGER") "INTEGER")].length ∧
      ∀ i, i < [Ast.Param (.Var (ident "a") "a") (.TypeN (ident "INTEGER") "INTEGER")].length →
        ∃ q vtok ttok x T ty,
          fs.FormalParams[i]? = some q ∧
          [Ast.Param (.Var (ident "a") "a") (.TypeN (ident "INTEGER") "INTEGER")][i]? =
            some (Ast.Param (Ast.Var vtok x) (Ast.TypeN ttok T)) ∧
          Lookup (declareParams demoState.syms.length
            ([Ast.Param (.Var (ident "a") "a") (.TypeN (ident "INTEGER") "INTEGER")].take i)
            (functionEntry demoState 1 ⟨⟨[("x", 2)]⟩, "f", 2, some 0⟩ "f")).state
            (some demoState.tabs.length) T false = .ok ty ∧
          (Visit emptyCatalog nestedDecl demoState).state.syms[q]? =
            some (.Var { Name := x, Typ := ty, ScopeLevel := wrapInt (2 + 1) })) ∧
    (-2 ^ 63 ≤ (2 : Int) → (2 : Int) < 2 ^ 63 - 1 → wrapInt (2 + 1) = 2 + 1) :=
  FunctionDecl_declares emptyCatalog "f"
    [.Param (.Var (ident "a") "a") (.TypeN (ident "INTEGER") "INTEGER")]
    (.Block
      [[.FunctionDecl "g" [] (.Block [] (.Compound [])) .Nil],
       [.VarDecl (.Var (ident "x") "x") (.TypeN (ident "INTEGER") "INTEGER")]]
      (.Compound [.Var (ident "a") "a"]))
    .Nil demoState (Visit emptyCatalog nestedDecl demoState).state 1
    ⟨⟨[("x", 2)]⟩, "f", 2, some 0⟩ rfl rfl
    (by rintro p (h | h | ⟨_, h⟩) <;> cases h) rfl

/-! ## A call of the function under declaration -/

theorem VisitEach_append (c : Catalog) (l1 l2 : List Ast) :
    ∀ b, VisitEach c (l1 ++ l2) b = (VisitEach c l1 b).andThen fun _ b1 => VisitEach c l2 b1 := by
  induction l1 with
  | nil => intro b; rw [List.nil_append, VisitEach, andThen_ok]
  | cons n rest ih =>
    intro b
    rw [List.cons_append, VisitEach, VisitEach, andThen_assoc]
    congr 1
    funext _ b1
    exact ih b1

/-- The lookup of a name the current table does not bind, bound in the table
that encloses it. -/
theorem Lookup_enclosing (b : State) (F t : Nat) (tabF tabS : ScopedSymbolTable) (name : String)
    (r : Nat) (hF : b.tabs[F]? = some tabF) (henc : tabF.EnclosingScope = some t)
    (hS : b.tabs[t]? = some tabS) (hnone : tabF.symbols.Get name = none)
    (hget : tabS.symbols.Get name = some r) :
    Lookup b (some F) name false = .ok (some r) := by
  have hlen := getElem?_lt hF
  obtain ⟨k, hk⟩ : ∃ k, b.tabs.length = k + 1 := ⟨b.tabs.length - 1, by omega⟩
  simp [Lookup, hk, LookupFuel, hF, hnone, henc, hS, hget]

/-- C13, as the code has it: in `func INTEGER() { INTEGER() }` the name of the
function is redeclared neither as a parameter nor in the body, yet the call in
the body does not resolve to the function symbol: the table of the function
binds `INTEGER` to the builtin type seeded by the constructor, and the type
assertion on that symbol panics. -/
theorem call_of_type_named_function :
    Visit emptyCatalog typeNamedRecursion NewSemanticAnalyzer =
      .fault .runtimePanic (Visit emptyCatalog typeNamedRecursion NewSemanticAnalyzer).state ∧
    Lookup (Visit emptyCatalog typeNamedRecursion NewSemanticAnalyzer).state
      (Visit emptyCatalog typeNamedRecursion NewSemanticAnalyzer).state.CurrentScope "INTEGER"
      false = .ok (some 7) ∧
    (Visit emptyCatalog typeNamedRecursion NewSemanticAnalyzer).state.syms[7]? =
      some (.BuiltinType { Name := "INTEGER", Typ := none, ScopeLevel := 2 }) ∧
    (Visit emptyCatalog typeNamedRecursion NewSemanticAnalyzer).state.syms[6]? =
      some (.Function { NewFunctionSymbol "INTEGER" with ScopeLevel := 1 }) :=
  ⟨rfl, rfl, rfl, rfl⟩

/-- C13, amended: a declaration of `f` with `n` parameters is visited in a state
whose current scope is the table `tab` at address `t`, the catalogs holding
addresses of symbol objects that exist already; the loop over the parameters has
completed in `s0`, and the declarations `decls` of the body and the nodes `pre`
visited before the call have been visited without a fault, which leads to the
state `s`.  If in `s` the table of the function itself does not bind the name
`f`, a call of `f` by its bare name with `n` arguments resolves, in `s`, to the
function symbol allocated for the declaration: the lookup of `f` finds it in the
enclosing table, it has `n` formal parameters, the resolution of the call
returns it and so raises neither `UndefinedFunction` nor `WrongParamsNum`, and
the visit of the call is the visit of its arguments followed by the assignment
of `FuncSymbol`; the visit of the whole declaration goes on from there. -/
theorem recursive_call_resolves (c : Catalog) (f : String) (params : List Ast)
    (decls : List (List Ast)) (pre : List Ast) (id : Nat) (args : List Ast) (tok : Token)
    (b s0 s : State) (t : Nat) (tab : ScopedSymbolTable)
    (hcur : b.CurrentScope = some t) (htab : b.tabs[t]? = some tab)
    (hcat : ∀ p, IsCatalogPtr c p → p < b.syms.length)
    (hparams : declareParams b.syms.length params (functionEntry b t tab f) = .ok () s0)
    (hpre : ((VisitEachEach c decls s0).andThen fun _ s1 => VisitEach c pre s1) = .ok () s)
    (hlen : args.length = params.length)
    (hown : ∀ tabF, s.tabs[b.tabs.length]? = some tabF → tabF.symbols.Get f = none) :
    s.CurrentScope = some b.tabs.length ∧
    Lookup s s.CurrentScope f false = .ok (some b.syms.length) ∧
    (∃ fs, s.syms[b.syms.length]? = some (.Function fs) ∧ fs.Name = f ∧ fs.Package = "" ∧
      fs.FormalParams.length = params.length) ∧
    resolveCall "" f args.length tok s = .ok b.syms.length s ∧
    Visit c (.FunctionCall id "" f args tok) s = finishCall c id args b.syms.length s ∧
    ∀ post rt,
      Visit c (.FunctionDecl f params
        (.Block decls (.Compound (pre ++ .FunctionCall id "" f args tok :: post))) rt) b =
      (finishCall c id args b.syms.length s).andThen fun _ s2 =>
      (VisitEach c post s2).andThen fun _ s3 =>
      (leaveScope s3).andThen fun _ s4 =>
      backfill s4 b.syms.length
        (.Block decls (.Compound (pre ++ .FunctionCall id "" f args tok :: post))) rt := by
  have ht := getElem?_lt htab
  -- the loop over the parameters
  obtain ⟨qs, hqs, hsym0, -, -, -⟩ := declareParams_spec b.syms.length b.tabs.length params
    (functionEntry b t tab f) s0 _ _ rfl (functionEntry_table b t tab f)
    (functionEntry_symbol b t tab f) hparams
  have hr0 := declareParams_restores b.syms.length params (functionEntry b t tab f)
  rw [hparams] at hr0
  have hF0 : Framed (functionEntry b t tab f) s0 := hr0.1
  have hc0 : s0.CurrentScope = some b.tabs.length := hr0.2 rfl
  -- the visits that precede the call
  have hr1 : Restores s0 ((VisitEachEach c decls s0).andThen fun _ s1 => VisitEach c pre s1) :=
    Restores_andThen (VisitEachEach_restores c decls s0) fun _ s1 _ => VisitEach_restores c pre s1
  have hk1 : KeptSyms s0.syms.length c s0
      ((VisitEachEach c decls s0).andThen fun _ s1 => VisitEach c pre s1).state :=
    andThen_keeps (Nat.le_refl _) (VisitEachEach_keeps c decls _ s0 (Nat.le_refl _))
      fun _ s1 h1 => VisitEach_keeps c pre _ s1 h1
  rw [hpre] at hr1 hk1
  have hF1 : Framed s0 s := hr1.1
  have hc1 : s.CurrentScope = some b.tabs.length := (hr1.2 rfl).trans hc0
  change KeptSyms s0.syms.length c s0 s at hk1
  -- the two tables
  have hne : (some b.tabs.length : Option Nat) ≠ some t := by
    intro h
    cases h
    omega
  obtain ⟨tS0, hS0, -, -, -, eS0⟩ := hF0 t _ (functionEntry_outer b t tab f htab)
  rw [eS0 hne] at hS0
  obtain ⟨tS1, hS1, -, -, -, eS1⟩ := hF1 t _ hS0
  rw [eS1 (by rw [hc0]; exact hne)] at hS1
  obtain ⟨tF0, hT0, -, -, hE0, -⟩ := hF0 _ _ (functionEntry_table b t tab f)
  obtain ⟨tF1, hT1, -, -, hE1, -⟩ := hF1 _ _ hT0
  have hL : Lookup s (some b.tabs.length) f false = .ok (some b.syms.length) :=
    Lookup_enclosing s _ t tF1 _ f _ hT1 (hE1.trans hE0) hS1 (hown tF1 hT1) (Get_Set_self _ _ _)
  -- the function symbol
  obtain ⟨o1, ho1, -, hsame⟩ := hk1.2 b.syms.length _ (getElem?_lt hsym0) hsym0
  rw [hsame (fun hc => by have := hcat _ hc; omega)] at ho1
  have hres : resolveCall "" f args.length tok s = .ok b.syms.length s := by
    rw [resolveCall_own_bare "" f args.length tok s b.syms.length _
      (by rw [hc1]; simpa [callKey] using hL) ho1 rfl]
    simp [NewFunctionSymbol, hqs, hlen]
  have hcall : Visit c (.FunctionCall id "" f args tok) s = finishCall c id args b.syms.length s := by
    rw [Visit_FunctionCall_eq, hres, andThen_ok]
  refine ⟨hc1, by rw [hc1]; exact hL, ⟨_, ho1, rfl, rfl, by simp [NewFunctionSymbol, hqs]⟩, hres,
    hcall, ?_⟩
  intro post rt
  rw [Visit_FunctionDecl_eq c f params _ rt b t tab hcur htab, hparams, andThen_ok, Visit]
  have hsplit : ((VisitEachEach c decls s0).andThen fun _ b1 =>
      Visit c (.Compound (pre ++ .FunctionCall id "" f args tok :: post)) b1) =
      ((VisitEachEach c decls s0).andThen fun _ s1 => VisitEach c pre s1).andThen fun _ b2 =>
        VisitEach c (.FunctionCall id "" f args tok :: post) b2 := by
    rw [andThen_assoc]
    congr 1
    funext _ b1
    rw [Visit]
    exact VisitEach_append c pre _ b1
  rw [hsplit, hpre, andThen_ok, VisitEach, hcall, andThen_assoc]

theorem recursive_call_resolves_witness :
    selfCallState.CurrentScope = some 1 ∧
    Lookup selfCallState selfCallState.CurrentScope "f" false = .ok (some 6) ∧
    (∃ fs, selfCallState.syms[6]? = some (.Function fs) ∧ fs.Name = "f" ∧ fs.Package = "" ∧
      fs.FormalParams.length = 1) ∧
    resolveCall "" "f" 1 (ident "f") selfCallState = .ok 6 selfCallState ∧
    Visit emptyCatalog (.FunctionCall 3 "" "f" [.Var (ident "a") "a"] (ident "f")) selfCallState =
      finishCall emptyCatalog 3 [.Var (ident "a") "a"] 6 selfCallState :=
  have h := recursive_call_resolves emptyCatalog "f"
    [.Param (.Var (ident "a") "a") (.TypeN (ident "INTEGER") "INTEGER")]
    [[.VarDecl (.Var (ident "x") "x") (.TypeN (ident "INTEGER") "INTEGER")]]
    [.Var (ident "a") "a"] 3 [.Var (ident "a") "a"] (ident "f")
    (programEntry NewSemanticAnalyzer) selfCallParams selfCallState 0
    ⟨seedDict 0, "global", 1, none⟩ rfl rfl
    (by rintro p (h | h | ⟨_, h⟩) <;> cases h) rfl rfl rfl
    (by
      intro tabF h
      have h1 : tabF = ⟨⟨[("INTEGER", 7), ("FLOAT", 8), ("BOOL", 9), ("STRING", 10), ("LIST", 11),
          ("DICT", 12), ("a", 13), ("x", 14)]⟩, "f", 2, some 0⟩ := (Option.some.inj h).symm
      rw [h1]
      decide)
  ⟨h.1, h.2.1, h.2.2.1, h.2.2.2.1, h.2.2.2.2.1⟩

/-! ## Scope levels -/

/-- C19, as the code has it: in the visit of `importTwice` the function symbol of
the catalog is bound in the global table, of level 1, and stamped with level 1
when the block of the program is entered; the `Package` node in the body of the
function inserts the same symbol into the table of the function, which stamps it
with level 2.  After the declaration the global table is the current scope and
still binds the symbol, whose level is now 2. -/
theorem import_in_function_restamps :
    Visit mathCatalog importTwice mathState = leaveScope afterImportInFunction ∧
    (Visit mathCatalog importTwice mathState).fault? = none ∧
    afterImport.CurrentScope = some 0 ∧
    afterImport.tabs[0]? = some ⟨(seedDict 1).Set "math.sqrt" 0, "global", 1, none⟩ ∧
    afterImport.syms[0]? =
      some (.Function { packageFunction "math" "sqrt" with ScopeLevel := 1 }) ∧
    afterImportInFunction.CurrentScope = some 0 ∧
    afterImportInFunction.tabs[0]? =
      some ⟨((seedDict 1).Set "math.sqrt" 0).Set "f" 7, "global", 1, none⟩ ∧
    afterImportInFunction.syms[0]? =
      some (.Function { packageFunction "math" "sqrt" with ScopeLevel := 2 }) :=
  ⟨rfl, rfl, rfl, rfl, rfl, rfl, rfl, rfl⟩

theorem scopeLevel_withScopeLevel (o : SymbolObj) (l : Int) :
    (o.withScopeLevel l).scopeLevel = l := by
  cases o <;> rfl

theorem LevelFrame_refl (n0 : Nat) (b : State) : LevelFrame n0 b b :=
  ⟨Nat.le_refl _, fun _ obj h => ⟨obj, h, Or.inl rfl⟩⟩

theorem LevelFrame_trans {n0 : Nat} {b s1 s2 : State} (h1 : LevelFrame n0 b s1)
    (h2 : LevelFrame n0 s1 s2) : LevelFrame n0 b s2 := by
  refine ⟨Nat.le_trans h1.1 h2.1, ?_⟩
  intro p obj hobj
  obtain ⟨o1, ho1, hl1⟩ := h1.2 p obj hobj
  obtain ⟨o2, ho2, hl2⟩ := h2.2 p o1 ho1
  refine ⟨o2, ho2, ?_⟩
  rcases hl2 with h | h
  · rcases hl1 with h0 | h0
    · exact Or.inl (h.trans h0)
    · exact Or.inr ⟨h0.1, h.trans h0.2⟩
  · exact Or.inr h

theorem LevelStep_trans {n0 : Nat} {b s1 s2 : State} (h1 : LevelStep n0 b s1)
    (h2 : LevelStep n0 s1 s2) : LevelStep n0 b s2 :=
  ⟨h2.1, LevelFrame_trans h1.2 h2.2⟩

/-- Under the invariant, a step that keeps the levels in the sense of
`LevelFrame` changes the level of no symbol that is bound in a table. -/
theorem LevelKept_of_frame {n0 : Nat} {b s : State} (hinv : LevelInv n0 b)
    (h : LevelFrame n0 b s) : LevelKept b s := by
  intro t tab k p obj htab hget hobj
  obtain ⟨o1, ho1, hl⟩ := h.2 p obj hobj
  refine ⟨o1, ho1, ?_⟩
  rcases hl with hl | ⟨hp, hl⟩
  · exact hl
  · obtain ⟨⟨o, ho, hlev⟩, htop⟩ := hinv.2 t tab k p htab hget
    rw [hobj] at ho
    cases ho
    rw [hl, hlev, htop hp]

theorem level_same {n0 : Nat} {b s : State} (hinv : LevelInv n0 b) (hs : s.syms = b.syms)
    (ht : s.tabs = b.tabs) : LevelStep n0 b s := by
  unfold LevelStep LevelInv LevelFrame
  rw [hs, ht]
  exact ⟨hinv, LevelFrame_refl n0 b⟩

theorem level_alloc {n0 : Nat} {b s : State} (hinv : LevelInv n0 b) (l : List SymbolObj)
    (hs : s.syms = b.syms ++ l) (ht : s.tabs = b.tabs) : LevelStep n0 b s := by
  have hkeep : ∀ (p : Nat) (obj : SymbolObj), b.syms[p]? = some obj → s.syms[p]? = some obj := by
    intro p obj h
    rw [hs, List.getElem?_append_left (getElem?_lt h)]
    exact h
  refine ⟨⟨?_, ?_⟩, ?_, ?_⟩
  · rw [hs, List.length_append]
    exact Nat.le_trans hinv.1 (Nat.le_add_right _ _)
  · intro t tab k p htab hget
    rw [ht] at htab
    obtain ⟨⟨o, ho, hl⟩, htop⟩ := hinv.2 t tab k p htab hget
    exact ⟨⟨o, hkeep p o ho, hl⟩, htop⟩
  · rw [hs, List.length_append]
    exact Nat.le_add_right _ _
  · intro p obj h
    exact ⟨obj, hkeep p obj h, Or.inl rfl⟩

theorem level_insert_fresh {n0 : Nat} {b s : State} (hinv : LevelInv n0 b) (r : Nat)
    (tab : ScopedSymbolTable) (o : SymbolObj) (key : String) (htab : b.tabs[r]? = some tab)
    (ho : o.scopeLevel = tab.ScopeLevel) (hs : s.syms = b.syms ++ [o])
    (ht : s.tabs = b.tabs.set r { tab with symbols := tab.symbols.Set key b.syms.length }) :
    LevelStep n0 b s := by
  have hr := getElem?_lt htab
  have hkeep : ∀ (p : Nat) (obj : SymbolObj), b.syms[p]? = some obj → s.syms[p]? = some obj := by
    intro p obj h
    rw [hs, List.getElem?_append_left (getElem?_lt h)]
    exact h
  refine ⟨⟨?_, ?_⟩, ?_, ?_⟩
  · rw [hs, List.length_append]
    exact Nat.le_trans hinv.1 (Nat.le_add_right _ _)
  · intro t tab1 k p htab1 hget
    rw [ht] at htab1
    by_cases htr : r = t
    · subst htr
      rw [List.getElem?_set_self hr] at htab1
      cases htab1
      by_cases hk : k = key
      · subst hk
        have hp : b.syms.length = p := Option.some.inj ((Get_Set_self _ _ _).symm.trans hget)
        subst hp
        refine ⟨⟨o, ?_, ho⟩, fun h => ?_⟩
        · rw [hs]
          exact (getElem?_append_add b.syms [o] 0).trans rfl
        · have := hinv.1
          omega
      · have hget1 : tab.symbols.Get k = some p := (Get_Set_ne _ _ _ _ hk).symm.trans hget
        obtain ⟨⟨o1, ho1, hl⟩, htop⟩ := hinv.2 r tab k p htab hget1
        exact ⟨⟨o1, hkeep p o1 ho1, hl⟩, htop⟩
    · rw [List.getElem?_set_ne htr] at htab1
      obtain ⟨⟨o1, ho1, hl⟩, htop⟩ := hinv.2 t tab1 k p htab1 hget
      exact ⟨⟨o1, hkeep p o1 ho1, hl⟩, htop⟩
  · rw [hs, List.length_append]
    exact Nat.le_add_right _ _
  · intro p obj h
    exact ⟨obj, hkeep p obj h, Or.inl rfl⟩

theorem level_insert_catalog {n0 : Nat} {b s : State} (hinv : LevelInv n0 b) (r q : Nat)
    (tab : ScopedSymbolTable) (obj : SymbolObj) (key : String) (htab : b.tabs[r]? = some tab)
    (hlev : tab.ScopeLevel = 1) (hobj : b.syms[q]? = some obj) (hq : q < n0)
    (hs : s.syms = b.syms.set q (obj.withScopeLevel tab.ScopeLevel))
    (ht : s.tabs = b.tabs.set r { tab with symbols := tab.symbols.Set key q }) :
    LevelStep n0 b s := by
  have hr := getElem?_lt htab
  have hql := getElem?_lt hobj
  have hnew : s.syms[q]? = some (obj.withScopeLevel tab.ScopeLevel) := by
    rw [hs, List.getElem?_set_self hql]
  have hold : ∀ p, p ≠ q → s.syms[p]? = b.syms[p]? := by
    intro p hp
    rw [hs, List.getElem?_set_ne (Ne.symm hp)]
  -- a binding of the new heap of tables is the new one or a binding of the old heap
  have hbind : ∀ (t : Nat) (tab1 : ScopedSymbolTable) (k : String) (p : Nat),
      s.tabs[t]? = some tab1 → tab1.symbols.Get k = some p →
      (p = q ∧ tab1.ScopeLevel = 1) ∨
      ∃ tab0, b.tabs[t]? = some tab0 ∧ tab0.symbols.Get k = some p ∧
        tab1.ScopeLevel = tab0.ScopeLevel := by
    intro t tab1 k p htab1 hget
    rw [ht] at htab1
    by_cases htr : r = t
    · subst htr
      rw [List.getElem?_set_self hr] at htab1
      cases htab1
      by_cases hk : k = key
      · subst hk
        exact Or.inl ⟨(Option.some.inj ((Get_Set_self _ _ _).symm.trans hget)).symm, hlev⟩
      · exact Or.inr ⟨tab, htab, (Get_Set_ne _ _ _ _ hk).symm.trans hget, rfl⟩
    · rw [List.getElem?_set_ne htr] at htab1
      exact Or.inr ⟨tab1, htab1, hget, rfl⟩
  refine ⟨⟨?_, ?_⟩, ?_, ?_⟩
  · rw [hs, List.length_set]
    exact hinv.1
  · intro t tab1 k p htab1 hget
    rcases hbind t tab1 k p htab1 hget with ⟨hp, hl1⟩ | ⟨tab0, htab0, hget0, hl0⟩
    · subst hp
      exact ⟨⟨_, hnew, by rw [scopeLevel_withScopeLevel, hlev, hl1]⟩, fun _ => hl1⟩
    · obtain ⟨⟨o1, ho1, hl⟩, htop⟩ := hinv.2 t tab0 k p htab0 hget0
      refine ⟨?_, fun hp => hl0.trans (htop hp)⟩
      by_cases hp : p = q
      · subst hp
        exact ⟨_, hnew, by rw [scopeLevel_withScopeLevel, hlev, hl0, htop hq]⟩
      · exact ⟨o1, (hold p hp).trans ho1, hl.trans hl0.symm⟩
  · rw [hs, List.length_set]
  · intro p o h
    by_cases hp : p = q
    · subst hp
      exact ⟨_, hnew, Or.inr ⟨hq, by rw [scopeLevel_withScopeLevel, hlev]⟩⟩
    · exact ⟨o, (hold p hp).trans h, Or.inl rfl⟩

theorem level_set_same {n0 : Nat} {b s : State} (hinv : LevelInv n0 b) (q : Nat)
    (obj o1 : SymbolObj) (hobj : b.syms[q]? = some obj) (ho : o1.scopeLevel = obj.scopeLevel)
    (hs : s.syms = b.syms.set q o1) (ht : s.tabs = b.tabs) : LevelStep n0 b s := by
  have hql := getElem?_lt hobj
  have hsym : ∀ (p : Nat) (o : SymbolObj), b.syms[p]? = some o →
      ∃ o2, s.syms[p]? = some o2 ∧ o2.scopeLevel = o.scopeLevel := by
    intro p o h
    by_cases hp : p = q
    · subst hp
      rw [hobj] at h
      cases h
      exact ⟨o1, by rw [hs, List.getElem?_set_self hql], ho⟩
    · exact ⟨o, by rw [hs, List.getElem?_set_ne (Ne.symm hp)]; exact h, rfl⟩
  refine ⟨⟨?_, ?_⟩, ?_, ?_⟩
  · rw [hs, List.length_set]
    exact hinv.1
  · intro t tab k p htab hget
    rw [ht] at htab
    obtain ⟨⟨o, ho0, hl⟩, htop⟩ := hinv.2 t tab k p htab hget
    obtain ⟨o2, ho2, hl2⟩ := hsym p o ho0
    exact ⟨⟨o2, ho2, hl2.trans hl⟩, htop⟩
  · rw [hs, List.length_set]
  · intro p o h
    obtain ⟨o2, ho2, hl2⟩ := hsym p o h
    exact ⟨o2, ho2, Or.inl hl2⟩

theorem seedDict_object (n : Nat) (level : Int) (syms : List SymbolObj) (hn : syms.length = n)
    (k : String) (p : Nat) (h : (seedDict n).Get k = some p) :
    n ≤ p ∧ ∃ obj, (syms ++ seedObjects level)[p]? = some obj ∧ obj.scopeLevel = level := by
  subst hn
  simp only [seedDict, OrderedDict.Get, getEntry] at h
  split_ifs at h <;> cases h
  · exact ⟨Nat.le_refl _, _, (getElem?_append_add syms (seedObjects level) 0).trans rfl, rfl⟩
  all_goals
    exact ⟨Nat.le_add_right _ _, _, (getElem?_append_add syms (seedObjects level) _).trans rfl,
      rfl⟩

theorem level_new_table {n0 : Nat} {b s : State} (hinv : LevelInv n0 b) (name : String)
    (level : Int) (enc : Option Nat) (hs : s.syms = b.syms ++ seedObjects level)
    (ht : s.tabs = b.tabs ++ [⟨seedDict b.syms.length, name, level, enc⟩]) :
    LevelStep n0 b s := by
  have hkeep : ∀ (p : Nat) (obj : SymbolObj), b.syms[p]? = some obj → s.syms[p]? = some obj := by
    intro p obj h
    rw [hs, List.getElem?_append_left (getElem?_lt h)]
    exact h
  refine ⟨⟨?_, ?_⟩, ?_, ?_⟩
  · rw [hs, List.length_append]
    exact Nat.le_trans hinv.1 (Nat.le_add_right _ _)
  · intro t tab k p htab hget
    rw [ht] at htab
    by_cases hlt : t < b.tabs.length
    · rw [List.getElem?_append_left hlt] at htab
      obtain ⟨⟨o, ho, hl⟩, htop⟩ := hinv.2 t tab k p htab hget
      exact ⟨⟨o, hkeep p o ho, hl⟩, htop⟩
    · have hge : b.tabs.length ≤ t := Nat.le_of_not_lt hlt
      rw [List.getElem?_append_right hge] at htab
      have ht0 : t - b.tabs.length = 0 := by
        by_contra hne
        rw [List.getElem?_eq_none (by simp; omega)] at htab
        cases htab
      rw [ht0] at htab
      cases htab
      obtain ⟨hge1, o, ho, hl⟩ := seedDict_object b.syms.length level b.syms rfl k p hget
      refine ⟨⟨o, by rw [hs]; exact ho, hl⟩, fun hp => ?_⟩
      have := hinv.1
      omega
  · rw [hs, List.length_append]
    exact Nat.le_add_right _ _
  · intro p obj h
    exact ⟨obj, hkeep p obj h, Or.inl rfl⟩

theorem andThen_level {α β : Type} {n0 : Nat} {b : State} {r : Result α}
    {k : α → State → Result β} (hr : LevelStep n0 b r.state)
    (hk : ∀ a s, r = .ok a s → LevelInv n0 s → LevelStep n0 s (k a s).state) :
    LevelStep n0 b (r.andThen k).state := by
  cases r with
  | fault f s => exact hr
  | ok a s => exact LevelStep_trans hr (hk a s rfl hr.1)

theorem AtTop_restores {α : Type} {b s : State} {r : Result α} {a : α} (hres : Restores b r)
    (hr : r = .ok a s) (h : AtTop b) : AtTop s := by
  subst hr
  obtain ⟨t, tab, hcur, htab, hlev⟩ := h
  obtain ⟨tab1, htab1, -, hl1, -, -⟩ := hres.1 t tab htab
  exact ⟨t, tab1, (hres.2 rfl).trans hcur, htab1, hl1.trans hlev⟩

theorem Insert_alloc_level (n0 : Nat) (b : State) (o : SymbolObj) (t : Option Nat)
    (hinv : LevelInv n0 b) :
    LevelStep n0 b (Insert (allocSym b o).1 t (allocSym b o).2).state := by
  rcases Insert_cases (allocSym b o).1 t (allocSym b o).2 with h | ⟨r, tab, obj, -, htab, hobj, h⟩
  · rw [h]
    exact level_alloc hinv [o] rfl rfl
  · rw [h]
    have ho : obj = o := by
      have h1 : (b.syms ++ [o])[b.syms.length]? = some obj := hobj
      have h2 : (b.syms ++ [o])[b.syms.length]? = some o :=
        (getElem?_append_add b.syms [o] 0).trans rfl
      rw [h2] at h1
      exact (Option.some.inj h1).symm
    subst ho
    exact level_insert_fresh hinv r tab (obj.withScopeLevel tab.ScopeLevel) (insertKey obj) htab
      (scopeLevel_withScopeLevel _ _) (set_append_length b.syms obj _) rfl

theorem Insert_catalog_level (n0 : Nat) (b : State) (q : Nat) (hinv : LevelInv n0 b)
    (hq : q < n0) (htop : AtTop b) : LevelStep n0 b (Insert b b.CurrentScope q).state := by
  rcases Insert_cases b b.CurrentScope q with h | ⟨r, tab, obj, hr, htab, hobj, h⟩
  · rw [h]
    exact level_same hinv rfl rfl
  · rw [h]
    obtain ⟨t, tab1, hcur, htab1, hlev⟩ := htop
    rw [hr] at hcur
    cases hcur
    rw [htab] at htab1
    cases htab1
    exact level_insert_catalog hinv r q tab obj (insertKey obj) htab hlev hobj hq rfl rfl

theorem insertAll_level (n0 : Nat) (fs : List Nat) (hfs : ∀ q ∈ fs, q < n0) :
    ∀ b, LevelInv n0 b → AtTop b → LevelStep n0 b (insertAll fs b).state := by
  induction fs with
  | nil => intro b hinv _; exact level_same hinv rfl rfl
  | cons f fs ih =>
    intro b hinv htop
    rw [insertAll]
    exact andThen_level (Insert_catalog_level n0 b f hinv (hfs f (List.mem_cons_self _ _)) htop)
      fun _ s hr hs => ih (fun q hq => hfs q (List.mem_cons_of_mem _ hq)) s hs
        (AtTop_restores (Insert_restores b f) hr htop)

theorem VisitVarDecl_level (n0 : Nat) (v t : Ast) (b : State) (hinv : LevelInv n0 b) :
    LevelStep n0 b (VisitVarDecl v t b).state := by
  unfold VisitVarDecl
  split
  · split
    · exact level_same hinv rfl rfl
    · split
      · split
        · exact level_alloc hinv [_] rfl rfl
        · exact level_alloc hinv [_] rfl rfl
        · exact Insert_alloc_level n0 b _ _ hinv
      · exact level_same hinv rfl rfl
  · exact level_same hinv rfl rfl

theorem appendFormalParam_level (n0 : Nat) (b : State) (p q : Nat) (hinv : LevelInv n0 b) :
    LevelStep n0 b (appendFormalParam b p q).state := by
  unfold appendFormalParam
  split
  · rename_i f heq
    exact level_set_same hinv p (.Function f)
      (.Function { f with FormalParams := f.FormalParams ++ [q] }) heq rfl rfl rfl
  · exact level_same hinv rfl rfl

theorem backfill_level (n0 : Nat) (b : State) (p : Nat) (bn rt : Ast) (hinv : LevelInv n0 b) :
    LevelStep n0 b (backfill b p bn rt).state := by
  unfold backfill
  split
  · rename_i f heq
    exact level_set_same hinv p (.Function f)
      (.Function { f with BlockAst := bn, ReturnType := rt }) heq rfl rfl rfl
  · exact level_same hinv rfl rfl

theorem leaveScope_level (n0 : Nat) (b : State) (hinv : LevelInv n0 b) :
    LevelStep n0 b (leaveScope b).state := by
  unfold leaveScope
  repeat' split
  all_goals exact level_same hinv rfl rfl

theorem declareParams_level (n0 : Nat) (p : Nat) (ps : List Ast) :
    ∀ b, LevelInv n0 b → LevelStep n0 b (declareParams p ps b).state := by
  induction ps with
  | nil => intro b hinv; exact level_same hinv rfl rfl
  | cons param rest ih =>
    intro b hinv
    unfold declareParams
    split
    · split
      · split
        · exact level_same hinv rfl rfl
        · split
          · exact andThen_level (Insert_alloc_level n0 b _ _ hinv) fun _ s _ hs =>
              andThen_level (appendFormalParam_level n0 s p _ hs) fun _ s2 _ hs2 => ih s2 hs2
          · exact level_same hinv rfl rfl
      · exact level_same hinv rfl rfl
    · exact level_same hinv rfl rfl

mutual
/-- Every handler keeps the scope-level invariant, provided no `Package` node is
visited inside a function scope and the catalogs hold symbols that existed
before the analysis. -/
theorem Visit_level (c : Catalog) (n0 : Nat) (hcat : ∀ p, IsCatalogPtr c p → p < n0) :
    ∀ (node : Ast) (top : Bool) (s : State), levelSafe top node = true →
      (top = true → AtTop s) → LevelInv n0 s → LevelStep n0 s (Visit c node s).state
  | .Program packages block, top, s, h, _, hinv => by
    rw [levelSafe, Bool.and_eq_true] at h
    rw [Visit_Program_eq]
    have he : LevelStep n0 s (programEntry s) := level_new_table hinv "global" 1 s.CurrentScope rfl rfl
    have hte : AtTop (programEntry s) :=
      ⟨s.tabs.length, _, rfl, (getElem?_append_add s.tabs _ 0).trans rfl, rfl⟩
    refine LevelStep_trans he (andThen_level
      (insertAll_level n0 _ (fun q hq => hcat q (Or.inl hq)) _ he.1 hte) fun _ b2 hr2 h2 => ?_)
    have ht2 := AtTop_restores (insertAll_restores _ _) hr2 hte
    refine andThen_level
      (insertAll_level n0 _ (fun q hq => hcat q (Or.inr (Or.inl hq))) _ h2 ht2) fun _ b3 hr3 h3 => ?_
    have ht3 := AtTop_restores (insertAll_restores _ _) hr3 ht2
    refine andThen_level (VisitEach_level c n0 hcat packages true b3 h.1 (fun _ => ht3) h3)
      fun _ b4 hr4 h4 => ?_
    have ht4 := AtTop_restores (VisitEach_restores c packages b3) hr4 ht3
    exact andThen_level (Visit_level c n0 hcat block true b4 h.2 (fun _ => ht4) h4)
      fun _ b5 _ h5 => leaveScope_level n0 b5 h5
  | .Package name, top, s, h, ht, hinv => by
    rw [levelSafe] at h
    rw [Visit, VisitPackage]
    exact insertAll_level n0 _ (fun q hq => hcat q (Or.inr (Or.inr ⟨name, hq⟩))) s hinv (ht h)
  | .Block declarations compoundStatement, top, s, h, ht, hinv => by
    rw [levelSafe, Bool.and_eq_true] at h
    rw [Visit]
    exact andThen_level (VisitEachEach_level c n0 hcat declarations top s h.1 ht hinv)
      fun _ s1 hr h1 => Visit_level c n0 hcat compoundStatement top s1 h.2
        (fun htop => AtTop_restores (VisitEachEach_restores c declarations s) hr (ht htop)) h1
  | .VarDecl varNode typeNode, _, s, _, _, hinv => by
    rw [Visit]
    exact VisitVarDecl_level n0 _ _ s hinv
  | .TypeN _ _, _, s, _, _, hinv => by rw [Visit]; exact level_same hinv rfl rfl
  | .BinOp left _ right, top, s, h, ht, hinv => by
    rw [levelSafe, Bool.and_eq_true] at h
    rw [Visit]
    exact andThen_level (Visit_level c n0 hcat left top s h.1 ht hinv)
      fun _ s1 hr h1 => Visit_level c n0 hcat right top s1 h.2
        (fun htop => AtTop_restores (Visit_restores c left s) hr (ht htop)) h1
  | .Number _, _, s, _, _, hinv => by rw [Visit]; exact level_same hinv rfl rfl
  | .Str _, _, s, _, _, hinv => by rw [Visit]; exact level_same hinv rfl rfl
  | .Boolean _, _, s, _, _, hinv => by rw [Visit]; exact level_same hinv rfl rfl
  | .ListN _ value, top, s, h, ht, hinv => by
    rw [levelSafe] at h
    rw [Visit]
    exact VisitEach_level c n0 hcat value top s h ht hinv
  | .DictN _ _ value, top, s, h, ht, hinv => by
    rw [levelSafe] at h
    rw [Visit]
    exact VisitEach_level c n0 hcat value top s h ht hinv
  | .Message _, _, s, _, _, hinv => by rw [Visit]; exact level_same hinv rfl rfl
  | .UnaryOp _ _, _, s, _, _, hinv => by rw [Visit]; exact level_same hinv rfl rfl
  | .Compound children, top, s, h, ht, hinv => by
    rw [levelSafe] at h
    rw [Visit]
    exact VisitEach_level c n0 hcat children top s h ht hinv
  | .Assign left _ right, top, s, h, ht, hinv => by
    rw [levelSafe, Bool.and_eq_true] at h
    rw [Visit]
    exact andThen_level (Visit_level c n0 hcat right top s h.1 ht hinv)
      fun _ s1 hr h1 => Visit_level c n0 hcat left top s1 h.2
        (fun htop => AtTop_restores (Visit_restores c right s) hr (ht htop)) h1
  | .Var tok value, _, s, _, _, hinv => by
    rw [Visit, VisitVar_state]
    exact level_same hinv rfl rfl
  | .NoOp, _, s, _, _, hinv => by rw [Visit]; exact level_same hinv rfl rfl
  | .FunctionDecl funcName formalParams blockNode returnType, top, s, h, _, hinv => by
    rw [levelSafe] at h
    rw [Visit]
    refine andThen_level (Insert_alloc_level n0 s _ _ hinv) fun _ b1 _ h1 => ?_
    rcases currentLevel_cases b1 with ⟨f, hl⟩ | ⟨level, hl⟩
    · rw [hl]
      exact level_same h1 rfl rfl
    · rw [hl, andThen_ok, NewScopedSymbolTable_eq, andThen_ok]
      have hN : LevelStep n0 b1
          ⟨b1.syms ++ seedObjects (wrapInt (level + 1)),
            b1.tabs ++ [⟨seedDict b1.syms.length, funcName, wrapInt (level + 1), b1.CurrentScope⟩],
            some b1.tabs.length, b1.FuncSymbol⟩ :=
        level_new_table h1 funcName (wrapInt (level + 1)) b1.CurrentScope rfl rfl
      refine LevelStep_trans hN ?_
      exact andThen_level (declareParams_level n0 _ formalParams _ hN.1) fun _ b4 _ h4 =>
        andThen_level (Visit_level c n0 hcat blockNode false b4 h (fun hf => by cases hf) h4)
          fun _ b5 _ h5 =>
        andThen_level (leaveScope_level n0 b5 h5) fun _ b6 _ h6 => backfill_level n0 b6 _ _ _ h6
  | .Param _ _, _, s, _, _, hinv => by rw [Visit]; exact level_same hinv rfl rfl
  | .FunctionCall id packageName funcName actualParams tok, top, s, h, ht, hinv => by
    rw [levelSafe] at h
    rw [Visit]
    have hrs := resolveCall_state packageName funcName actualParams.length tok s
    refine andThen_level (by rw [hrs]; exact level_same hinv rfl rfl) fun _ s1 hr h1 =>
      andThen_level (VisitEach_level c n0 hcat actualParams top s1 h (fun htop => ?_) h1)
        fun _ s2 _ h2 => level_same h2 rfl rfl
    rw [hr] at hrs
    have hs : s1 = s := hrs
    rw [hs]
    exact ht htop
  | .FunctionRef packageName funcName tok, _, s, _, _, hinv => by
    rw [Visit, VisitFunctionRef_state]
    exact level_same hinv rfl rfl
  | .Return statement, top, s, h, ht, hinv => by
    rw [levelSafe] at h
    rw [Visit]
    exact Visit_level c n0 hcat statement top s h ht hinv
  | .Print statement, top, s, h, ht, hinv => by
    rw [levelSafe] at h
    rw [Visit]
    exact Visit_level c n0 hcat statement top s h ht hinv
  | .While _ doBranch, top, s, h, ht, hinv => by
    rw [levelSafe] at h
    rw [Visit]
    exact VisitEach_level c n0 hcat doBranch top s h ht hinv
  | .If _ thenBranch elseBranch, top, s, h, ht, hinv => by
    rw [levelSafe, Bool.and_eq_true] at h
    rw [Visit]
    exact andThen_level (VisitEach_level c n0 hcat thenBranch top s h.1 ht hinv)
      fun _ s1 hr h1 => VisitEach_level c n0 hcat elseBranch top s1 h.2
        (fun htop => AtTop_restores (VisitEach_restores c thenBranch s) hr (ht htop)) h1
  | .Logical left _ right, top, s, h, ht, hinv => by
    rw [levelSafe, Bool.and_eq_true] at h
    rw [Visit]
    exact andThen_level (Visit_level c n0 hcat left top s h.1 ht hinv)
      fun _ s1 hr h1 => Visit_level c n0 hcat right top s1 h.2
        (fun htop => AtTop_restores (Visit_restores c left s) hr (ht htop)) h1
  | .Nil, _, s, _, _, hinv => by rw [Visit]; exact level_same hinv rfl rfl
/-- The loop over a list of nodes keeps the scope-level invariant. -/
theorem VisitEach_level (c : Catalog) (n0 : Nat) (hcat : ∀ p, IsCatalogPtr c p → p < n0) :
    ∀ (ns : List Ast) (top : Bool) (s : State), levelSafeEach top ns = true →
      (top = true → AtTop s) → LevelInv n0 s → LevelStep n0 s (VisitEach c ns s).state
  | [], _, s, _, _, hinv => by rw [VisitEach]; exact level_same hinv rfl rfl
  | node :: rest, top, s, h, ht, hinv => by
    rw [levelSafeEach, Bool.and_eq_true] at h
    rw [VisitEach]
    exact andThen_level (Visit_level c n0 hcat node top s h.1 ht hinv)
      fun _ s1 hr h1 => VisitEach_level c n0 hcat rest top s1 h.2
        (fun htop => AtTop_restores (Visit_restores c node s) hr (ht htop)) h1
/-- The loop over the declaration lists keeps the scope-level invariant. -/
theorem VisitEachEach_level (c : Catalog) (n0 : Nat) (hcat : ∀ p, IsCatalogPtr c p → p < n0) :
    ∀ (ds : List (List Ast)) (top : Bool) (s : State), levelSafeEachEach top ds = true →
      (top = true → AtTop s) → LevelInv n0 s → LevelStep n0 s (VisitEachEach c ds s).state
  | [], _, s, _, _, hinv => by rw [VisitEachEach]; exact level_same hinv rfl rfl
  | d :: rest, top, s, h, ht, hinv => by
    rw [levelSafeEachEach, Bool.and_eq_true] at h
    rw [VisitEachEach]
    exact andThen_level (VisitEach_level c n0 hcat d top s h.1 ht hinv)
      fun _ s1 hr h1 => VisitEachEach_level c n0 hcat rest top s1 h.2
        (fun htop => AtTop_restores (VisitEach_restores c d s) hr (ht htop)) h1
end

/-- C19, amended: the analysis starts from an analyzer that has no table yet,
with catalogs that hold symbol objects of its heap.  The invariant `LevelInv`
(every symbol bound in a table of the heap, the tables of the current scope
chain among them, has the level of that table) holds at the start, and every
visit of a node in which no `Package` node is visited inside a function scope,
started at any point where the invariant holds (at the level of a program when
the node has a `Package` node outside of every function), ends, completed or
stopped by a fault, at a point where the invariant holds, no symbol that was
bound in a table having changed its level.  So the invariant holds where the
visit of such a program ends. -/
theorem scope_levels_kept (c : Catalog) (b : State) (hb : b.tabs = [])
    (hcat : ∀ p, IsCatalogPtr c p → p < b.syms.length) :
    LevelInv b.syms.length b ∧
    (∀ (node : Ast) (top : Bool) (s : State), levelSafe top node = true →
      (top = true → AtTop s) → LevelInv b.syms.length s →
      LevelInv b.syms.length (Visit c node s).state ∧ LevelKept s (Visit c node s).state) ∧
    ∀ packages block, levelSafe false (.Program packages block) = true →
      LevelInv b.syms.length (Visit c (.Program packages block) b).state ∧
      LevelKept b (Visit c (.Program packages block) b).state := by
  have h0 : LevelInv b.syms.length b := by
    refine ⟨Nat.le_refl _, ?_⟩
    intro t tab k p htab
    rw [hb] at htab
    simp at htab
  have hstep : ∀ (node : Ast) (top : Bool) (s : State), levelSafe top node = true →
      (top = true → AtTop s) → LevelInv b.syms.length s →
      LevelInv b.syms.length (Visit c node s).state ∧ LevelKept s (Visit c node s).state := by
    intro node top s h ht hinv
    have hs := Visit_level c b.syms.length hcat node top s h ht hinv
    exact ⟨hs.1, LevelKept_of_frame hinv hs.2⟩
  exact ⟨h0, hstep, fun packages block h =>
    hstep _ false b h (fun hf => by cases hf) h0⟩

theorem scope_levels_kept_witness :
    LevelInv mathState.syms.length
      (Visit mathCatalog (.Program [.Package "math"] (.Block [[nestedDecl]] (.Compound [])))
        mathState).state ∧
    LevelKept mathState
      (Visit mathCatalog (.Program [.Package "math"] (.Block [[nestedDecl]] (.Compound [])))
        mathState).state :=
  (scope_levels_kept mathCatalog mathState rfl (by
    rintro p (h | h | ⟨name, h⟩)
    · cases h
    · cases h
    · by_cases hn : name = "math"
      · simp [mathCatalog, hn] at h
        subst h
        decide
      · simp [mathCatalog, hn] at h)).2.2
    [.Package "math"] (.Block [[nestedDecl]] (.Compound [])) rfl

/-! ## The log line of `Insert` -/

/-- A function symbol whose first formal parameter is a variable of the type of
that function symbol is printed by no depth of calls. -/
theorem symbolString_cycle (showAst : Ast → String) (syms : List SymbolObj) (f a : Nat)
    (fs : FunctionSymbol) (v : VarSymbol) (rest : List Nat)
    (hf : syms[f]? = some (.Function fs)) (hparams : fs.FormalParams = a :: rest)
    (ha : syms[a]? = some (.Var v)) (hty : v.Typ = some f) :
    ∀ depth, symbolString showAst syms depth (some f) = .error .diverge ∧
      symbolString showAst syms depth (some a) = .error .diverge := by
  intro depth
  induction depth with
  | zero => exact ⟨rfl, rfl⟩
  | succ d ih =>
    constructor
    · simp only [symbolString, hf, hparams, List.map_cons, ih.2, collect]
    · simp only [symbolString, ha, hty, ih.1]

theorem collect_map_ok {α : Type} (g h : α → Except Fault String) (l : List α)
    (hgh : ∀ q str, g q = .ok str → h q = .ok str) :
    ∀ ps, collect (l.map g) = .ok ps → collect (l.map h) = .ok ps := by
  induction l with
  | nil => intro ps hps; exact hps
  | cons q rest ih =>
    intro ps hps
    simp only [List.map_cons] at hps ⊢
    cases hq : g q with
    | error e =>
      rw [hq] at hps
      simp [collect] at hps
    | ok str =>
      rw [hq] at hps
      rw [hgh q str hq]
      cases hr : collect (rest.map g) with
      | error e =>
        simp [collect, hr] at hps
      | ok l1 =>
        simp only [collect, hr] at hps
        simp only [collect, ih l1 hr]
        exact hps

/-- A printing that returns within a depth returns the same text within every
greater depth. -/
theorem symbolString_succ (showAst : Ast → String) (syms : List SymbolObj) :
    ∀ (depth : Nat) (p : Option Nat) (str : String),
      symbolString showAst syms depth p = .ok str →
      symbolString showAst syms (depth + 1) p = .ok str := by
  intro depth
  induction depth with
  | zero =>
    intro p str h
    cases h
  | succ d ih =>
    intro p str h
    cases p with
    | none => exact h
    | some q =>
      cases hq : syms[q]? with
      | none =>
        simp only [symbolString, hq] at h ⊢
        exact h
      | some obj =>
        cases obj with
        | Var s =>
          simp only [symbolString, hq] at h ⊢
          cases ht : symbolString showAst syms d s.Typ with
          | error e =>
            rw [ht] at h
            cases h
          | ok t =>
            rw [ht] at h
            have h1 := ih s.Typ t ht
            simp only [symbolString] at h1
            rw [h1]
            exact h
        | BuiltinType s =>
          simp only [symbolString, hq] at h ⊢
          exact h
        | Function s =>
          simp only [symbolString, hq] at h ⊢
          cases hc : collect (s.FormalParams.map fun q => symbolString showAst syms d (some q)) with
          | error e =>
            rw [hc] at h
            cases h
          | ok ps =>
            rw [hc] at h
            have h1 := collect_map_ok (fun q => symbolString showAst syms d (some q))
              (fun q => symbolString showAst syms (d + 1) (some q)) s.FormalParams
              (fun q str hq => ih (some q) str hq) ps hc
            simp only [symbolString] at h1
            rw [h1]
            exact h

theorem symbolString_mono (showAst : Ast → String) (syms : List SymbolObj) (depth stack : Nat)
    (p : Option Nat) (str : String) (h : symbolString showAst syms depth p = .ok str)
    (hle : depth ≤ stack) : symbolString showAst syms stack p = .ok str := by
  induction hle with
  | refl => exact h
  | step _ ih => exact symbolString_succ showAst syms _ p str ih

theorem InsertLogged_ok (showAst : Ast → String) (depth : Nat) (b : State) (t : Option Nat)
    (symbol : Nat) (str : String)
    (h : symbolString showAst b.syms depth (some symbol) = .ok str) :
    InsertLogged showAst depth b t symbol = Insert b t symbol := by
  simp only [InsertLogged, logInsert, h, andThen_ok]

theorem InsertLogged_fault (showAst : Ast → String) (depth : Nat) (b : State) (t : Option Nat)
    (symbol : Nat) (f : Fault)
    (h : symbolString showAst b.syms depth (some symbol) = .error f) :
    InsertLogged showAst depth b t symbol = .fault f b := by
  simp only [InsertLogged, logInsert, h, andThen_fault]

/-- C4, as the code has it: when the visit of `func f(a f, b f) { }` calls
`Insert` on the variable symbol of `b`, the log line prints the symbol, whose
type is the function symbol, whose formal parameter is `a`, whose type is the
function symbol again: with its log line `Insert` returns for no depth of the
stack, while the type switch alone would store the symbol, and the loop over the
parameters, which calls `Insert` in that state, and the whole visit would
complete. -/
theorem Insert_of_cyclic_symbol :
    secondParamState.CurrentScope = some 1 ∧
    secondParamState.syms[14]? = some (.Var { Name := "b", Typ := some 6, ScopeLevel := 0 }) ∧
    secondParamState.syms[6]? =
      some (.Function { NewFunctionSymbol "f" with FormalParams := [13], ScopeLevel := 1 }) ∧
    secondParamState.syms[13]? = some (.Var { Name := "a", Typ := some 6, ScopeLevel := 2 }) ∧
    (∀ (showAst : Ast → String) (depth : Nat),
      InsertLogged showAst depth secondParamState secondParamState.CurrentScope 14 =
        .fault .diverge secondParamState) ∧
    (Insert secondParamState secondParamState.CurrentScope 14).fault? = none ∧
    declareParams 6
      [.Param (.Var (ident "a") "a") (.TypeN (ident "f") "f"),
       .Param (.Var (ident "b") "b") (.TypeN (ident "f") "f")]
      (functionEntry (programEntry NewSemanticAnalyzer) 0 ⟨seedDict 0, "global", 1, none⟩ "f") =
      ((Insert secondParamState secondParamState.CurrentScope 14).andThen fun _ b1 =>
        (appendFormalParam b1 6 14).andThen fun _ b2 => declareParams 6 [] b2) ∧
    (Visit emptyCatalog selfTypedParams NewSemanticAnalyzer).fault? = none := by
  refine ⟨rfl, rfl, rfl, rfl, ?_, rfl, rfl, rfl⟩
  intro showAst depth
  apply InsertLogged_fault
  cases depth with
  | zero => rfl
  | succ d =>
    have h := (symbolString_cycle showAst secondParamState.syms 6 13
      { NewFunctionSymbol "f" with FormalParams := [13], ScopeLevel := 1 }
      { Name := "a", Typ := some 6, ScopeLevel := 2 } [] rfl rfl rfl rfl d).1
    have hb : secondParamState.syms[14]? =
        some (.Var { Name := "b", Typ := some 6, ScopeLevel := 0 }) := rfl
    simp only [symbolString, hb, h]

/-- C4, amended: on a table `t` and a symbol `symbol` (a variable, a builtin
type or a function) whose printing by the log line returns within a depth that
the stack allows, `Insert`, log line included, returns without a fault;
afterwards `t` binds the key of the symbol to the symbol, whatever it bound under
that key before, and binds every other key as before; the name, level and
enclosing table of `t` are unchanged; the symbol carries the level of `t`; no
other symbol and no other table is changed; and `Lookup(key, true)` on `t`
returns the symbol. -/
theorem InsertLogged_binds (showAst : Ast → String) (depth stack : Nat) (b : State)
    (t symbol : Nat) (tab : ScopedSymbolTable) (obj : SymbolObj) (str : String)
    (htab : b.tabs[t]? = some tab) (hobj : b.syms[symbol]? = some obj)
    (hshow : symbolString showAst b.syms depth (some symbol) = .ok str)
    (hstack : depth ≤ stack) :
    ∃ b1 tab1, InsertLogged showAst stack b (some t) symbol = .ok () b1 ∧
      b1.tabs[t]? = some tab1 ∧
      tab1.symbols.Get (insertKey obj) = some symbol ∧
      (∀ k, k ≠ insertKey obj → tab1.symbols.Get k = tab.symbols.Get k) ∧
      tab1.ScopeName = tab.ScopeName ∧ tab1.ScopeLevel = tab.ScopeLevel ∧
      tab1.EnclosingScope = tab.EnclosingScope ∧
      b1.syms[symbol]? = some (obj.withScopeLevel tab.ScopeLevel) ∧
      (∀ p, p ≠ symbol → b1.syms[p]? = b.syms[p]?) ∧
      (∀ u, u ≠ t → b1.tabs[u]? = b.tabs[u]?) ∧
      b1.CurrentScope = b.CurrentScope ∧
      Lookup b1 (some t) (insertKey obj) true = .ok (some symbol) := by
  rw [InsertLogged_ok showAst stack b (some t) symbol str
    (symbolString_mono showAst b.syms depth stack (some symbol) str hshow hstack)]
  exact Insert_stores b t symbol tab obj htab hobj

theorem InsertLogged_binds_witness :
    demoState.tabs[1]? = some ⟨⟨[("x", 2)]⟩, "f", 2, some 0⟩ ∧
    demoState.syms[3]? = some (.Var { Name := "y", Typ := some 0, ScopeLevel := 1 }) ∧
    symbolString (fun _ => "") demoState.syms 2 (some 3) =
      .ok "<VarSymbol(name=y, type=<BuiltinTypeSymbol(name=INTEGER)>)>" ∧
    ∃ b1 tab1, InsertLogged (fun _ => "") 1000 demoState (some 1) 3 = .ok () b1 ∧
      b1.tabs[1]? = some tab1 ∧
      tab1.symbols.Get "y" = some 3 ∧
      (∀ k, k ≠ "y" → tab1.symbols.Get k = (⟨[("x", 2)]⟩ : OrderedDict).Get k) ∧
      tab1.ScopeName = "f" ∧ tab1.ScopeLevel = 2 ∧
      tab1.EnclosingScope = some 0 ∧
      b1.syms[3]? = some (.Var { Name := "y", Typ := some 0, ScopeLevel := 2 }) ∧
      (∀ p, p ≠ 3 → b1.syms[p]? = demoState.syms[p]?) ∧
      (∀ u, u ≠ 1 → b1.tabs[u]? = demoState.tabs[u]?) ∧
      b1.CurrentScope = demoState.CurrentScope ∧
      Lookup b1 (some 1) "y" true = .ok (some 3) :=
  ⟨rfl, rfl, rfl, InsertLogged_binds (fun _ => "") 2 1000 demoState 1 3
    ⟨⟨[("x", 2)]⟩, "f", 2, some 0⟩ (.Var { Name := "y", Typ := some 0, ScopeLevel := 1 })
    "<VarSymbol(name=y, type=<BuiltinTypeSymbol(name=INTEGER)>)>" rfl rfl rfl (by decide)⟩

end Script
